import Mathlib

/-!
# tarsier: the blob tracker `TrackBlobs` and four event filters

A shallow embedding of `tarsier::TrackBlobs` (source/trackBlobs.hpp) and the
properties of its per-event handler `operator()`, followed by the handlers of
`MaskIsolated`, `SelectRectangle`, `MirrorY` and `ComputeActivity`.

Modelling conventions.

* `double` is an arbitrary linear ordered field `α` (exact arithmetic, no
  rounding, no NaN, no overflow).  The three libm entry points the handler
  calls (`std::exp`, `std::sqrt`, `M_PI`) are the fields of a `Libm α` record,
  so that every definition is executable over `ℚ` and every theorem holds for
  the real functions (`Real.exp`, `Real.sqrt`, `Real.pi`) as a special case.
  `std::pow(v, 2)` is `v ^ 2` and `std::hypot(a, b)` is `sqrt (a ^ 2 + b ^ 2)`.
  Where a property of the code hangs on an underflow, the function that
  underflows is a parameter: `Libm.underflowing` is a libm whose `exp` is 0
  below -746, and `repulsePairWith` takes the square of lines 186-187 as a
  function, `underflowingSquare` being 0 below `1e-163`.  Overflow to
  infinity and NaN have no counterpart in `α`; a theorem that evaluates the
  code where `double` overflows gives the exact value and its size.
* `std::vector<Data>` is a `List`, an iterator is a position in it.  Like the
  pointer it is in every `std::vector`, the iterator `winner` keeps
  *pointing at the same position* when `erase` shifts the tail of the vector
  to the left.
* `event.x`, `event.y` are taken after `static_cast<double>`.  `Event` is a
  template parameter, and line 111 negates the difference of two timestamps
  in the type of `event.timestamp`.  `process` and `run` are the handler for
  an `Event` whose timestamp is a signed integer like `_previousTimestamp`
  (the difference of two timestamps not overflowing); `processUnsigned` and
  `runUnsigned` are the handler for an `Event` whose timestamp is
  `uint_fast64_t`, as in the `Event` structs of the repository, where the
  negation wraps around at `2 ^ 64`.  The two differ in the factor of
  line 111 only.
* `std::size_t` counters are naturals; `++_idOffset` wraps at `2 ^ 64`.
* The callbacks are recorded as the list of `Notification`s, in call order.
* The events of the four filters have unsigned 64-bit fields (`PixelEvent`);
  their sums, differences and products wrap at `2 ^ 64` (`wrapAdd`, `wrapSub`,
  `wrapMul`).  A filter's calls of its handler are the list it returns.
-/

set_option autoImplicit false
set_option linter.unusedVariables false
set_option linter.unusedSectionVars false
set_option linter.unnecessarySeqFocus false

namespace tarsier

/-! ## Data model -/

/-- The libm functions and constant used by the handler. -/
structure Libm (α : Type) where
  exp : α → α
  sqrt : α → α
  pi : α

/-- Blob represents a tracked gaussian blob. -/
structure Blob (α : Type) where
  x : α
  y : α
  squaredSigmaX : α
  sigmaXY : α
  squaredSigmaY : α
deriving DecidableEq, Repr

/-- Status represents the blob lifecycle status. -/
inductive Status where
  | hidden
  | promoted
  | demoted
deriving DecidableEq, Repr

/-- Data represents the algorithm's inner data associated with a blob. -/
structure Data (α : Type) where
  id : Nat
  blob : Blob α
  activity : α
  status : Status
deriving DecidableEq, Repr

/-- The fields of the `Event` template parameter that the handler reads.  The
timestamp is the integer the field holds: a natural number below `2 ^ 64` when
its type is `uint_fast64_t`. -/
structure Event (α : Type) where
  x : α
  y : α
  timestamp : Int
deriving DecidableEq, Repr

/-- One call of one of the four handlers, with its arguments. -/
inductive Notification (α : Type) where
  | promoted (id : Nat) (blob : Blob α)
  | updated (id : Nat) (blob : Blob α)
  | demoted (id : Nat) (blob : Blob α)
  | deleted (id : Nat) (blob : Blob α)
deriving DecidableEq, Repr

/-- The member variables of `TrackBlobs` (the handlers apart). -/
structure TrackBlobs (α : Type) where
  initialBlobs : List (Blob α)
  activityDecay : α
  minimumProbability : α
  promotionActivity : α
  deletionActivity : α
  meanInertia : α
  covarianceInertia : α
  repulsionStrength : α
  repulsionLength : α
  attractionStrength : α
  attractionResetDistanceSquared : α
  pairwiseCalculationsToSkip : Nat
  previousTimestamp : Int
  skippedEvents : Nat
  datum : List (Data α)
  idOffset : Nat
deriving Repr

variable {α : Type} [LinearOrderedField α]

/-- The value read by an out-of-range `_initialBlobs[id]` (undefined in the
source). -/
def Blob.zero : Blob α := ⟨0, 0, 0, 0, 0⟩

/-- The width of `std::size_t`. -/
def sizeMax : Nat := 2 ^ 64

/-! ## Association (trackBlobs.hpp, lines 89-109) -/

/-- The covariance determinant (line 94). -/
def determinant (b : Blob α) : α :=
  b.squaredSigmaX * b.squaredSigmaY - b.sigmaXY ^ 2

/-- The value `probabilityCandidate` (lines 92-103). -/
def probabilityCandidate (m : Libm α) (ev : Event α) (b : Blob α) : α :=
  let xPosition := ev.x - b.x
  let yPosition := ev.y - b.y
  m.exp (-(xPosition ^ 2 * b.squaredSigmaY + yPosition ^ 2 * b.squaredSigmaX
      - 2 * xPosition * yPosition * b.sigmaXY) / (2 * determinant b))
    / m.sqrt (determinant b)

/-- The association loop (lines 91-108) from position `pos` on, with the
current values of `probability` and `winner`. -/
def associateLoop (m : Libm α) (ev : Event α) :
    Nat → List (Data α) → α → Nat → α × Nat
  | _, [], probability, winner => (probability, winner)
  | pos, d :: rest, probability, winner =>
    if probabilityCandidate m ev d.blob > probability then
      associateLoop m ev (pos + 1) rest (probabilityCandidate m ev d.blob) pos
    else
      associateLoop m ev (pos + 1) rest probability winner

/-- Lines 89-109: the normalized `probability` and the position `winner`
(`datum.length` stands for `_datum.end()`). -/
def associate (m : Libm α) (ev : Event α) (datum : List (Data α)) : α × Nat :=
  let r := associateLoop m ev 0 datum 0 datum.length
  (r.1 / (2 * m.pi), r.2)

/-! ## Decay, update and lifecycle (lines 111-177) -/

/-- The factor `exponentialDecay` (line 111), for an `Event` whose timestamp
is a signed integer: the difference is negated as an integer and converted to
`double` by the division.  (For an unsigned timestamp see
`exponentialDecayUnsigned`.) -/
def exponentialDecay (m : Libm α) (s : TrackBlobs α) (ev : Event α) : α :=
  m.exp (((-(ev.timestamp - s.previousTimestamp) : Int) : α) / s.activityDecay)

/-- The mean and covariance update of lines 117-126, in exact arithmetic
(`std::pow(v, 2)` is `v ^ 2`, nothing is rounded). -/
def updateBlob (s : TrackBlobs α) (ev : Event α) (b : Blob α) : Blob α :=
  let x := s.meanInertia * b.x + (1 - s.meanInertia) * ev.x
  let y := s.meanInertia * b.y + (1 - s.meanInertia) * ev.y
  let xPosition := ev.x - x
  let yPosition := ev.y - y
  { x := x
    y := y
    squaredSigmaX := s.covarianceInertia * b.squaredSigmaX + (1 - s.covarianceInertia) * xPosition ^ 2
    sigmaXY := s.covarianceInertia * b.sigmaXY + (1 - s.covarianceInertia) * xPosition * yPosition
    squaredSigmaY := s.covarianceInertia * b.squaredSigmaY + (1 - s.covarianceInertia) * yPosition ^ 2 }

/-- The test of line 115, for an iterator standing at `winner` or not. -/
def updates (s : TrackBlobs α) (probability : α) (atWinner : Bool) : Bool :=
  atWinner && decide (probability > s.minimumProbability)

/-- Lines 114-126: the entry under the iterator after decay and update. -/
def decayUpdate (s : TrackBlobs α) (ev : Event α) (probability decay : α)
    (atWinner : Bool) (d : Data α) : Data α :=
  if updates s probability atWinner then
    { d with
      activity := d.activity * decay + probability
      blob := updateBlob s ev d.blob }
  else
    { d with activity := d.activity * decay }

/-- Lines 127-129: the call of `_handleUpdatedBlob`, given the entry after
decay and update. -/
def updateNotes (s : TrackBlobs α) (probability : α) (atWinner : Bool)
    (d : Data α) : List (Notification α) :=
  if updates s probability atWinner && decide (d.status = Status.promoted) then
    [Notification.updated d.id d.blob]
  else
    []

/-- What one turn of the switch of lines 132-175 does with the entry under
the iterator: `kept` is the entry left in `_datum` (`none` after `erase`),
`spawned` the entry pushed on `datumToAdd`, `notes` the handler calls. -/
structure Visit (α : Type) where
  kept : Option (Data α)
  spawned : Option (Data α)
  notes : List (Notification α)
deriving Repr

/-- The switch of lines 132-175 on an entry `d` (after decay and update). -/
def transition (s : TrackBlobs α) (idOffset : Nat) (d : Data α) : Visit α :=
  match d.status with
  | Status.hidden =>
    if d.activity > s.promotionActivity then
      { kept := some { d with blob := s.initialBlobs.getD d.id Blob.zero, activity := 0 }
        spawned := some ⟨idOffset, d.blob, d.activity, Status.promoted⟩
        notes := [Notification.promoted idOffset d.blob] }
    else
      { kept := some d, spawned := none, notes := [] }
  | Status.promoted =>
    if d.activity ≤ s.promotionActivity then
      if d.activity ≤ s.deletionActivity then
        { kept := none, spawned := none, notes := [Notification.deleted d.id d.blob] }
      else
        { kept := some { d with status := Status.demoted }, spawned := none
          notes := [Notification.demoted d.id d.blob] }
    else
      { kept := some d, spawned := none, notes := [] }
  | Status.demoted =>
    if d.activity ≤ s.deletionActivity then
      { kept := none, spawned := none, notes := [Notification.deleted d.id d.blob] }
    else if d.activity > s.promotionActivity then
      { kept := some { d with status := Status.promoted }, spawned := none
        notes := [Notification.promoted d.id d.blob] }
    else
      { kept := some d, spawned := none, notes := [] }

/-- The variables the loop of lines 113-176 writes: the part of `_datum`
already passed, `datumToAdd`, `_idOffset`, and the handler calls made. -/
structure Pass (α : Type) where
  datum : List (Data α)
  datumToAdd : List (Data α)
  idOffset : Nat
  notes : List (Notification α)
deriving Repr

/-- The loop of lines 113-176 with the iterator at position `pos` and the
entries from there on in `rest`.  After an `erase` the iterator stays at
`pos`; otherwise it moves to `pos + 1`. -/
def lifecycleLoop (s : TrackBlobs α) (ev : Event α) (probability decay : α) (winner : Nat) :
    Nat → Nat → List (Data α) → Pass α
  | _, idOffset, [] => ⟨[], [], idOffset, []⟩
  | pos, idOffset, d :: rest =>
    let d1 := decayUpdate s ev probability decay (decide (pos = winner)) d
    let v := transition s idOffset d1
    let r := lifecycleLoop s ev probability decay winner
      (if v.kept.isSome then pos + 1 else pos)
      (if v.spawned.isSome then (idOffset + 1) % sizeMax else idOffset) rest
    { datum := v.kept.toList ++ r.datum
      datumToAdd := v.spawned.toList ++ r.datumToAdd
      idOffset := r.idOffset
      notes := updateNotes s probability (decide (pos = winner)) d1 ++ v.notes ++ r.notes }

/-- The loop of lines 113-176 as `operator()` runs it: from the first
entry, with the `probability` and `winner` of the association. -/
def lifecyclePass (m : Libm α) (s : TrackBlobs α) (ev : Event α) : Pass α :=
  lifecycleLoop s ev (associate m ev s.datum).1 (exponentialDecay m s ev)
    (associate m ev s.datum).2 0 s.idOffset s.datum

/-- The first block of `operator()` (lines 88-178): association, decay,
update, lifecycle, and the insertion of `datumToAdd` at the end. -/
def lifecycle (m : Libm α) (s : TrackBlobs α) (ev : Event α) :
    TrackBlobs α × List (Notification α) :=
  let r := lifecyclePass m s ev
  ({ s with datum := r.datum ++ r.datumToAdd, idOffset := r.idOffset }, r.notes)

/-! ## Pairwise correction (lines 180-221) -/

/-- The vectors `xDeltas` and `yDeltas`. -/
structure Deltas (α : Type) where
  x : List α
  y : List α
deriving Repr

/-- The statement `v[i] += a`; an out-of-range `i` (undefined in the source)
changes nothing. -/
def addAt (v : List α) (i : Nat) (a : α) : List α :=
  v.set i (v.getD i 0 + a)

/-- The function `std::hypot`. -/
def hypot (m : Libm α) (a b : α) : α :=
  m.sqrt (a ^ 2 + b ^ 2)

/-- The body of the inner loop (lines 186-203) for the entries `a` at
position `i` and `b` at position `j`, with exact squares: `activitySum` is 0
when both activities are 0 and only then.  (With the squares as `std::pow`
computes them see `repulsePairWith`.) -/
def repulsePair (m : Libm α) (s : TrackBlobs α) (i j : Nat) (a b : Data α)
    (ds : Deltas α) : Deltas α :=
  let squaredActivity := a.activity ^ 2
  let otherSquaredActivity := b.activity ^ 2
  let activitySum := squaredActivity + otherSquaredActivity
  let distanceDecay := s.repulsionStrength
    * m.exp (-(hypot m (a.blob.x - b.blob.x) (a.blob.y - b.blob.y)) / s.repulsionLength)
  let activityCorrection := if activitySum = 0 then 0 else otherSquaredActivity / activitySum
  let x1 := addAt ds.x i (-(distanceDecay * activityCorrection * (b.blob.x - a.blob.x)))
  let y1 := addAt ds.y i (-(distanceDecay * activityCorrection * (b.blob.y - a.blob.y)))
  let otherActivityCorrection := if activitySum = 0 then 0 else squaredActivity / activitySum
  { x := addAt x1 j (-(distanceDecay * otherActivityCorrection * (a.blob.x - b.blob.x)))
    y := addAt y1 j (-(distanceDecay * otherActivityCorrection * (a.blob.y - b.blob.y))) }

/-- The inner loop of line 185, `otherDataIterator` at position `j`. -/
def repulseInner (m : Libm α) (s : TrackBlobs α) (i : Nat) (a : Data α) :
    Nat → List (Data α) → Deltas α → Deltas α
  | _, [], ds => ds
  | j, b :: rest, ds => repulseInner m s i a (j + 1) rest (repulsePair m s i j a b ds)

/-- The outer loop of line 184, `dataIterator` at position `i`. -/
def repulseOuter (m : Libm α) (s : TrackBlobs α) :
    Nat → List (Data α) → Deltas α → Deltas α
  | _, [], ds => ds
  | i, a :: rest, ds => repulseOuter m s (i + 1) rest (repulseInner m s i a (i + 1) rest ds)

/-- The `std::for_each` of lines 206-214: attraction (added at index
`data.id`) or reset of each entry, in order. -/
def attract (s : TrackBlobs α) : List (Data α) → Deltas α → List (Data α) × Deltas α
  | [], ds => ([], ds)
  | d :: rest, ds =>
    if d.blob.x ^ 2 + d.blob.y ^ 2 > s.attractionResetDistanceSquared then
      let r := attract s rest
        { x := addAt ds.x d.id
            (s.attractionStrength * ((s.initialBlobs.getD d.id Blob.zero).x - d.blob.x))
          y := addAt ds.y d.id
            (s.attractionStrength * ((s.initialBlobs.getD d.id Blob.zero).y - d.blob.y)) }
      (d :: r.1, r.2)
    else
      let r := attract s rest ds
      ({ d with blob := s.initialBlobs.getD d.id Blob.zero, activity := 0 } :: r.1, r.2)

/-- The loop of lines 215-218, the iterator at position `pos`. -/
def applyDeltas (ds : Deltas α) : Nat → List (Data α) → List (Data α)
  | _, [] => []
  | pos, d :: rest =>
    { d with blob := { d.blob with x := d.blob.x + ds.x.getD pos 0, y := d.blob.y + ds.y.getD pos 0 } }
      :: applyDeltas ds (pos + 1) rest

/-- The correction pass (lines 182-218) on the population `_datum`. -/
def correct (m : Libm α) (s : TrackBlobs α) : List (Data α) :=
  let zero : Deltas α :=
    { x := List.replicate s.datum.length 0, y := List.replicate s.datum.length 0 }
  let r := attract s s.datum (repulseOuter m s 0 s.datum zero)
  applyDeltas r.2 0 r.1

/-- The second block of `operator()` (lines 180-221). -/
def pairwise (m : Libm α) (s : TrackBlobs α) : TrackBlobs α :=
  if s.skippedEvents ≥ s.pairwiseCalculationsToSkip then
    { s with skippedEvents := 0, datum := correct m s }
  else
    { s with skippedEvents := s.skippedEvents + 1 }

/-- The handler `operator()` (lines 87-224): the engine after the event and
the handler calls made, in order. -/
def process (m : Libm α) (s : TrackBlobs α) (ev : Event α) :
    TrackBlobs α × List (Notification α) :=
  let r := lifecycle m s ev
  ({ pairwise m r.1 with previousTimestamp := ev.timestamp }, r.2)

/-- The constructor (lines 34-79).  `_attractionStrength` is initialised from
itself (line 62), not from the argument `attractionStrength`, and
`_skippedEvents` is not initialised at all, so both hold whatever the memory
held: `garbageStrength` and `garbageSkipped`. -/
def construct (initialBlobs : List (Blob α)) (initialTimestamp : Int)
    (activityDecay minimumProbability promotionActivity deletionActivity meanInertia
      covarianceInertia repulsionStrength repulsionLength attractionStrength
      attractionResetDistance : α) (pairwiseCalculationsToSkip : Nat)
    (garbageStrength : α) (garbageSkipped : Nat) : TrackBlobs α :=
  { initialBlobs := initialBlobs
    activityDecay := activityDecay
    minimumProbability := minimumProbability
    promotionActivity := promotionActivity
    deletionActivity := deletionActivity
    meanInertia := meanInertia
    covarianceInertia := covarianceInertia
    repulsionStrength := repulsionStrength
    repulsionLength := repulsionLength
    attractionStrength := garbageStrength
    attractionResetDistanceSquared := attractionResetDistance ^ 2
    pairwiseCalculationsToSkip := pairwiseCalculationsToSkip
    previousTimestamp := initialTimestamp
    skippedEvents := garbageSkipped
    datum := (List.range initialBlobs.length).map
      (fun i => ⟨i, initialBlobs.getD i Blob.zero, 0, Status.hidden⟩)
    idOffset := 0 }

/-- The engine after a sequence of events, with all handler calls made. -/
def run (m : Libm α) : TrackBlobs α → List (Event α) → TrackBlobs α × List (Notification α)
  | s, [] => (s, [])
  | s, ev :: rest =>
    let r := process m s ev
    let q := run m r.1 rest
    (q.1, r.2 ++ q.2)

/-! ## The specification's density, and one entry followed through the loop -/

/-- The bivariate Gaussian density of the event position under a blob, as the
specification words it:
`exp(-(dx²·σy² + dy²·σx² - 2·dx·dy·σxy) / (2·det)) / (2π·√det)`. -/
def gaussianDensity (m : Libm α) (ev : Event α) (b : Blob α) : α :=
  m.exp (-((ev.x - b.x) ^ 2 * b.squaredSigmaY + (ev.y - b.y) ^ 2 * b.squaredSigmaX
      - 2 * (ev.x - b.x) * (ev.y - b.y) * b.sigmaXY) / (2 * determinant b))
    / (2 * m.pi * m.sqrt (determinant b))

/-- Two stretches of the loop, one after the other. -/
def Pass.append (a b : Pass α) : Pass α :=
  { datum := a.datum ++ b.datum
    datumToAdd := a.datumToAdd ++ b.datumToAdd
    idOffset := b.idOffset
    notes := a.notes ++ b.notes }

/-- The loop variables of `operator()` when the iterator has passed the
entries `pre` at the front of `_datum`. -/
def reach (m : Libm α) (s : TrackBlobs α) (ev : Event α) (pre : List (Data α)) : Pass α :=
  lifecycleLoop s ev (associate m ev s.datum).1 (exponentialDecay m s ev)
    (associate m ev s.datum).2 0 s.idOffset pre

/-- Whether the iterator stands at `winner` when it has passed `pre`. -/
def atWinner (m : Libm α) (s : TrackBlobs α) (ev : Event α) (pre : List (Data α)) : Bool :=
  decide ((reach m s ev pre).datum.length = (associate m ev s.datum).2)

/-- The entry `d` that follows `pre` in `_datum`, after decay and update
(lines 114-126). -/
def afterUpdate (m : Libm α) (s : TrackBlobs α) (ev : Event α) (pre : List (Data α))
    (d : Data α) : Data α :=
  decayUpdate s ev (associate m ev s.datum).1 (exponentialDecay m s ev) (atWinner m s ev pre) d

/-- The loop of `operator()` taken up at position `pos` with `_idOffset = off`
on the entries `post`. -/
def resume (m : Libm α) (s : TrackBlobs α) (ev : Event α) (pos off : Nat)
    (post : List (Data α)) : Pass α :=
  lifecycleLoop s ev (associate m ev s.datum).1 (exponentialDecay m s ev)
    (associate m ev s.datum).2 pos off post

/-- What the loop does with the entry `d` that follows `pre`. -/
def visit (m : Libm α) (s : TrackBlobs α) (ev : Event α) (pre : List (Data α))
    (d : Data α) : Pass α :=
  let v := transition s (reach m s ev pre).idOffset (afterUpdate m s ev pre d)
  { datum := v.kept.toList
    datumToAdd := v.spawned.toList
    idOffset := if v.spawned.isSome then ((reach m s ev pre).idOffset + 1) % sizeMax
      else (reach m s ev pre).idOffset
    notes := updateNotes s (associate m ev s.datum).1 (atWinner m s ev pre)
      (afterUpdate m s ev pre d) ++ v.notes }

/-- All the entries pushed on `datumToAdd` while the events are handled, in
the order of their creation. -/
def spawnedBy (m : Libm α) : TrackBlobs α → List (Event α) → List (Data α)
  | _, [] => []
  | s, ev :: rest => (lifecyclePass m s ev).datumToAdd ++ spawnedBy m (process m s ev).1 rest
/-- The seed slots: the first `n` entries are hidden and carry their index as
id. -/
def SeedsInFront (n : Nat) (datum : List (Data α)) : Prop :=
  ∀ j, j < n → ∃ d, datum[j]? = some d ∧ d.id = j ∧ d.status = Status.hidden

/-! ## A concrete engine and its events -/

/-- The blob of the single seed of the example engine. -/
def seedBlob : Blob α := ⟨0, 0, 1, 0, 1⟩

/-- The seed slot of the example engine, as constructed. -/
def seedSlot : Data α := ⟨0, seedBlob, 0, Status.hidden⟩

/-- The example engine just constructed: one seed at the origin, a correction
pass after every `k` skipped events, zeroes in the two members the constructor
leaves uninitialised (`garbageStrength = 0`, `garbageSkipped = 0`). -/
def exampleEngine (k : Nat) : TrackBlobs α :=
  construct [seedBlob] 0 1 0 (1 / 100) (1 / 200) (1 / 2) (1 / 4) 1 1 1 (1 / 2) k 0 0

/-- A state of the example engine: its configuration, with the given
counters, previous timestamp and population. -/
def track (k skipped : Nat) (t : Int) (datum : List (Data α)) (off : Nat) : TrackBlobs α :=
  { initialBlobs := [seedBlob]
    activityDecay := 1
    minimumProbability := 0
    promotionActivity := 1 / 100
    deletionActivity := 1 / 200
    meanInertia := 1 / 2
    covarianceInertia := 1 / 4
    repulsionStrength := 1
    repulsionLength := 1
    attractionStrength := 0
    attractionResetDistanceSquared := (1 / 2) ^ 2
    pairwiseCalculationsToSkip := k
    previousTimestamp := t
    skippedEvents := skipped
    datum := datum
    idOffset := off }

/-- An event on the seed, at the initial timestamp. -/
def eventOrigin : Event α := ⟨0, 0, 0⟩

/-- An event two pixels right of the seed, three time units later. -/
def eventEast : Event α := ⟨2, 0, 3⟩

/-- An event two pixels above the seed, at the same timestamp. -/
def eventNorth : Event α := ⟨0, 2, 3⟩

/-- An event one pixel right of the seed, one time unit later. -/
def eventNear : Event α := ⟨1, 0, 4⟩

/-- An event one pixel right of the seed, at the initial timestamp. -/
def eventRight : Event α := ⟨1, 0, 0⟩

/-- The blob of the first tracked object (spawned by `eventOrigin`). -/
def blobA : Blob α := ⟨0, 0, 1 / 4, 0, 1 / 4⟩

/-- The blob of the second tracked object (spawned by `eventEast`). -/
def blobB : Blob α := ⟨1, 0, 1, 0, 1 / 4⟩

/-- The blob of the third tracked object (spawned by `eventNorth`). -/
def blobC : Blob α := ⟨0, 1, 1 / 4, 0, 1⟩

/-- The blob spawned by `eventRight` on a fresh engine. -/
def blobR : Blob α := ⟨1 / 2, 0, 7 / 16, 0, 1 / 4⟩

/-- The example engine with an association floor of one half. -/
def pickyEngine : TrackBlobs α :=
  construct [seedBlob] 0 1 (1 / 2) (1 / 100) (1 / 200) (1 / 2) (1 / 4) 1 1 1 (1 / 2) 10 0 0

/-- The blob `blobC` after an update towards `eventNear`. -/
def blobCUpdated : Blob α := ⟨1 / 2, 1 / 2, 1 / 4, -(3 / 16), 7 / 16⟩

/-- The example engine (a correction pass at every third event) after its
first two events. -/
def afterTwo (m : Libm α) : TrackBlobs α :=
  (run m (exampleEngine 2) [eventOrigin, eventEast]).1

/-- The example engine (no correction pass before the eleventh event) after
its first three events. -/
def afterThree (m : Libm α) : TrackBlobs α :=
  (run m (exampleEngine 10) [eventOrigin, eventEast, eventNorth]).1

/-! ## The cadence of the correction pass, and the repulsion as a sum -/

/-- For each event of the sequence, in order: whether its call of `operator()`
runs the correction pass (the test of line 180 at that call). -/
def cadence (m : Libm α) : TrackBlobs α → List (Event α) → List Bool
  | _, [] => []
  | s, ev :: rest =>
    decide (s.skippedEvents ≥ s.pairwiseCalculationsToSkip) :: cadence m (process m s ev).1 rest

/-- The share of the other entry `o` in the pair's squared activity, as the
specification words it: `act(o)² / (act(e)² + act(o)²)`, and 0 when both
activities are 0. -/
def share (e o : Data α) : α :=
  if e.activity = 0 ∧ o.activity = 0 then 0
  else o.activity ^ 2 / (e.activity ^ 2 + o.activity ^ 2)

/-- The repulsion of the entry `e` by another entry `o`, as the specification
words it: `repulsionStrength · exp(-dist(e, o) / repulsionLength) · share(o)
· (pos(e) - pos(o))`, with its x and y components. -/
def repulsionTerm (m : Libm α) (s : TrackBlobs α) (e o : Data α) : α × α :=
  let dist := m.sqrt ((e.blob.x - o.blob.x) ^ 2 + (e.blob.y - o.blob.y) ^ 2)
  (s.repulsionStrength * m.exp (-dist / s.repulsionLength) * share e o
      * (e.blob.x - o.blob.x),
   s.repulsionStrength * m.exp (-dist / s.repulsionLength) * share e o
      * (e.blob.y - o.blob.y))

/-- The sum of the repulsion terms of the entry `e` at position `p` over every
other entry of the population. -/
def repulsionDelta (m : Libm α) (s : TrackBlobs α) (datum : List (Data α)) (p : Nat)
    (e : Data α) : α × α :=
  (((datum.eraseIdx p).map (fun o => (repulsionTerm m s e o).1)).sum,
   ((datum.eraseIdx p).map (fun o => (repulsionTerm m s e o).2)).sum)

/-- The example engine with a correction pass at every event, constructed in
memory where `_attractionStrength` held the caller's value 1 and
`_skippedEvents` held 0. -/
def attractEngine : TrackBlobs α :=
  construct [seedBlob] 0 1 0 (1 / 100) (1 / 200) (1 / 2) (1 / 4) 1 1 1 (1 / 2) 0 1 0

/-- A state of `attractEngine`: its configuration with the given population
and id counter. -/
def attractTrack (datum : List (Data α)) (off : Nat) : TrackBlobs α :=
  { track 0 0 0 datum off with attractionStrength := 1 }

/-! ## The event filters (maskIsolated.hpp, selectRectangle.hpp, mirrorY.hpp,
computeActivity.hpp) -/

/-- The `Event` of the filters, as maskIsolatedTest.cpp declares it (lines
5-9): three unsigned 64-bit fields. -/
structure PixelEvent where
  x : Nat
  y : Nat
  timestamp : Nat
deriving DecidableEq, Repr

/-- Unsigned 64-bit addition. -/
def wrapAdd (a b : Nat) : Nat := (a + b) % sizeMax

/-- Unsigned 64-bit subtraction. -/
def wrapSub (a b : Nat) : Nat := (a + sizeMax - b % sizeMax) % sizeMax

/-- Unsigned 64-bit multiplication. -/
def wrapMul (a b : Nat) : Nat := (a * b) % sizeMax

/-- The template parameters `width`, `height`, `decay` of `MaskIsolated` and
its member `_timestamps`. -/
structure MaskIsolated where
  width : Nat
  height : Nat
  decay : Nat
  timestamps : List Nat
deriving Repr

/-- The constructor of `MaskIsolated` (maskIsolated.hpp, lines 15-19). -/
def MaskIsolated.construct (width height decay : Nat) : MaskIsolated :=
  { width := width, height := height, decay := decay
    timestamps := List.replicate (wrapMul width height) 0 }

/-- The value `index` (line 28). -/
def MaskIsolated.index (s : MaskIsolated) (ev : PixelEvent) : Nat :=
  wrapAdd ev.x (wrapMul ev.y s.width)

/-- One operand `guard && _timestamps[i] > event.timestamp` of the test of
lines 31-34: its value, and the index it reads (none when the guard fails). -/
def guardedRead (timestamps : List Nat) (t : Nat) (guard : Bool) (i : Nat) : Bool × List Nat :=
  if guard then (decide (timestamps.getD i 0 > t), [i]) else (false, [])

/-- The operator `||` on two such operands: the second one is evaluated, and
its index read, only when the first one is false. -/
def shortCircuitOr (a b : Bool × List Nat) : Bool × List Nat :=
  if a.1 then a else (b.1, a.2 ++ b.2)

/-- The test of lines 30-35 on the grid `timestamps`: its value and the
indices it reads, in order. -/
def MaskIsolated.test (s : MaskIsolated) (timestamps : List Nat) (ev : PixelEvent) :
    Bool × List Nat :=
  shortCircuitOr
    (guardedRead timestamps ev.timestamp (decide (ev.x > 0)) (wrapSub (s.index ev) 1))
    (shortCircuitOr
      (guardedRead timestamps ev.timestamp (decide (ev.x < wrapSub s.width 1))
        (wrapAdd (s.index ev) 1))
      (shortCircuitOr
        (guardedRead timestamps ev.timestamp (decide (ev.y > 0)) (wrapSub (s.index ev) s.width))
        (guardedRead timestamps ev.timestamp (decide (ev.y < wrapSub s.height 1))
          (wrapAdd (s.index ev) s.width))))

/-- The handler `operator()` of `MaskIsolated` (lines 27-38): the filter after
the event, and the calls of `_handleEvent`. -/
def MaskIsolated.handle (s : MaskIsolated) (ev : PixelEvent) : MaskIsolated × List PixelEvent :=
  let timestamps := s.timestamps.set (s.index ev) (wrapAdd ev.timestamp s.decay)
  ({ s with timestamps := timestamps }, if (s.test timestamps ev).1 then [ev] else [])

/-- The indices of `_timestamps` that `operator()` writes (the first one) and
reads while it handles the event. -/
def MaskIsolated.accessed (s : MaskIsolated) (ev : PixelEvent) : List Nat :=
  s.index ev :: (s.test (s.timestamps.set (s.index ev) (wrapAdd ev.timestamp s.decay)) ev).2

/-- The events forwarded by `MaskIsolated` over a sequence of events. -/
def MaskIsolated.run : MaskIsolated → List PixelEvent → List PixelEvent
  | _, [] => []
  | s, ev :: rest => (s.handle ev).2 ++ MaskIsolated.run (s.handle ev).1 rest

/-- The most recent event of `history` (oldest first) at the pixel `(x, y)`. -/
def lastAt (history : List PixelEvent) (x y : Nat) : Option PixelEvent :=
  (history.filter (fun e => decide (e.x = x ∧ e.y = y))).getLast?

/-- The timestamp of the most recent event of `history` at the pixel `(x, y)`
plus `decay`, and 0 when the pixel has received no event. -/
def storedAt (decay : Nat) (history : List PixelEvent) (x y : Nat) : Nat :=
  match lastAt history x y with
  | some e => e.timestamp + decay
  | none => 0

/-- The grid holds, at the cell of each pixel, the timestamp of the last event
received there plus `decay`, and 0 when there was none. -/
def GridHolds (s : MaskIsolated) (history : List PixelEvent) : Prop :=
  s.timestamps.length = s.width * s.height ∧
  ∀ x y, x < s.width → y < s.height →
    s.timestamps.getD (x + y * s.width) 0 = storedAt s.decay history x y

/-- Whether the pixel `(x, y)` has received an event, the most recent one with
a timestamp `t'` such that `t' + decay > t`. -/
def recentAt (decay : Nat) (history : List PixelEvent) (x y t : Nat) : Bool :=
  match lastAt history x y with
  | some e => decide (e.timestamp + decay > t)
  | none => false

/-- The specification's condition for forwarding `ev` after the events
`history`: one of the 4-neighbours of its pixel that lie inside the grid is
recent. -/
def supported (width height decay : Nat) (history : List PixelEvent) (ev : PixelEvent) : Bool :=
  (decide (0 < ev.x) && recentAt decay history (ev.x - 1) ev.y ev.timestamp)
  || (decide (ev.x + 1 < width) && recentAt decay history (ev.x + 1) ev.y ev.timestamp)
  || (decide (0 < ev.y) && recentAt decay history ev.x (ev.y - 1) ev.timestamp)
  || (decide (ev.y + 1 < height) && recentAt decay history ev.x (ev.y + 1) ev.timestamp)

/-- The events the specification forwards, of a sequence that follows the
events `history`. -/
def forwardedAfter (width height decay : Nat) :
    List PixelEvent → List PixelEvent → List PixelEvent
  | _, [] => []
  | history, ev :: rest =>
    (if supported width height decay history ev then [ev] else [])
      ++ forwardedAfter width height decay (history ++ [ev]) rest

/-- The events of maskIsolatedTest.cpp (lines 15-19). -/
def maskIsolatedTestEvents : List PixelEvent :=
  [⟨200, 200, 0⟩, ⟨200, 202, 1⟩, ⟨200, 201, 20⟩, ⟨100, 100, 40⟩, ⟨100, 101, 41⟩]

/-- The handler `operator()` of `SelectRectangle<left, bottom, width, height>`
(selectRectangle.hpp, lines 24-28): the calls of `_handleEvent`.  The sums are
taken in `uint_fast16_t`, 64 bits wide like `std::size_t`. -/
def selectRectangle (left bottom width height : Nat) (ev : PixelEvent) : List PixelEvent :=
  if ev.x ≥ left ∧ ev.x < wrapAdd left width ∧ ev.y ≥ bottom ∧ ev.y < wrapAdd bottom height then
    [ev]
  else
    []

/-- The handler `operator()` of `MirrorY<height>` (mirrorY.hpp, lines 23-26):
the calls of `_handleEvent`. -/
def mirrorY (height : Nat) (ev : PixelEvent) : List PixelEvent :=
  [{ ev with y := wrapSub (wrapSub height 1) ev.y }]

/-- The template parameter `lifespan` of `ComputeActivity` and its members
`_activity` and `_lastTimeStamp`. -/
structure ComputeActivity (α : Type) where
  lifespan : Nat
  activity : α
  lastTimeStamp : Nat
deriving Repr

/-- The constructor of `ComputeActivity` (computeActivity.hpp, lines 17-23). -/
def ComputeActivity.construct (lifespan : Nat) : ComputeActivity α :=
  { lifespan := lifespan, activity := 0, lastTimeStamp := 0 }

/-- The handler `operator()` of `ComputeActivity` (lines 31-37): the
accumulator after the event, and the calls of `_handleActivityEvent` with the
event and the activity given to `_activityEventFromEvent`. -/
def ComputeActivity.handle (m : Libm α) (s : ComputeActivity α) (ev : PixelEvent) :
    ComputeActivity α × List (PixelEvent × α) :=
  let activity := s.activity
    * m.exp (-((wrapSub ev.timestamp s.lastTimeStamp : Nat) : α) / (s.lifespan : α)) + 1
  ({ s with activity := activity, lastTimeStamp := ev.timestamp }, [(ev, activity)])

/-- The calls of `_handleActivityEvent` over a sequence of events. -/
def ComputeActivity.run (m : Libm α) :
    ComputeActivity α → List PixelEvent → List (PixelEvent × α)
  | _, [] => []
  | s, ev :: rest => (s.handle m ev).2 ++ ComputeActivity.run m (s.handle m ev).1 rest

/-- The sum of `exp(-(t - t_i) / L)` over the events of the list, as the
specification words it. -/
def decayedSum (m : Libm α) (lifespan : Nat) (events : List PixelEvent) (t : Nat) : α :=
  (events.map (fun e => m.exp (-((t - e.timestamp : Nat) : α) / (lifespan : α)))).sum

/-- The calls the specification expects of `ComputeActivity` for a sequence
of events that follows the events `history`: each event once, with the sum of
`exp(-(t - t_i) / L)` over the events up to it, itself included. -/
def activitiesAfter (m : Libm α) (lifespan : Nat) :
    List PixelEvent → List PixelEvent → List (PixelEvent × α)
  | _, [] => []
  | history, ev :: rest =>
    (ev, decayedSum m lifespan (history ++ [ev]) ev.timestamp)
      :: activitiesAfter m lifespan (history ++ [ev]) rest

/-- The state of an engine with `n` seed blobs between two calls, when
`promotionActivity >= 0` and `activityDecay > 0`: the seed slots stand in
front, behind them there are only promoted and demoted entries, no activity is
negative and no hidden entry has an activity above `promotionActivity`. -/
def Settled (n : Nat) (s : TrackBlobs α) : Prop :=
  SeedsInFront n s.datum ∧ (∀ d ∈ s.datum.drop n, d.status ≠ Status.hidden) ∧
  (∀ d ∈ s.datum, 0 ≤ d.activity) ∧
  (∀ d ∈ s.datum, d.status = Status.hidden → d.activity ≤ s.promotionActivity) ∧
  0 ≤ s.promotionActivity ∧ 0 < s.activityDecay

/-! ## The handler for an `Event` with an unsigned timestamp -/

/-- The factor `exponentialDecay` (line 111) when `Event::timestamp` is
`uint_fast64_t`, as in the `Event` structs of the repository (`timestamp` then
holds a natural number below `2 ^ 64`): the `int64_t` member
`_previousTimestamp` is converted to the unsigned type, the difference and its
negation are taken there (modulo `2 ^ 64`), and the result is converted to
`double` by the division. -/
def exponentialDecayUnsigned (m : Libm α) (s : TrackBlobs α) (ev : Event α) : α :=
  m.exp (((wrapSub 0 (wrapSub ev.timestamp.toNat
      (s.previousTimestamp % (sizeMax : Int)).toNat) : Nat) : α) / s.activityDecay)

/-- The loop of lines 113-176 as `operator()` runs it for an `Event` with an
unsigned timestamp. -/
def lifecyclePassUnsigned (m : Libm α) (s : TrackBlobs α) (ev : Event α) : Pass α :=
  lifecycleLoop s ev (associate m ev s.datum).1 (exponentialDecayUnsigned m s ev)
    (associate m ev s.datum).2 0 s.idOffset s.datum

/-- The first block of `operator()` (lines 88-178) for an `Event` with an
unsigned timestamp. -/
def lifecycleUnsigned (m : Libm α) (s : TrackBlobs α) (ev : Event α) :
    TrackBlobs α × List (Notification α) :=
  let r := lifecyclePassUnsigned m s ev
  ({ s with datum := r.datum ++ r.datumToAdd, idOffset := r.idOffset }, r.notes)

/-- The handler `operator()` (lines 87-224) for an `Event` with an unsigned
timestamp. -/
def processUnsigned (m : Libm α) (s : TrackBlobs α) (ev : Event α) :
    TrackBlobs α × List (Notification α) :=
  let r := lifecycleUnsigned m s ev
  ({ pairwise m r.1 with previousTimestamp := ev.timestamp }, r.2)

/-- The engine after a sequence of events with unsigned timestamps, with all
handler calls made. -/
def runUnsigned (m : Libm α) :
    TrackBlobs α → List (Event α) → TrackBlobs α × List (Notification α)
  | s, [] => (s, [])
  | s, ev :: rest =>
    let r := processUnsigned m s ev
    let q := runUnsigned m r.1 rest
    (q.1, r.2 ++ q.2)

/-! ## Underflow of `std::exp`, and an engine with two seeds -/

/-- The libm `m` with the underflow of `std::exp`: 0 for an argument below
`-746` (the exact exponential is then below `2 ^ (-1075)`, half the smallest
positive `double`), the value of `m.exp` otherwise. -/
def Libm.underflowing (m : Libm α) : Libm α :=
  { exp := fun z => if z < -746 then 0 else m.exp z
    sqrt := m.sqrt
    pi := m.pi }

/-- An event a hundred pixels right of the seed, at the initial timestamp. -/
def eventFar : Event α := ⟨100, 0, 0⟩

/-- The blob of a second seed, fifty pixels right of the first one. -/
def seedFar : Blob α := ⟨50, 0, 1, 0, 1⟩

/-- An engine with two seeds and a promotion threshold of one half, no
correction pass before the eleventh event, zeroes in the two members the
constructor leaves uninitialised. -/
def twoSeedEngine : TrackBlobs α :=
  construct [seedBlob, seedFar] 0 1 0 (1 / 2) (1 / 200) (1 / 2) (1 / 4) 1 1 1 (1 / 2) 10 0 0

/-- A state of `twoSeedEngine`: its configuration, with the given counter,
previous timestamp and population. -/
def twoSeedTrack (skipped : Nat) (t : Int) (datum : List (Data α)) (off : Nat) : TrackBlobs α :=
  { initialBlobs := [seedBlob, seedFar]
    activityDecay := 1
    minimumProbability := 0
    promotionActivity := 1 / 2
    deletionActivity := 1 / 200
    meanInertia := 1 / 2
    covarianceInertia := 1 / 4
    repulsionStrength := 1
    repulsionLength := 1
    attractionStrength := 0
    attractionResetDistanceSquared := (1 / 2) ^ 2
    pairwiseCalculationsToSkip := 10
    previousTimestamp := t
    skippedEvents := skipped
    datum := datum
    idOffset := off }

/-- An event on the second seed, three time units after the initial
timestamp. -/
def eventOnFar : Event α := ⟨50, 0, 3⟩

/-- The blob of the second seed after an update towards an event on it. -/
def blobFarUpdated : Blob α := ⟨50, 0, 1 / 4, 0, 1 / 4⟩

/-! ## The repulsion with `std::pow` as a parameter -/

/-- The body of the inner loop (lines 186-203) with the function `sq` for
`std::pow(., 2)` on the two activities (lines 186-187): in `double` the square
of a nonzero activity below about `1.5e-162` is 0. -/
def repulsePairWith (sq : α → α) (m : Libm α) (s : TrackBlobs α) (i j : Nat) (a b : Data α)
    (ds : Deltas α) : Deltas α :=
  let squaredActivity := sq a.activity
  let otherSquaredActivity := sq b.activity
  let activitySum := squaredActivity + otherSquaredActivity
  let distanceDecay := s.repulsionStrength
    * m.exp (-(hypot m (a.blob.x - b.blob.x) (a.blob.y - b.blob.y)) / s.repulsionLength)
  let activityCorrection := if activitySum = 0 then 0 else otherSquaredActivity / activitySum
  let x1 := addAt ds.x i (-(distanceDecay * activityCorrection * (b.blob.x - a.blob.x)))
  let y1 := addAt ds.y i (-(distanceDecay * activityCorrection * (b.blob.y - a.blob.y)))
  let otherActivityCorrection := if activitySum = 0 then 0 else squaredActivity / activitySum
  { x := addAt x1 j (-(distanceDecay * otherActivityCorrection * (a.blob.x - b.blob.x)))
    y := addAt y1 j (-(distanceDecay * otherActivityCorrection * (a.blob.y - b.blob.y))) }

/-- The inner loop of line 185 with the function `sq` for the squares. -/
def repulseInnerWith (sq : α → α) (m : Libm α) (s : TrackBlobs α) (i : Nat) (a : Data α) :
    Nat → List (Data α) → Deltas α → Deltas α
  | _, [], ds => ds
  | j, b :: rest, ds =>
    repulseInnerWith sq m s i a (j + 1) rest (repulsePairWith sq m s i j a b ds)

/-- The outer loop of line 184 with the function `sq` for the squares. -/
def repulseOuterWith (sq : α → α) (m : Libm α) (s : TrackBlobs α) :
    Nat → List (Data α) → Deltas α → Deltas α
  | _, [], ds => ds
  | i, a :: rest, ds =>
    repulseOuterWith sq m s (i + 1) rest (repulseInnerWith sq m s i a (i + 1) rest ds)

/-- The share of the other entry `o` in the pair's squared activity as the
code computes it: the quotient of the computed squares, and 0 when their sum
is 0. -/
def shareWith (sq : α → α) (e o : Data α) : α :=
  if sq e.activity + sq o.activity = 0 then 0
  else sq o.activity / (sq e.activity + sq o.activity)

/-- The repulsion of the entry `e` by another entry `o`, with the share of the
computed squares. -/
def repulsionTermWith (sq : α → α) (m : Libm α) (s : TrackBlobs α) (e o : Data α) : α × α :=
  let dist := m.sqrt ((e.blob.x - o.blob.x) ^ 2 + (e.blob.y - o.blob.y) ^ 2)
  (s.repulsionStrength * m.exp (-dist / s.repulsionLength) * shareWith sq e o
      * (e.blob.x - o.blob.x),
   s.repulsionStrength * m.exp (-dist / s.repulsionLength) * shareWith sq e o
      * (e.blob.y - o.blob.y))

/-- The sum of these repulsion terms of the entry `e` at position `p` over
every other entry of the population. -/
def repulsionDeltaWith (sq : α → α) (m : Libm α) (s : TrackBlobs α) (datum : List (Data α))
    (p : Nat) (e : Data α) : α × α :=
  (((datum.eraseIdx p).map (fun o => (repulsionTermWith sq m s e o).1)).sum,
   ((datum.eraseIdx p).map (fun o => (repulsionTermWith sq m s e o).2)).sum)

/-- The function `std::pow(., 2)` with its underflow: 0 for an argument of
magnitude below `1e-163` (the exact square is then below `1e-326`, less than
half the smallest positive `double`), the exact square otherwise. -/
def underflowingSquare (v : α) : α :=
  if |v| < 1 / 10 ^ 163 then 0 else v ^ 2

/-- The two seed slots of `twoSeedEngine`, left silent until their activities
have decayed to `1e-166` (some 380 decay constants). -/
def fadedSeeds : List (Data α) :=
  [⟨0, seedBlob, 1 / 10 ^ 166, Status.hidden⟩, ⟨1, seedFar, 1 / 10 ^ 166, Status.hidden⟩]

/-! # Theorems -/

/-! ## Association -/

theorem gaussianDensity_eq (m : Libm α) (ev : Event α) (b : Blob α) :
    gaussianDensity m ev b = probabilityCandidate m ev b / (2 * m.pi) := by
  unfold gaussianDensity probabilityCandidate
  simp only [div_div]
  rw [mul_comm (m.sqrt (determinant b))]

theorem associateLoop_ge (m : Libm α) (ev : Event α) (l : List (Data α)) :
    ∀ (pos : Nat) (p : α) (w : Nat),
      p ≤ (associateLoop m ev pos l p w).1 ∧
      ∀ d ∈ l, probabilityCandidate m ev d.blob ≤ (associateLoop m ev pos l p w).1 := by
  induction l with
  | nil => intro pos p w; simp [associateLoop]
  | cons d rest ih =>
    intro pos p w
    unfold associateLoop
    by_cases h : probabilityCandidate m ev d.blob > p
    · rw [if_pos h]
      obtain ⟨h1, h2⟩ := ih (pos + 1) (probabilityCandidate m ev d.blob) pos
      refine ⟨le_trans (le_of_lt h) h1, ?_⟩
      intro e he
      rcases List.mem_cons.mp he with rfl | he
      · exact h1
      · exact h2 e he
    · rw [if_neg h]
      obtain ⟨h1, h2⟩ := ih (pos + 1) p w
      refine ⟨h1, ?_⟩
      intro e he
      rcases List.mem_cons.mp he with rfl | he
      · exact le_trans (not_lt.mp h) h1
      · exact h2 e he

theorem associateLoop_cases (m : Libm α) (ev : Event α) (l : List (Data α)) :
    ∀ (pos : Nat) (p : α) (w : Nat),
      associateLoop m ev pos l p w = (p, w) ∨
      ∃ k d, l[k]? = some d ∧
        associateLoop m ev pos l p w = (probabilityCandidate m ev d.blob, pos + k) ∧
        p < probabilityCandidate m ev d.blob ∧
        ∀ j e, j < k → l[j]? = some e →
          probabilityCandidate m ev e.blob < probabilityCandidate m ev d.blob := by
  induction l with
  | nil => intro pos p w; left; rfl
  | cons d rest ih =>
    intro pos p w
    unfold associateLoop
    by_cases h : probabilityCandidate m ev d.blob > p
    · rw [if_pos h]
      right
      rcases ih (pos + 1) (probabilityCandidate m ev d.blob) pos with h0 | ⟨k, dw, hk, hr, hlt, hfirst⟩
      · exact ⟨0, d, by simp, by rw [h0]; rfl, h, fun j e hj _ => absurd hj (Nat.not_lt_zero j)⟩
      · refine ⟨k + 1, dw, by simpa using hk, by rw [hr]; congr 1; omega, lt_trans h hlt, ?_⟩
        intro j e hj he
        cases j with
        | zero =>
          simp only [List.getElem?_cons_zero, Option.some.injEq] at he
          subst he
          exact hlt
        | succ j =>
          simp only [List.getElem?_cons_succ] at he
          exact hfirst j e (by omega) he
    · rw [if_neg h]
      rcases ih (pos + 1) p w with h0 | ⟨k, dw, hk, hr, hlt, hfirst⟩
      · left; exact h0
      · right
        refine ⟨k + 1, dw, by simpa using hk, by rw [hr]; congr 1; omega, hlt, ?_⟩
        intro j e hj he
        cases j with
        | zero =>
          simp only [List.getElem?_cons_zero, Option.some.injEq] at he
          subst he
          exact lt_of_le_of_lt (not_lt.mp h) hlt
        | succ j =>
          simp only [List.getElem?_cons_succ] at he
          exact hfirst j e (by omega) he

theorem probabilityCandidate_pos (m : Libm α) (hexp : ∀ z, 0 < m.exp z)
    (hsqrt : ∀ z, 0 < z → 0 < m.sqrt z) (ev : Event α) (b : Blob α)
    (hb : 0 < determinant b) : 0 < probabilityCandidate m ev b := by
  unfold probabilityCandidate
  exact div_pos (hexp _) (hsqrt _ hb)

/-- C1 (amended): when every covariance determinant is positive and the value
`exp(..) / sqrt(det)` that lines 96-103 compute is strictly positive for at
least one entry, the entry at the position `winner` returned by the
association has the largest normalized Gaussian density of the whole
population, `probability` is that density, and every entry before the winner
has a strictly smaller density (the first maximum wins); when that value is
positive for no entry (`std::exp` has underflowed to 0 for each of them), the
test of line 104 never holds and no entry is selected: `winner` is
`_datum.end()` and `probability` is 0.  Nothing is assumed of `exp` and
`sqrt`. -/
theorem association_selects_first_maximum (m : Libm α) (hpi : 0 < m.pi)
    (datum : List (Data α)) (ev : Event α)
    (hdet : ∀ d ∈ datum, 0 < determinant d.blob) :
    ((∃ e ∈ datum, 0 < probabilityCandidate m ev e.blob) →
      ∃ w, datum[(associate m ev datum).2]? = some w ∧
        (associate m ev datum).1 = gaussianDensity m ev w.blob ∧
        ∀ j d, datum[j]? = some d →
          gaussianDensity m ev d.blob ≤ gaussianDensity m ev w.blob ∧
          (j < (associate m ev datum).2 →
            gaussianDensity m ev d.blob < gaussianDensity m ev w.blob)) ∧
    ((∀ e ∈ datum, ¬ 0 < probabilityCandidate m ev e.blob) →
      (associate m ev datum).2 = datum.length ∧ (associate m ev datum).1 = 0) := by
  have h2pi : (0 : α) < 2 * m.pi := by positivity
  constructor
  · rintro ⟨e, he, hpos2⟩
    have hall := (associateLoop_ge m ev datum 0 0 datum.length).2
    rcases associateLoop_cases m ev datum 0 0 datum.length with h0 | ⟨k, w, hk, hr, _, hfirst⟩
    · have hge := hall e he
      rw [h0] at hge
      exact absurd hpos2 (not_lt.mpr hge)
    · refine ⟨w, ?_, ?_, ?_⟩
      · simpa [associate, hr] using hk
      · simp [associate, hr, gaussianDensity_eq]
      · intro j d hj
        have hge := hall d (List.getElem?_mem hj)
        rw [hr] at hge
        constructor
        · rw [gaussianDensity_eq, gaussianDensity_eq]
          exact div_le_div_of_nonneg_right hge (le_of_lt h2pi)
        · intro hlt
          rw [gaussianDensity_eq, gaussianDensity_eq]
          have hjk : j < k := by simpa [associate, hr] using hlt
          exact div_lt_div_of_pos_right (hfirst j d hjk hj) h2pi
  · intro hnone
    rcases associateLoop_cases m ev datum 0 0 datum.length with h0 | ⟨k, w, hk, _, hlt, _⟩
    · simp [associate, h0]
    · exact absurd hlt (hnone w (List.getElem?_mem hk))

/-! ## Following one entry through the lifecycle loop -/

theorem lifecycleLoop_append (s : TrackBlobs α) (ev : Event α) (p decay : α) (winner : Nat)
    (l₁ l₂ : List (Data α)) : ∀ (pos off : Nat),
    lifecycleLoop s ev p decay winner pos off (l₁ ++ l₂) =
      (lifecycleLoop s ev p decay winner pos off l₁).append
        (lifecycleLoop s ev p decay winner
          (pos + (lifecycleLoop s ev p decay winner pos off l₁).datum.length)
          (lifecycleLoop s ev p decay winner pos off l₁).idOffset l₂) := by
  induction l₁ with
  | nil =>
    intro pos off
    simp [lifecycleLoop, Pass.append]
  | cons d rest ih =>
    intro pos off
    rw [List.cons_append]
    simp only [lifecycleLoop]
    rw [ih]
    cases hk : (transition s off (decayUpdate s ev p decay (decide (pos = winner)) d)).kept <;>
      simp [Pass.append, Nat.add_assoc, Nat.add_comm 1]

theorem lifecycleLoop_singleton (s : TrackBlobs α) (ev : Event α) (p decay : α) (winner : Nat)
    (pos off : Nat) (d : Data α) :
    lifecycleLoop s ev p decay winner pos off [d] =
      { datum := (transition s off (decayUpdate s ev p decay (decide (pos = winner)) d)).kept.toList
        datumToAdd :=
          (transition s off (decayUpdate s ev p decay (decide (pos = winner)) d)).spawned.toList
        idOffset :=
          if (transition s off (decayUpdate s ev p decay (decide (pos = winner)) d)).spawned.isSome
          then (off + 1) % sizeMax else off
        notes := updateNotes s p (decide (pos = winner)) (decayUpdate s ev p decay (decide (pos = winner)) d)
          ++ (transition s off (decayUpdate s ev p decay (decide (pos = winner)) d)).notes } := by
  simp [lifecycleLoop]

theorem lifecyclePass_split (m : Libm α) (s : TrackBlobs α) (ev : Event α)
    (pre : List (Data α)) (d : Data α) (post : List (Data α))
    (h : s.datum = pre ++ d :: post) :
    lifecyclePass m s ev =
      ((reach m s ev pre).append (visit m s ev pre d)).append
        (resume m s ev ((reach m s ev pre).datum.length + (visit m s ev pre d).datum.length)
          (visit m s ev pre d).idOffset post) := by
  unfold lifecyclePass
  rw [show lifecycleLoop s ev (associate m ev s.datum).1 (exponentialDecay m s ev)
      (associate m ev s.datum).2 0 s.idOffset s.datum
      = lifecycleLoop s ev (associate m ev s.datum).1 (exponentialDecay m s ev)
      (associate m ev s.datum).2 0 s.idOffset (pre ++ ([d] ++ post)) by rw [h]; rfl]
  rw [lifecycleLoop_append, lifecycleLoop_append, lifecycleLoop_singleton]
  simp [Pass.append, reach, visit, resume, afterUpdate, atWinner, Nat.add_assoc]

/-- The update of lines 116-126, when the iterator does stand at `winner` and
the probability exceeds `minimumProbability`: the activity is the decayed one
plus the probability, the mean moves to the event with weight `meanInertia`,
and the covariance terms move to the residuals against the new mean with
weight `covarianceInertia`. -/
theorem afterUpdate_at_winner (m : Libm α) (s : TrackBlobs α) (ev : Event α)
    (pre : List (Data α)) (d : Data α)
    (hpos : (reach m s ev pre).datum.length = (associate m ev s.datum).2)
    (hp : (associate m ev s.datum).1 > s.minimumProbability) :
    (afterUpdate m s ev pre d).activity
      = d.activity * exponentialDecay m s ev + (associate m ev s.datum).1 ∧
    (afterUpdate m s ev pre d).blob.x
      = s.meanInertia * d.blob.x + (1 - s.meanInertia) * ev.x ∧
    (afterUpdate m s ev pre d).blob.y
      = s.meanInertia * d.blob.y + (1 - s.meanInertia) * ev.y ∧
    (afterUpdate m s ev pre d).blob.squaredSigmaX
      = s.covarianceInertia * d.blob.squaredSigmaX
        + (1 - s.covarianceInertia) * (ev.x - (afterUpdate m s ev pre d).blob.x) ^ 2 ∧
    (afterUpdate m s ev pre d).blob.sigmaXY
      = s.covarianceInertia * d.blob.sigmaXY
        + (1 - s.covarianceInertia) * (ev.x - (afterUpdate m s ev pre d).blob.x)
          * (ev.y - (afterUpdate m s ev pre d).blob.y) ∧
    (afterUpdate m s ev pre d).blob.squaredSigmaY
      = s.covarianceInertia * d.blob.squaredSigmaY
        + (1 - s.covarianceInertia) * (ev.y - (afterUpdate m s ev pre d).blob.y) ^ 2 := by
  have hu : updates s (associate m ev s.datum).1 (atWinner m s ev pre) = true := by
    simp [updates, atWinner, hpos, hp]
  have hd : afterUpdate m s ev pre d =
      { d with activity := d.activity * exponentialDecay m s ev + (associate m ev s.datum).1
               blob := updateBlob s ev d.blob } := by
    simp [afterUpdate, decayUpdate, hu]
  rw [hd]
  exact ⟨rfl, rfl, rfl, rfl, rfl, rfl⟩

theorem decayUpdate_status (s : TrackBlobs α) (ev : Event α) (p decay : α) (w : Bool)
    (d : Data α) : (decayUpdate s ev p decay w d).status = d.status := by
  unfold decayUpdate
  split <;> rfl

theorem decayUpdate_id (s : TrackBlobs α) (ev : Event α) (p decay : α) (w : Bool)
    (d : Data α) : (decayUpdate s ev p decay w d).id = d.id := by
  unfold decayUpdate
  split <;> rfl

theorem afterUpdate_status (m : Libm α) (s : TrackBlobs α) (ev : Event α)
    (pre : List (Data α)) (d : Data α) : (afterUpdate m s ev pre d).status = d.status :=
  decayUpdate_status _ _ _ _ _ _

theorem afterUpdate_id (m : Libm α) (s : TrackBlobs α) (ev : Event α)
    (pre : List (Data α)) (d : Data α) : (afterUpdate m s ev pre d).id = d.id :=
  decayUpdate_id _ _ _ _ _ _

/-- C6: a promoted entry, with `a` its activity after decay and update,
stays promoted without a lifecycle notification when `a > promotionActivity`;
is demoted, stays in the population and `onDemoted` is called when
`deletionActivity < a <= promotionActivity`; is erased with `onDeleted` alone
when `a` is at or below both thresholds (as is every `a <= deletionActivity`
when `deletionActivity <= promotionActivity`), and in no other case. -/
theorem promoted_entry_lifecycle (m : Libm α) (s : TrackBlobs α) (ev : Event α)
    (pre : List (Data α)) (d : Data α) (post : List (Data α))
    (h : s.datum = pre ++ d :: post) (hs : d.status = Status.promoted) :
    lifecyclePass m s ev =
      ((reach m s ev pre).append (visit m s ev pre d)).append
        (resume m s ev ((reach m s ev pre).datum.length + (visit m s ev pre d).datum.length)
          (visit m s ev pre d).idOffset post) ∧
    (visit m s ev pre d).datumToAdd = [] ∧
    (visit m s ev pre d).idOffset = (reach m s ev pre).idOffset ∧
    ((afterUpdate m s ev pre d).activity > s.promotionActivity →
      (visit m s ev pre d).datum = [afterUpdate m s ev pre d] ∧
      (afterUpdate m s ev pre d).status = Status.promoted ∧
      (visit m s ev pre d).notes =
        updateNotes s (associate m ev s.datum).1 (atWinner m s ev pre)
          (afterUpdate m s ev pre d)) ∧
    (s.deletionActivity < (afterUpdate m s ev pre d).activity →
      (afterUpdate m s ev pre d).activity ≤ s.promotionActivity →
      (visit m s ev pre d).datum =
        [{ afterUpdate m s ev pre d with status := Status.demoted }] ∧
      (visit m s ev pre d).notes =
        updateNotes s (associate m ev s.datum).1 (atWinner m s ev pre)
          (afterUpdate m s ev pre d)
        ++ [Notification.demoted d.id (afterUpdate m s ev pre d).blob]) ∧
    ((afterUpdate m s ev pre d).activity ≤ s.deletionActivity →
      (afterUpdate m s ev pre d).activity ≤ s.promotionActivity →
      (visit m s ev pre d).datum = [] ∧
      (visit m s ev pre d).notes =
        updateNotes s (associate m ev s.datum).1 (atWinner m s ev pre)
          (afterUpdate m s ev pre d)
        ++ [Notification.deleted d.id (afterUpdate m s ev pre d).blob]) ∧
    (s.deletionActivity ≤ s.promotionActivity →
      (afterUpdate m s ev pre d).activity ≤ s.deletionActivity →
      (visit m s ev pre d).datum = [] ∧
      (visit m s ev pre d).notes =
        updateNotes s (associate m ev s.datum).1 (atWinner m s ev pre)
          (afterUpdate m s ev pre d)
        ++ [Notification.deleted d.id (afterUpdate m s ev pre d).blob]) ∧
    ((visit m s ev pre d).datum = [] ↔
      (afterUpdate m s ev pre d).activity ≤ s.promotionActivity ∧
      (afterUpdate m s ev pre d).activity ≤ s.deletionActivity) := by
  have hst : (afterUpdate m s ev pre d).status = Status.promoted := by
    rw [afterUpdate_status, hs]
  have hid := afterUpdate_id m s ev pre d
  refine ⟨lifecyclePass_split m s ev pre d post h, ?_, ?_, ?_, ?_, ?_, ?_, ?_⟩
  · simp only [visit, transition, hst]
    split_ifs <;> rfl
  · simp only [visit, transition, hst]
    split_ifs <;> first | rfl | simp_all
  · intro ha
    simp only [visit, transition, hst, if_neg (not_le.mpr ha)]
    simp
  · intro h1 h2
    simp only [visit, transition, hst, if_pos h2, if_neg (not_le.mpr h1), hid]
    simp
  · intro h1 h2
    simp only [visit, transition, hst, if_pos h2, if_pos h1, hid]
    simp
  · intro hcfg h1
    simp only [visit, transition, hst, if_pos (le_trans h1 hcfg), if_pos h1, hid]
    simp
  · simp only [visit, transition, hst]
    split_ifs with h1 h2
    · simp [h1, h2]
    · simp [h1, h2]
    · simp [h1]

/-- C7: a demoted entry, with `a` its activity after decay and update, is
erased with `onDeleted` on its id when `a <= deletionActivity`; otherwise,
when `a > promotionActivity`, it becomes promoted again with `onPromoted` on
its unchanged id; otherwise it stays demoted and nothing is called for it by
the lifecycle step. -/
theorem demoted_entry_lifecycle (m : Libm α) (s : TrackBlobs α) (ev : Event α)
    (pre : List (Data α)) (d : Data α) (post : List (Data α))
    (h : s.datum = pre ++ d :: post) (hs : d.status = Status.demoted) :
    lifecyclePass m s ev =
      ((reach m s ev pre).append (visit m s ev pre d)).append
        (resume m s ev ((reach m s ev pre).datum.length + (visit m s ev pre d).datum.length)
          (visit m s ev pre d).idOffset post) ∧
    (visit m s ev pre d).datumToAdd = [] ∧
    (visit m s ev pre d).idOffset = (reach m s ev pre).idOffset ∧
    updateNotes s (associate m ev s.datum).1 (atWinner m s ev pre)
      (afterUpdate m s ev pre d) = [] ∧
    ((afterUpdate m s ev pre d).activity ≤ s.deletionActivity →
      (visit m s ev pre d).datum = [] ∧
      (visit m s ev pre d).notes =
        [Notification.deleted d.id (afterUpdate m s ev pre d).blob]) ∧
    (s.deletionActivity < (afterUpdate m s ev pre d).activity →
      (afterUpdate m s ev pre d).activity > s.promotionActivity →
      (visit m s ev pre d).datum =
        [{ afterUpdate m s ev pre d with status := Status.promoted }] ∧
      ({ afterUpdate m s ev pre d with status := Status.promoted } : Data α).id = d.id ∧
      (visit m s ev pre d).notes =
        [Notification.promoted d.id (afterUpdate m s ev pre d).blob]) ∧
    (s.deletionActivity < (afterUpdate m s ev pre d).activity →
      (afterUpdate m s ev pre d).activity ≤ s.promotionActivity →
      (visit m s ev pre d).datum = [afterUpdate m s ev pre d] ∧
      (afterUpdate m s ev pre d).status = Status.demoted ∧
      (visit m s ev pre d).notes = []) := by
  have hst : (afterUpdate m s ev pre d).status = Status.demoted := by
    rw [afterUpdate_status, hs]
  have hid := afterUpdate_id m s ev pre d
  have hup : updateNotes s (associate m ev s.datum).1 (atWinner m s ev pre)
      (afterUpdate m s ev pre d) = [] := by
    simp [updateNotes, hst]
  refine ⟨lifecyclePass_split m s ev pre d post h, ?_, ?_, hup, ?_, ?_, ?_⟩
  · simp only [visit, transition, hst]
    split_ifs <;> rfl
  · simp only [visit, transition, hst]
    split_ifs <;> first | rfl | simp_all
  · intro h1
    simp only [visit, hup, transition, hst, if_pos h1, hid]
    simp
  · intro h1 h2
    simp only [visit, hup, transition, hst, if_neg (not_le.mpr h1), if_pos h2, hid]
    simp
  · intro h1 h2
    simp only [visit, hup, transition, hst, if_neg (not_le.mpr h1), if_neg (not_lt.mpr h2)]
    simp

/-! ## Entries that the update step leaves alone -/

theorem decayUpdate_of_not_updates (s : TrackBlobs α) (ev : Event α) (p decay : α) (w : Bool)
    (d : Data α) (h : updates s p w = false) :
    decayUpdate s ev p decay w d = { d with activity := d.activity * decay } := by
  simp [decayUpdate, h]

theorem updateNotes_of_not_updates (s : TrackBlobs α) (p : α) (w : Bool)
    (d : Data α) (h : updates s p w = false) : updateNotes s p w d = [] := by
  simp [updateNotes, h]

theorem lifecycleLoop_length_le (s : TrackBlobs α) (ev : Event α) (p decay : α) (winner : Nat)
    (l : List (Data α)) : ∀ (pos off : Nat),
    (lifecycleLoop s ev p decay winner pos off l).datum.length ≤ l.length := by
  induction l with
  | nil => intro pos off; simp [lifecycleLoop]
  | cons d rest ih =>
    intro pos off
    simp only [lifecycleLoop, List.length_append, List.length_cons]
    have := ih (if (transition s off (decayUpdate s ev p decay (decide (pos = winner)) d)).kept.isSome
      then pos + 1 else pos)
      (if (transition s off (decayUpdate s ev p decay (decide (pos = winner)) d)).spawned.isSome
      then (off + 1) % sizeMax else off)
    cases hk : (transition s off (decayUpdate s ev p decay (decide (pos = winner)) d)).kept <;>
      simp only [hk, Option.isSome_none, Option.isSome_some, Option.toList, List.length_nil,
        List.length_cons, if_true, Bool.false_eq_true, if_false] at this ⊢ <;> omega

theorem reach_length_le (m : Libm α) (s : TrackBlobs α) (ev : Event α) (pre : List (Data α)) :
    (reach m s ev pre).datum.length ≤ pre.length :=
  lifecycleLoop_length_le _ _ _ _ _ _ _ _

/-- What `transition` leaves of an entry `d` that was only decayed: the
entries kept or spawned carry `d`'s blob and decayed activity, or are the
reset of a promoting seed. -/
theorem transition_of_decayed (s : TrackBlobs α) (off : Nat) (d : Data α) (decay : α)
    (e : Data α)
    (he : e ∈ (transition s off { d with activity := d.activity * decay }).kept.toList
      ++ (transition s off { d with activity := d.activity * decay }).spawned.toList) :
    (e.blob = d.blob ∧ e.activity = d.activity * decay) ∨
    (d.status = Status.hidden ∧ d.activity * decay > s.promotionActivity ∧ e.id = d.id ∧
      e.status = Status.hidden ∧
      e.blob = s.initialBlobs.getD d.id Blob.zero ∧ e.activity = 0) := by
  unfold transition at he
  cases hst : d.status <;> simp only [hst] at he
  · split_ifs at he with h1
    · simp at he
      rcases he with rfl | rfl
      · right; exact ⟨rfl, h1, rfl, rfl, by simp, rfl⟩
      · left; exact ⟨rfl, rfl⟩
    · simp at he
      subst he
      left; exact ⟨rfl, rfl⟩
  · split_ifs at he <;> simp at he <;> subst he <;> left <;> exact ⟨rfl, rfl⟩
  · split_ifs at he <;> simp at he <;> subst he <;> left <;> exact ⟨rfl, rfl⟩

theorem transition_notes_not_updated (s : TrackBlobs α) (off : Nat) (d : Data α)
    (n : Notification α) (hn : n ∈ (transition s off d).notes) (id : Nat) (b : Blob α) :
    n ≠ Notification.updated id b := by
  unfold transition at hn
  cases hst : d.status <;> simp only [hst] at hn <;> split_ifs at hn <;> simp at hn <;>
    subst hn <;> simp

/-- The loop when the test of line 115 fails at every position it reaches. -/
theorem lifecycleLoop_no_update (s : TrackBlobs α) (ev : Event α) (p decay : α) (winner : Nat)
    (l : List (Data α)) : ∀ (pos off : Nat),
    (p ≤ s.minimumProbability ∨ pos + l.length ≤ winner) →
    (∀ n ∈ (lifecycleLoop s ev p decay winner pos off l).notes,
      ∀ (id : Nat) (b : Blob α), n ≠ Notification.updated id b) ∧
    (∀ e ∈ (lifecycleLoop s ev p decay winner pos off l).datum
        ++ (lifecycleLoop s ev p decay winner pos off l).datumToAdd,
      ∃ d ∈ l, (e.blob = d.blob ∧ e.activity = d.activity * decay) ∨
        (d.status = Status.hidden ∧ d.activity * decay > s.promotionActivity ∧ e.id = d.id ∧
          e.status = Status.hidden ∧
          e.blob = s.initialBlobs.getD d.id Blob.zero ∧ e.activity = 0)) := by
  induction l with
  | nil => intro pos off _; simp [lifecycleLoop]
  | cons d rest ih =>
    intro pos off hlow
    have hup : updates s p (decide (pos = winner)) = false := by
      rcases hlow with h | h
      · simp [updates, not_lt.mpr h]
      · have : pos ≠ winner := by simp only [List.length_cons] at h; omega
        simp [updates, this]
    simp only [lifecycleLoop, decayUpdate_of_not_updates s ev p decay _ d hup,
      updateNotes_of_not_updates s p _ _ hup, List.nil_append]
    have hrest := ih
      (if (transition s off { d with activity := d.activity * decay }).kept.isSome
        then pos + 1 else pos)
      (if (transition s off { d with activity := d.activity * decay }).spawned.isSome
        then (off + 1) % sizeMax else off)
      (by
        rcases hlow with h | h
        · left; exact h
        · right
          simp only [List.length_cons] at h
          split_ifs <;> omega)
    constructor
    · intro n hn id b
      rcases List.mem_append.mp hn with hn | hn
      · exact transition_notes_not_updated s off _ n hn id b
      · exact hrest.1 n hn id b
    · intro e he
      have he' : e ∈ ((transition s off { d with activity := d.activity * decay }).kept.toList
          ++ (transition s off { d with activity := d.activity * decay }).spawned.toList) ∨
          e ∈ (lifecycleLoop s ev p decay winner
            (if (transition s off { d with activity := d.activity * decay }).kept.isSome
              then pos + 1 else pos)
            (if (transition s off { d with activity := d.activity * decay }).spawned.isSome
              then (off + 1) % sizeMax else off) rest).datum
          ++ (lifecycleLoop s ev p decay winner
            (if (transition s off { d with activity := d.activity * decay }).kept.isSome
              then pos + 1 else pos)
            (if (transition s off { d with activity := d.activity * decay }).spawned.isSome
              then (off + 1) % sizeMax else off) rest).datumToAdd := by
        simp only [List.mem_append] at he ⊢
        tauto
      rcases he' with he' | he'
      · exact ⟨d, List.mem_cons_self _ _, transition_of_decayed s off d decay e he'⟩
      · obtain ⟨d', hd', hdd⟩ := hrest.2 e he'
        exact ⟨d', List.mem_cons_of_mem _ hd', hdd⟩

theorem associateLoop_of_nonpos (m : Libm α) (ev : Event α) (l : List (Data α))
    (h : ∀ d ∈ l, probabilityCandidate m ev d.blob ≤ 0) : ∀ (pos w : Nat),
    associateLoop m ev pos l 0 w = (0, w) := by
  induction l with
  | nil => intro pos w; rfl
  | cons d rest ih =>
    intro pos w
    unfold associateLoop
    rw [if_neg (not_lt.mpr (h d (List.mem_cons_self _ _)))]
    exact ih (fun e he => h e (List.mem_cons_of_mem _ he)) _ _

/-- C9: when the association probability does not exceed
`minimumProbability`, or no entry has a positive density, the lifecycle pass
only multiplies activities by the decay factor: the entry it reaches keeps its
blob before the switch, no `onUpdated` call is made, and every entry of the
population after the pass carries the blob and the decayed activity of an
entry before the pass, or is a seed reset by its promotion. -/
theorem no_update_below_minimum_probability (m : Libm α) (s : TrackBlobs α) (ev : Event α)
    (hlow : (associate m ev s.datum).1 ≤ s.minimumProbability ∨
      ∀ d ∈ s.datum, probabilityCandidate m ev d.blob ≤ 0) :
    (∀ (pre : List (Data α)) (d : Data α) (post : List (Data α)),
      s.datum = pre ++ d :: post →
      afterUpdate m s ev pre d = { d with activity := d.activity * exponentialDecay m s ev }) ∧
    (∀ n ∈ (lifecycle m s ev).2, ∀ (id : Nat) (b : Blob α), n ≠ Notification.updated id b) ∧
    (∀ e ∈ (lifecycle m s ev).1.datum, ∃ d ∈ s.datum,
      (e.blob = d.blob ∧ e.activity = d.activity * exponentialDecay m s ev) ∨
      (d.status = Status.hidden ∧ d.activity * exponentialDecay m s ev > s.promotionActivity ∧
        e.id = d.id ∧ e.status = Status.hidden ∧
        e.blob = s.initialBlobs.getD d.id Blob.zero ∧ e.activity = 0)) := by
  have hlow' : (associate m ev s.datum).1 ≤ s.minimumProbability ∨
      s.datum.length ≤ (associate m ev s.datum).2 := by
    rcases hlow with h | h
    · left; exact h
    · right
      simp [associate, associateLoop_of_nonpos m ev s.datum h]
  refine ⟨?_, ?_, ?_⟩
  · intro pre d post h
    apply decayUpdate_of_not_updates
    rcases hlow' with h1 | h1
    · simp [updates, not_lt.mpr h1]
    · have h2 := reach_length_le m s ev pre
      have h3 : pre.length < s.datum.length := by rw [h]; simp
      have : (reach m s ev pre).datum.length ≠ (associate m ev s.datum).2 := by omega
      simp [updates, atWinner, this]
  · exact (lifecycleLoop_no_update s ev _ _ _ s.datum 0 s.idOffset
      (by simpa using hlow')).1
  · exact (lifecycleLoop_no_update s ev _ _ _ s.datum 0 s.idOffset
      (by simpa using hlow')).2

/-! ## The correction pass: what it keeps of each entry -/

theorem attract_fst (s : TrackBlobs α) (l : List (Data α)) : ∀ (ds : Deltas α),
    (attract s l ds).1 = l.map (fun d =>
      if d.blob.x ^ 2 + d.blob.y ^ 2 > s.attractionResetDistanceSquared then d
      else { d with blob := s.initialBlobs.getD d.id Blob.zero, activity := 0 }) := by
  induction l with
  | nil => intro ds; rfl
  | cons d rest ih =>
    intro ds
    unfold attract
    split_ifs with h
    · simp [ih, h]
    · simp [ih, h]

theorem applyDeltas_getElem? (ds : Deltas α) (l : List (Data α)) : ∀ (pos j : Nat),
    (applyDeltas ds pos l)[j]? = l[j]?.map (fun d =>
      { d with blob := { d.blob with x := d.blob.x + ds.x.getD (pos + j) 0
                                     y := d.blob.y + ds.y.getD (pos + j) 0 } }) := by
  induction l with
  | nil => intro pos j; simp [applyDeltas]
  | cons d rest ih =>
    intro pos j
    cases j with
    | zero => simp [applyDeltas]
    | succ j =>
      simp only [applyDeltas, List.getElem?_cons_succ, ih]
      have : pos + 1 + j = pos + (j + 1) := by omega
      rw [this]

/-- The entry at position `j` after the correction pass: same id and status;
activity and covariance kept outside the reset distance, reset inside. -/
theorem correct_getElem? (m : Libm α) (s : TrackBlobs α) (j : Nat) (d : Data α)
    (hd : s.datum[j]? = some d) :
    ∃ e, (correct m s)[j]? = some e ∧ e.id = d.id ∧ e.status = d.status ∧
      (d.blob.x ^ 2 + d.blob.y ^ 2 > s.attractionResetDistanceSquared →
        e.activity = d.activity ∧ e.blob.squaredSigmaX = d.blob.squaredSigmaX ∧
        e.blob.sigmaXY = d.blob.sigmaXY ∧ e.blob.squaredSigmaY = d.blob.squaredSigmaY) ∧
      (¬ d.blob.x ^ 2 + d.blob.y ^ 2 > s.attractionResetDistanceSquared →
        e.activity = 0 ∧
        e.blob.squaredSigmaX = (s.initialBlobs.getD d.id Blob.zero).squaredSigmaX ∧
        e.blob.sigmaXY = (s.initialBlobs.getD d.id Blob.zero).sigmaXY ∧
        e.blob.squaredSigmaY = (s.initialBlobs.getD d.id Blob.zero).squaredSigmaY) := by
  unfold correct
  simp only [applyDeltas_getElem?, attract_fst, List.getElem?_map, hd, Option.map_some']
  refine ⟨_, rfl, ?_, ?_, ?_, ?_⟩
  · split_ifs <;> rfl
  · split_ifs <;> rfl
  · intro h; simp [h]
  · intro h; simp [h]

theorem correct_length (m : Libm α) (s : TrackBlobs α) :
    (correct m s).length = s.datum.length := by
  apply Nat.le_antisymm
  · by_contra hlt
    push_neg at hlt
    have h1 : (correct m s)[s.datum.length]? ≠ none := by
      simp [List.getElem?_eq_none_iff]; omega
    apply h1
    unfold correct
    simp [applyDeltas_getElem?, attract_fst]
  · by_contra hlt
    push_neg at hlt
    obtain ⟨d, hd⟩ : ∃ d, s.datum[(correct m s).length]? = some d := by
      rw [List.getElem?_eq_getElem hlt]; exact ⟨_, rfl⟩
    obtain ⟨e, he, _⟩ := correct_getElem? m s _ d hd
    simp at he

/-! ## The handler as a whole -/

theorem process_datum_of_skip (m : Libm α) (s : TrackBlobs α) (ev : Event α)
    (h : s.skippedEvents < s.pairwiseCalculationsToSkip) :
    (process m s ev).1.datum = (lifecycle m s ev).1.datum := by
  have h' : ¬ (lifecycle m s ev).1.skippedEvents ≥ (lifecycle m s ev).1.pairwiseCalculationsToSkip := by
    simp only [lifecycle]; omega
  simp only [process, pairwise, if_neg h']

theorem process_datum_of_correct (m : Libm α) (s : TrackBlobs α) (ev : Event α)
    (h : s.pairwiseCalculationsToSkip ≤ s.skippedEvents) :
    (process m s ev).1.datum = correct m (lifecycle m s ev).1 := by
  have h' : (lifecycle m s ev).1.skippedEvents ≥ (lifecycle m s ev).1.pairwiseCalculationsToSkip := by
    simp only [lifecycle]; omega
  simp only [process, pairwise, if_pos h']

theorem process_previousTimestamp (m : Libm α) (s : TrackBlobs α) (ev : Event α) :
    (process m s ev).1.previousTimestamp = ev.timestamp := rfl

theorem lifecycle_datum_split (m : Libm α) (s : TrackBlobs α) (ev : Event α)
    (pre : List (Data α)) (d : Data α) (post : List (Data α))
    (h : s.datum = pre ++ d :: post) :
    (lifecycle m s ev).1.datum =
      (reach m s ev pre).datum ++ ((visit m s ev pre d).datum ++
        ((resume m s ev ((reach m s ev pre).datum.length + (visit m s ev pre d).datum.length)
            (visit m s ev pre d).idOffset post).datum ++
          (lifecyclePass m s ev).datumToAdd)) := by
  show (lifecyclePass m s ev).datum ++ (lifecyclePass m s ev).datumToAdd = _
  have hd := congrArg Pass.datum (lifecyclePass_split m s ev pre d post h)
  rw [hd]
  simp [Pass.append]

/-- The entry kept by a visit sits right after the entries kept before it. -/
theorem lifecycle_getElem?_of_kept (m : Libm α) (s : TrackBlobs α) (ev : Event α)
    (pre : List (Data α)) (d : Data α) (post : List (Data α))
    (h : s.datum = pre ++ d :: post) (e : Data α) (he : (visit m s ev pre d).datum = [e]) :
    (lifecycle m s ev).1.datum[(reach m s ev pre).datum.length]? = some e := by
  rw [lifecycle_datum_split m s ev pre d post h, he]
  rw [List.getElem?_append_right (le_refl _)]
  simp

/-- C3 (amended): for an `Event` with a signed timestamp, an entry that did
not win the association, that the loop does not reach at the position
`winner` either (it never does when no entry before it is erased in the call;
after an erase `winner` designates a later entry, which the loop updates in
the winner's place), that is not a seed promoting in this call and is kept in
the population, has right after the lifecycle pass its former activity times
`exp(-(t2 - t1) / activityDecay)`; it still has it when the call returns
without a correction pass, and a correction pass in the call keeps it outside
the reset distance and sets it to `0` inside. -/
theorem decayed_activity_after_lifecycle (m : Libm α) (s : TrackBlobs α) (ev : Event α)
    (pre : List (Data α)) (d : Data α) (post : List (Data α))
    (h : s.datum = pre ++ d :: post)
    (hnot : pre.length ≠ (associate m ev s.datum).2)
    (hpos : (reach m s ev pre).datum.length ≠ (associate m ev s.datum).2)
    (hseed : ¬ (d.status = Status.hidden ∧
      d.activity * exponentialDecay m s ev > s.promotionActivity))
    (e : Data α) (he : (visit m s ev pre d).datum = [e]) :
    (process m s ev).1.previousTimestamp = ev.timestamp ∧
    (lifecycle m s ev).1.datum[(reach m s ev pre).datum.length]? = some e ∧
    e.activity = d.activity *
      m.exp (((-(ev.timestamp - s.previousTimestamp) : Int) : α) / s.activityDecay) ∧
    (s.skippedEvents < s.pairwiseCalculationsToSkip →
      (process m s ev).1.datum[(reach m s ev pre).datum.length]? = some e) ∧
    (s.pairwiseCalculationsToSkip ≤ s.skippedEvents →
      ∃ e', (process m s ev).1.datum[(reach m s ev pre).datum.length]? = some e' ∧
        (e.blob.x ^ 2 + e.blob.y ^ 2 > s.attractionResetDistanceSquared →
          e'.activity = e.activity) ∧
        (¬ e.blob.x ^ 2 + e.blob.y ^ 2 > s.attractionResetDistanceSquared →
          e'.activity = 0)) := by
  have hget := lifecycle_getElem?_of_kept m s ev pre d post h e he
  have hup : updates s (associate m ev s.datum).1 (atWinner m s ev pre) = false := by
    simp [updates, atWinner, hpos]
  have hd : afterUpdate m s ev pre d = { d with activity := d.activity * exponentialDecay m s ev } :=
    decayUpdate_of_not_updates _ _ _ _ _ _ hup
  have hmem : e ∈ (transition s (reach m s ev pre).idOffset
        { d with activity := d.activity * exponentialDecay m s ev }).kept.toList
      ++ (transition s (reach m s ev pre).idOffset
        { d with activity := d.activity * exponentialDecay m s ev }).spawned.toList := by
    have : (transition s (reach m s ev pre).idOffset
        { d with activity := d.activity * exponentialDecay m s ev }).kept.toList = [e] := by
      rw [← hd]; exact he
    rw [this]; simp
  refine ⟨rfl, hget, ?_, ?_, ?_⟩
  · rcases transition_of_decayed s _ d _ e hmem with h1 | h1
    · exact h1.2
    · exact absurd ⟨h1.1, h1.2.1⟩ hseed
  · intro hskip
    rw [process_datum_of_skip m s ev hskip]
    exact hget
  · intro hrun
    rw [process_datum_of_correct m s ev hrun]
    obtain ⟨e', he', _, _, h1, h2⟩ := correct_getElem? m (lifecycle m s ev).1 _ e hget
    exact ⟨e', he', fun hx => (h1 hx).1, fun hx => (h2 hx).1⟩

/-! ## Invariants of the engine over a run -/

theorem transition_hidden_kept (s : TrackBlobs α) (off : Nat) (d : Data α)
    (hs : d.status = Status.hidden) :
    ∃ e, (transition s off d).kept = some e ∧ e.id = d.id ∧ e.status = Status.hidden := by
  unfold transition
  simp only [hs]
  split_ifs
  · exact ⟨_, rfl, rfl, rfl⟩
  · exact ⟨_, rfl, rfl, hs⟩

theorem lifecycleLoop_hidden_length (s : TrackBlobs α) (ev : Event α) (p decay : α)
    (winner : Nat) (l : List (Data α)) (hl : ∀ d ∈ l, d.status = Status.hidden) :
    ∀ (pos off : Nat), (lifecycleLoop s ev p decay winner pos off l).datum.length = l.length := by
  induction l with
  | nil => intro pos off; simp [lifecycleLoop]
  | cons d rest ih =>
    intro pos off
    obtain ⟨e, he, _, _⟩ := transition_hidden_kept s off
      (decayUpdate s ev p decay (decide (pos = winner)) d)
      (by rw [decayUpdate_status]; exact hl d (List.mem_cons_self _ _))
    simp only [lifecycleLoop, he, Option.toList, List.length_append, List.length_cons,
      List.length_nil, Option.isSome_some, if_true]
    rw [ih (fun x hx => hl x (List.mem_cons_of_mem _ hx))]
    omega

theorem split_at_getElem? {β : Type} (l : List β) (j : Nat) (d : β) (h : l[j]? = some d) :
    l = l.take j ++ d :: l.drop (j + 1) ∧ (l.take j).length = j := by
  have hj : j < l.length := by
    by_contra hn
    rw [List.getElem?_eq_none (not_lt.mp hn)] at h
    exact Option.noConfusion h
  have hd : l[j] = d := by
    rw [List.getElem?_eq_getElem hj] at h
    exact Option.some.inj h
  refine ⟨?_, by simp [List.length_take]; omega⟩
  rw [← hd, ← List.drop_eq_getElem_cons hj, List.take_append_drop]

theorem seedsInFront_take_hidden (n : Nat) (datum : List (Data α)) (h : SeedsInFront n datum)
    (j : Nat) (hj : j ≤ n) : ∀ d ∈ datum.take j, d.status = Status.hidden := by
  intro d hd
  obtain ⟨i, hi⟩ := List.mem_iff_getElem?.mp hd
  have hi' : i < j := by
    by_contra hn
    have hlen : (datum.take j).length ≤ i := by
      simp only [List.length_take]; omega
    rw [List.getElem?_eq_none hlen] at hi
    exact Option.noConfusion hi
  rw [List.getElem?_take_of_lt hi'] at hi
  obtain ⟨e, he, _, hst⟩ := h i (by omega)
  rw [hi] at he
  rw [Option.some.inj he]
  exact hst

/-- A seed slot `d` (all entries before it are hidden) is kept by the pass at
its own position. -/
theorem reach_length_of_seeds (m : Libm α) (s : TrackBlobs α) (ev : Event α)
    (n : Nat) (h : SeedsInFront n s.datum) (pre : List (Data α)) (d : Data α)
    (post : List (Data α)) (hsplit : s.datum = pre ++ d :: post) (hpre : pre.length < n) :
    (reach m s ev pre).datum.length = pre.length ∧ d.id = pre.length ∧
      d.status = Status.hidden := by
  have htake : s.datum.take pre.length = pre := by
    rw [hsplit]; simp
  have hhid := seedsInFront_take_hidden n s.datum h pre.length (le_of_lt hpre)
  rw [htake] at hhid
  obtain ⟨e, he, hid, hst⟩ := h pre.length hpre
  have : s.datum[pre.length]? = some d := by
    rw [hsplit, List.getElem?_append_right (le_refl _)]; simp
  rw [this] at he
  have hde := Option.some.inj he
  subst hde
  exact ⟨lifecycleLoop_hidden_length _ _ _ _ _ _ hhid _ _, hid, hst⟩

theorem visit_hidden_datum (m : Libm α) (s : TrackBlobs α) (ev : Event α)
    (pre : List (Data α)) (d : Data α) (hs : d.status = Status.hidden) :
    ∃ e, (visit m s ev pre d).datum = [e] ∧ e.id = d.id ∧ e.status = Status.hidden := by
  obtain ⟨e, he, hid, hst⟩ := transition_hidden_kept s (reach m s ev pre).idOffset
    (afterUpdate m s ev pre d) (by rw [afterUpdate_status]; exact hs)
  refine ⟨e, ?_, ?_, hst⟩
  · simp [visit, he]
  · rw [hid, afterUpdate_id]

theorem lifecycle_seedsInFront (m : Libm α) (s : TrackBlobs α) (ev : Event α) (n : Nat)
    (h : SeedsInFront n s.datum) : SeedsInFront n (lifecycle m s ev).1.datum := by
  intro j hj
  obtain ⟨d, hd, hid, hst⟩ := h j hj
  obtain ⟨hsplit, hlen⟩ := split_at_getElem? s.datum j d hd
  obtain ⟨hr, _, _⟩ := reach_length_of_seeds m s ev n h _ d _ hsplit (by rw [hlen]; exact hj)
  obtain ⟨e, he, heid, hest⟩ := visit_hidden_datum m s ev (s.datum.take j) d hst
  have := lifecycle_getElem?_of_kept m s ev _ d _ hsplit e he
  rw [hr, hlen] at this
  exact ⟨e, this, by rw [heid, hid], hest⟩

theorem pairwise_seedsInFront (m : Libm α) (s : TrackBlobs α) (n : Nat)
    (h : SeedsInFront n s.datum) : SeedsInFront n (pairwise m s).datum := by
  unfold pairwise
  split_ifs
  · intro j hj
    obtain ⟨d, hd, hid, hst⟩ := h j hj
    obtain ⟨e, he, heid, hest, _⟩ := correct_getElem? m s j d hd
    exact ⟨e, he, by rw [heid, hid], by rw [hest, hst]⟩
  · exact h

theorem process_seedsInFront (m : Libm α) (s : TrackBlobs α) (ev : Event α) (n : Nat)
    (h : SeedsInFront n s.datum) : SeedsInFront n (process m s ev).1.datum :=
  pairwise_seedsInFront m _ n (lifecycle_seedsInFront m s ev n h)

theorem pairwise_initialBlobs (m : Libm α) (s : TrackBlobs α) :
    (pairwise m s).initialBlobs = s.initialBlobs ∧ (pairwise m s).idOffset = s.idOffset := by
  unfold pairwise
  split_ifs <;> exact ⟨rfl, rfl⟩

theorem process_initialBlobs (m : Libm α) (s : TrackBlobs α) (ev : Event α) :
    (process m s ev).1.initialBlobs = s.initialBlobs :=
  (pairwise_initialBlobs m (lifecycle m s ev).1).1

theorem process_idOffset (m : Libm α) (s : TrackBlobs α) (ev : Event α) :
    (process m s ev).1.idOffset = (lifecyclePass m s ev).idOffset :=
  (pairwise_initialBlobs m (lifecycle m s ev).1).2

theorem run_seedsInFront (m : Libm α) (n : Nat) (evs : List (Event α)) :
    ∀ (s : TrackBlobs α), SeedsInFront n s.datum →
      SeedsInFront n (run m s evs).1.datum ∧ (run m s evs).1.initialBlobs = s.initialBlobs := by
  induction evs with
  | nil => intro s h; exact ⟨h, rfl⟩
  | cons ev rest ih =>
    intro s h
    obtain ⟨h1, h2⟩ := ih (process m s ev).1 (process_seedsInFront m s ev n h)
    exact ⟨h1, by rw [show (run m s (ev :: rest)).1 = (run m (process m s ev).1 rest).1 from rfl,
      h2, process_initialBlobs]⟩

theorem construct_seedsInFront (initialBlobs : List (Blob α)) (initialTimestamp : Int)
    (activityDecay minimumProbability promotionActivity deletionActivity meanInertia
      covarianceInertia repulsionStrength repulsionLength attractionStrength
      attractionResetDistance : α)
    (pairwiseCalculationsToSkip : Nat) (garbageStrength : α) (garbageSkipped : Nat) :
    SeedsInFront initialBlobs.length
      (construct initialBlobs initialTimestamp activityDecay minimumProbability
        promotionActivity deletionActivity meanInertia covarianceInertia repulsionStrength
        repulsionLength attractionStrength attractionResetDistance pairwiseCalculationsToSkip
        garbageStrength garbageSkipped).datum := by
  intro j hj
  refine ⟨⟨j, initialBlobs.getD j Blob.zero, 0, Status.hidden⟩, ?_, rfl, rfl⟩
  simp [construct, List.getElem?_range hj]

/-- C10 (amended): in an engine reached from construction by any events,
when a seed slot promotes during a call, right after the lifecycle pass of
that call its entry is again the construction one (its index as id, the blob
given for it at construction, activity `0`, status hidden); so it is when the
call returns without a correction pass, and a correction pass in the same call
leaves its activity at `0` and its three covariance terms at the construction
values (the mean then receives that pass's deltas). -/
theorem seed_reset_on_promotion (m : Libm α)
    (initialBlobs : List (Blob α)) (initialTimestamp : Int)
    (activityDecay minimumProbability promotionActivity deletionActivity meanInertia
      covarianceInertia repulsionStrength repulsionLength attractionStrength
      attractionResetDistance : α)
    (pairwiseCalculationsToSkip : Nat) (garbageStrength : α) (garbageSkipped : Nat)
    (evs : List (Event α)) (s : TrackBlobs α)
    (hrun : s = (run m (construct initialBlobs initialTimestamp activityDecay minimumProbability
        promotionActivity deletionActivity meanInertia covarianceInertia repulsionStrength
        repulsionLength attractionStrength attractionResetDistance pairwiseCalculationsToSkip
        garbageStrength garbageSkipped) evs).1)
    (ev : Event α) (pre : List (Data α)) (d : Data α) (post : List (Data α))
    (h : s.datum = pre ++ d :: post) (hseed : pre.length < initialBlobs.length)
    (hpromo : (afterUpdate m s ev pre d).activity > s.promotionActivity) :
    d.status = Status.hidden ∧ d.id = pre.length ∧
    ∃ b, initialBlobs[pre.length]? = some b ∧
      (lifecycle m s ev).1.datum[pre.length]? = some ⟨pre.length, b, 0, Status.hidden⟩ ∧
      (s.skippedEvents < s.pairwiseCalculationsToSkip →
        (process m s ev).1.datum[pre.length]? = some ⟨pre.length, b, 0, Status.hidden⟩) ∧
      (s.pairwiseCalculationsToSkip ≤ s.skippedEvents →
        ∃ e, (process m s ev).1.datum[pre.length]? = some e ∧
          e.id = pre.length ∧ e.status = Status.hidden ∧ e.activity = 0 ∧
          e.blob.squaredSigmaX = b.squaredSigmaX ∧ e.blob.sigmaXY = b.sigmaXY ∧
          e.blob.squaredSigmaY = b.squaredSigmaY) := by
  obtain ⟨hinv, hblobs⟩ := run_seedsInFront m initialBlobs.length evs _
    (construct_seedsInFront initialBlobs initialTimestamp activityDecay minimumProbability
      promotionActivity deletionActivity meanInertia covarianceInertia repulsionStrength
      repulsionLength attractionStrength attractionResetDistance pairwiseCalculationsToSkip
      garbageStrength garbageSkipped)
  rw [← hrun] at hinv hblobs
  have hblobs' : s.initialBlobs = initialBlobs := hblobs
  obtain ⟨hlen, hid, hst⟩ := reach_length_of_seeds m s ev _ hinv pre d post h hseed
  have hst' : (afterUpdate m s ev pre d).status = Status.hidden := by
    rw [afterUpdate_status, hst]
  have hb : initialBlobs[pre.length]? = some (initialBlobs.getD pre.length Blob.zero) := by
    rw [List.getD_eq_getElem?_getD, List.getElem?_eq_getElem hseed]; rfl
  have hkept : (visit m s ev pre d).datum =
      [⟨pre.length, initialBlobs.getD pre.length Blob.zero, 0, Status.hidden⟩] := by
    simp only [visit, transition, hst', if_pos hpromo, Option.toList, afterUpdate_id, hid,
      hblobs']
  have hget := lifecycle_getElem?_of_kept m s ev pre d post h _ hkept
  rw [hlen] at hget
  refine ⟨hst, hid, _, hb, hget, ?_, ?_⟩
  · intro hskip
    rw [process_datum_of_skip m s ev hskip]
    exact hget
  · intro hcorr
    rw [process_datum_of_correct m s ev hcorr]
    obtain ⟨e, he, heid, hest, h1, h2⟩ := correct_getElem? m (lifecycle m s ev).1 _ _ hget
    refine ⟨e, he, heid, hest, ?_⟩
    have hib : (lifecycle m s ev).1.initialBlobs = initialBlobs := hblobs'
    by_cases hx : (initialBlobs.getD pre.length Blob.zero).x ^ 2
        + (initialBlobs.getD pre.length Blob.zero).y ^ 2
        > (lifecycle m s ev).1.attractionResetDistanceSquared
    · obtain ⟨ha, hb1, hb2, hb3⟩ := h1 hx
      exact ⟨ha, hb1, hb2, hb3⟩
    · obtain ⟨ha, hb1, hb2, hb3⟩ := h2 hx
      rw [hib] at hb1 hb2 hb3
      exact ⟨ha, hb1, hb2, hb3⟩

/-! ## The ids of the spawned entries -/

theorem transition_spawned_id (s : TrackBlobs α) (off : Nat) (d e : Data α)
    (h : (transition s off d).spawned = some e) : e.id = off := by
  unfold transition at h
  cases hst : d.status <;> simp only [hst] at h <;> split_ifs at h <;> simp at h
  rw [← h]

/-- The ids handed out by one stretch of the loop count up from `_idOffset`
(modulo the width of `std::size_t`). -/
theorem lifecycleLoop_ids (s : TrackBlobs α) (ev : Event α) (p decay : α) (winner : Nat)
    (l : List (Data α)) : ∀ (pos off : Nat), off < sizeMax →
    (lifecycleLoop s ev p decay winner pos off l).idOffset =
      (off + (lifecycleLoop s ev p decay winner pos off l).datumToAdd.length) % sizeMax ∧
    ∀ i e, (lifecycleLoop s ev p decay winner pos off l).datumToAdd[i]? = some e →
      e.id = (off + i) % sizeMax := by
  induction l with
  | nil =>
    intro pos off hoff
    simp [lifecycleLoop, Nat.mod_eq_of_lt hoff]
  | cons d rest ih =>
    intro pos off hoff
    simp only [lifecycleLoop]
    cases hsp : (transition s off (decayUpdate s ev p decay (decide (pos = winner)) d)).spawned with
    | none =>
      simp only [Option.isSome_none, Bool.false_eq_true, if_false, Option.toList,
        List.nil_append]
      exact ih _ off hoff
    | some e0 =>
      have hlt : (off + 1) % sizeMax < sizeMax := Nat.mod_lt _ (by unfold sizeMax; positivity)
      simp only [Option.isSome_some, if_true, Option.toList, List.singleton_append,
        List.length_cons]
      obtain ⟨h1, h2⟩ := ih (if (transition s off
        (decayUpdate s ev p decay (decide (pos = winner)) d)).kept.isSome then pos + 1 else pos)
        ((off + 1) % sizeMax) hlt
      constructor
      · rw [h1, Nat.mod_add_mod]
        congr 1
        omega
      · intro i e hi
        cases i with
        | zero =>
          simp only [List.getElem?_cons_zero, Option.some.injEq] at hi
          rw [← hi, transition_spawned_id s off _ e0 hsp, Nat.add_zero, Nat.mod_eq_of_lt hoff]
        | succ i =>
          simp only [List.getElem?_cons_succ] at hi
          rw [h2 i e hi, Nat.mod_add_mod]
          congr 1
          omega

theorem lifecyclePass_idOffset_lt (m : Libm α) (s : TrackBlobs α) (ev : Event α)
    (h : s.idOffset < sizeMax) : (lifecyclePass m s ev).idOffset < sizeMax := by
  unfold lifecyclePass
  rw [(lifecycleLoop_ids s ev _ _ _ s.datum 0 s.idOffset h).1]
  exact Nat.mod_lt _ (by unfold sizeMax; positivity)

/-- Over a run, the ids of the spawned entries count up from `_idOffset`
(modulo the width of `std::size_t`). -/
theorem run_ids (m : Libm α) (evs : List (Event α)) : ∀ (s : TrackBlobs α),
    s.idOffset < sizeMax →
    (run m s evs).1.idOffset = (s.idOffset + (spawnedBy m s evs).length) % sizeMax ∧
    ∀ i e, (spawnedBy m s evs)[i]? = some e → e.id = (s.idOffset + i) % sizeMax := by
  induction evs with
  | nil =>
    intro s hs
    simp [run, spawnedBy, Nat.mod_eq_of_lt hs]
  | cons ev rest ih =>
    intro s hs
    obtain ⟨h1, h2⟩ := lifecycleLoop_ids s ev (associate m ev s.datum).1
      (exponentialDecay m s ev) (associate m ev s.datum).2 s.datum 0 s.idOffset hs
    have hoff : (process m s ev).1.idOffset = (lifecyclePass m s ev).idOffset :=
      process_idOffset m s ev
    have hlt : (process m s ev).1.idOffset < sizeMax := by
      rw [hoff]; exact lifecyclePass_idOffset_lt m s ev hs
    obtain ⟨h3, h4⟩ := ih (process m s ev).1 hlt
    have h1' : (lifecyclePass m s ev).idOffset =
        (s.idOffset + (lifecyclePass m s ev).datumToAdd.length) % sizeMax := h1
    constructor
    · show (run m (process m s ev).1 rest).1.idOffset = _
      rw [h3, hoff, h1', Nat.mod_add_mod]
      simp only [spawnedBy, List.length_append]
      congr 1
      omega
    · intro i e hi
      simp only [spawnedBy] at hi
      by_cases hlen : i < (lifecyclePass m s ev).datumToAdd.length
      · rw [List.getElem?_append_left hlen] at hi
        exact h2 i e hi
      · rw [List.getElem?_append_right (not_lt.mp hlen)] at hi
        rw [h4 _ e hi, hoff, h1', Nat.mod_add_mod]
        congr 1
        omega

/-- C5: in an engine reached from construction, a hidden seed whose activity
after decay and update exceeds `promotionActivity` makes the loop push exactly
one entry on `datumToAdd` (status promoted, the seed's blob and activity after
the update, id `_idOffset`) and call `onPromoted` once with that id and blob;
the id was given to no entry spawned before (fewer than `2 ^ 64` entries having
been spawned); the seed is reset; the new entry stands in the population after
all the entries the pass kept, exactly as it was created.  A hidden seed whose
activity does not exceed `promotionActivity` spawns nothing and no handler is
called for it. -/
theorem hidden_seed_promotion (m : Libm α)
    (initialBlobs : List (Blob α)) (initialTimestamp : Int)
    (activityDecay minimumProbability promotionActivity deletionActivity meanInertia
      covarianceInertia repulsionStrength repulsionLength attractionStrength
      attractionResetDistance : α)
    (pairwiseCalculationsToSkip : Nat) (garbageStrength : α) (garbageSkipped : Nat)
    (evs : List (Event α)) (s : TrackBlobs α)
    (hrun : s = (run m (construct initialBlobs initialTimestamp activityDecay minimumProbability
        promotionActivity deletionActivity meanInertia covarianceInertia repulsionStrength
        repulsionLength attractionStrength attractionResetDistance pairwiseCalculationsToSkip
        garbageStrength garbageSkipped) evs).1)
    (ev : Event α) (pre : List (Data α)) (d : Data α) (post : List (Data α))
    (h : s.datum = pre ++ d :: post) (hs : d.status = Status.hidden) :
    lifecyclePass m s ev =
      ((reach m s ev pre).append (visit m s ev pre d)).append
        (resume m s ev ((reach m s ev pre).datum.length + (visit m s ev pre d).datum.length)
          (visit m s ev pre d).idOffset post) ∧
    (lifecycle m s ev).1.datum = (lifecyclePass m s ev).datum ++ (lifecyclePass m s ev).datumToAdd ∧
    (lifecycle m s ev).2 = (lifecyclePass m s ev).notes ∧
    ((afterUpdate m s ev pre d).activity > s.promotionActivity →
      (visit m s ev pre d).datumToAdd =
        [⟨(reach m s ev pre).idOffset, (afterUpdate m s ev pre d).blob,
          (afterUpdate m s ev pre d).activity, Status.promoted⟩] ∧
      (visit m s ev pre d).notes =
        [Notification.promoted (reach m s ev pre).idOffset (afterUpdate m s ev pre d).blob] ∧
      (visit m s ev pre d).datum =
        [⟨d.id, s.initialBlobs.getD d.id Blob.zero, 0, Status.hidden⟩] ∧
      (lifecycle m s ev).1.datum[(lifecyclePass m s ev).datum.length
          + (reach m s ev pre).datumToAdd.length]? =
        some ⟨(reach m s ev pre).idOffset, (afterUpdate m s ev pre d).blob,
          (afterUpdate m s ev pre d).activity, Status.promoted⟩ ∧
      ((spawnedBy m (construct initialBlobs initialTimestamp activityDecay minimumProbability
          promotionActivity deletionActivity meanInertia covarianceInertia repulsionStrength
          repulsionLength attractionStrength attractionResetDistance pairwiseCalculationsToSkip
          garbageStrength garbageSkipped) evs).length + (reach m s ev pre).datumToAdd.length < sizeMax →
        ∀ e ∈ spawnedBy m (construct initialBlobs initialTimestamp activityDecay
            minimumProbability promotionActivity deletionActivity meanInertia covarianceInertia
            repulsionStrength repulsionLength attractionStrength attractionResetDistance
            pairwiseCalculationsToSkip garbageStrength garbageSkipped) evs
          ++ (reach m s ev pre).datumToAdd,
          e.id ≠ (reach m s ev pre).idOffset)) ∧
    (¬ (afterUpdate m s ev pre d).activity > s.promotionActivity →
      (visit m s ev pre d).datumToAdd = [] ∧
      (visit m s ev pre d).notes = [] ∧
      (visit m s ev pre d).datum = [afterUpdate m s ev pre d]) := by
  have hst : (afterUpdate m s ev pre d).status = Status.hidden := by
    rw [afterUpdate_status, hs]
  have hup : updateNotes s (associate m ev s.datum).1 (atWinner m s ev pre)
      (afterUpdate m s ev pre d) = [] := by
    simp [updateNotes, hst]
  have hsplit := lifecyclePass_split m s ev pre d post h
  refine ⟨hsplit, rfl, rfl, ?_, ?_⟩
  · intro hp
    have hadd : (visit m s ev pre d).datumToAdd =
        [⟨(reach m s ev pre).idOffset, (afterUpdate m s ev pre d).blob,
          (afterUpdate m s ev pre d).activity, Status.promoted⟩] := by
      simp only [visit, transition, hst, if_pos hp, Option.toList]
    refine ⟨hadd, ?_, ?_, ?_, ?_⟩
    · simp only [visit, hup, transition, hst, if_pos hp, List.nil_append]
    · simp only [visit, transition, hst, if_pos hp, Option.toList, afterUpdate_id]
    · show ((lifecyclePass m s ev).datum ++ (lifecyclePass m s ev).datumToAdd)[_]? = _
      rw [List.getElem?_append_right (Nat.le_add_right _ _), Nat.add_sub_cancel_left]
      have := congrArg Pass.datumToAdd hsplit
      rw [this]
      simp only [Pass.append, hadd, List.append_assoc]
      rw [List.getElem?_append_right (le_refl _)]
      simp
    · intro hbound e he
      set s₀ := construct initialBlobs initialTimestamp activityDecay minimumProbability
        promotionActivity deletionActivity meanInertia covarianceInertia repulsionStrength
        repulsionLength attractionStrength attractionResetDistance pairwiseCalculationsToSkip
        garbageStrength garbageSkipped with hs₀
      have h0 : s₀.idOffset = 0 := rfl
      have hM : (0 : Nat) < sizeMax := by unfold sizeMax; positivity
      obtain ⟨r1, r2⟩ := run_ids m evs s₀ (by rw [h0]; exact hM)
      rw [← hrun, h0, Nat.zero_add] at r1
      have hsoff : s.idOffset = (spawnedBy m s₀ evs).length :=
        r1.trans (Nat.mod_eq_of_lt (by omega))
      obtain ⟨q1, q2⟩ := lifecycleLoop_ids s ev (associate m ev s.datum).1
        (exponentialDecay m s ev) (associate m ev s.datum).2 pre 0 s.idOffset
        (by rw [hsoff]; omega)
      have q1' : (reach m s ev pre).idOffset =
          (s.idOffset + (reach m s ev pre).datumToAdd.length) % sizeMax := q1
      have hnew : (reach m s ev pre).idOffset =
          (spawnedBy m s₀ evs).length + (reach m s ev pre).datumToAdd.length := by
        rw [q1', hsoff]; exact Nat.mod_eq_of_lt hbound
      rw [hnew]
      rcases List.mem_append.mp he with he | he
      · obtain ⟨i, hi⟩ := List.mem_iff_getElem?.mp he
        have hil : i < (spawnedBy m s₀ evs).length := by
          by_contra hn
          rw [List.getElem?_eq_none (not_lt.mp hn)] at hi
          exact Option.noConfusion hi
        rw [r2 i e hi, h0, Nat.zero_add, Nat.mod_eq_of_lt (by omega)]
        omega
      · obtain ⟨i, hi⟩ := List.mem_iff_getElem?.mp he
        have hil : i < (reach m s ev pre).datumToAdd.length := by
          by_contra hn
          rw [List.getElem?_eq_none (not_lt.mp hn)] at hi
          exact Option.noConfusion hi
        have := q2 i e hi
        rw [this, hsoff, Nat.mod_eq_of_lt (by omega)]
        omega
  · intro hp
    refine ⟨?_, ?_, ?_⟩
    · simp only [visit, transition, hst, if_neg hp, Option.toList]
    · simp only [visit, hup, transition, hst, if_neg hp, List.nil_append]
    · simp only [visit, transition, hst, if_neg hp, Option.toList]

/-! ## Single steps of the loop, by case -/

theorem decayUpdate_of_updates (s : TrackBlobs α) (ev : Event α) (p decay : α) (w : Bool)
    (d : Data α) (h : updates s p w = true) :
    decayUpdate s ev p decay w d =
      { d with activity := d.activity * decay + p, blob := updateBlob s ev d.blob } := by
  simp [decayUpdate, h]

theorem transition_hidden_promote (s : TrackBlobs α) (off : Nat) (d : Data α)
    (hs : d.status = Status.hidden) (h : d.activity > s.promotionActivity) :
    transition s off d =
      { kept := some { d with blob := s.initialBlobs.getD d.id Blob.zero, activity := 0 }
        spawned := some ⟨off, d.blob, d.activity, Status.promoted⟩
        notes := [Notification.promoted off d.blob] } := by
  simp only [transition, hs, if_pos h]

theorem transition_hidden_stay (s : TrackBlobs α) (off : Nat) (d : Data α)
    (hs : d.status = Status.hidden) (h : ¬ d.activity > s.promotionActivity) :
    transition s off d = { kept := some d, spawned := none, notes := [] } := by
  simp only [transition, hs, if_neg h]

theorem transition_promoted_stay (s : TrackBlobs α) (off : Nat) (d : Data α)
    (hs : d.status = Status.promoted) (h : ¬ d.activity ≤ s.promotionActivity) :
    transition s off d = { kept := some d, spawned := none, notes := [] } := by
  simp only [transition, hs, if_neg h]

theorem transition_promoted_demote (s : TrackBlobs α) (off : Nat) (d : Data α)
    (hs : d.status = Status.promoted) (h : d.activity ≤ s.promotionActivity)
    (h' : ¬ d.activity ≤ s.deletionActivity) :
    transition s off d =
      { kept := some { d with status := Status.demoted }, spawned := none
        notes := [Notification.demoted d.id d.blob] } := by
  simp only [transition, hs, if_pos h, if_neg h']

theorem transition_demoted_stay (s : TrackBlobs α) (off : Nat) (d : Data α)
    (hs : d.status = Status.demoted) (h : ¬ d.activity ≤ s.deletionActivity)
    (h' : ¬ d.activity > s.promotionActivity) :
    transition s off d = { kept := some d, spawned := none, notes := [] } := by
  simp only [transition, hs, if_neg h, if_neg h']

theorem transition_demoted_delete (s : TrackBlobs α) (off : Nat) (d : Data α)
    (hs : d.status = Status.demoted) (h : d.activity ≤ s.deletionActivity) :
    transition s off d =
      { kept := none, spawned := none, notes := [Notification.deleted d.id d.blob] } := by
  simp only [transition, hs, if_pos h]

/-! ## The members of an example state -/

@[simp]
theorem track_initialBlobs (k sk : Nat) (t : Int) (datum : List (Data α)) (off : Nat) :
    (track k sk t datum off : TrackBlobs α).initialBlobs = [seedBlob] := rfl

@[simp]
theorem track_activityDecay (k sk : Nat) (t : Int) (datum : List (Data α)) (off : Nat) :
    (track k sk t datum off : TrackBlobs α).activityDecay = 1 := rfl

@[simp]
theorem track_minimumProbability (k sk : Nat) (t : Int) (datum : List (Data α)) (off : Nat) :
    (track k sk t datum off : TrackBlobs α).minimumProbability = 0 := rfl

@[simp]
theorem track_promotionActivity (k sk : Nat) (t : Int) (datum : List (Data α)) (off : Nat) :
    (track k sk t datum off : TrackBlobs α).promotionActivity = 1 / 100 := rfl

@[simp]
theorem track_deletionActivity (k sk : Nat) (t : Int) (datum : List (Data α)) (off : Nat) :
    (track k sk t datum off : TrackBlobs α).deletionActivity = 1 / 200 := rfl

@[simp]
theorem track_meanInertia (k sk : Nat) (t : Int) (datum : List (Data α)) (off : Nat) :
    (track k sk t datum off : TrackBlobs α).meanInertia = 1 / 2 := rfl

@[simp]
theorem track_covarianceInertia (k sk : Nat) (t : Int) (datum : List (Data α)) (off : Nat) :
    (track k sk t datum off : TrackBlobs α).covarianceInertia = 1 / 4 := rfl

@[simp]
theorem track_repulsionStrength (k sk : Nat) (t : Int) (datum : List (Data α)) (off : Nat) :
    (track k sk t datum off : TrackBlobs α).repulsionStrength = 1 := rfl

@[simp]
theorem track_repulsionLength (k sk : Nat) (t : Int) (datum : List (Data α)) (off : Nat) :
    (track k sk t datum off : TrackBlobs α).repulsionLength = 1 := rfl

@[simp]
theorem track_attractionStrength (k sk : Nat) (t : Int) (datum : List (Data α)) (off : Nat) :
    (track k sk t datum off : TrackBlobs α).attractionStrength = 0 := rfl

@[simp]
theorem track_attractionResetDistanceSquared (k sk : Nat) (t : Int) (datum : List (Data α)) (off : Nat) :
    (track k sk t datum off : TrackBlobs α).attractionResetDistanceSquared = (1 / 2) ^ 2 := rfl

@[simp]
theorem track_pairwiseCalculationsToSkip (k sk : Nat) (t : Int) (datum : List (Data α)) (off : Nat) :
    (track k sk t datum off : TrackBlobs α).pairwiseCalculationsToSkip = k := rfl

@[simp]
theorem track_previousTimestamp (k sk : Nat) (t : Int) (datum : List (Data α)) (off : Nat) :
    (track k sk t datum off : TrackBlobs α).previousTimestamp = t := rfl

@[simp]
theorem track_skippedEvents (k sk : Nat) (t : Int) (datum : List (Data α)) (off : Nat) :
    (track k sk t datum off : TrackBlobs α).skippedEvents = sk := rfl

@[simp]
theorem track_datum (k sk : Nat) (t : Int) (datum : List (Data α)) (off : Nat) :
    (track k sk t datum off : TrackBlobs α).datum = datum := rfl

@[simp]
theorem track_idOffset (k sk : Nat) (t : Int) (datum : List (Data α)) (off : Nat) :
    (track k sk t datum off : TrackBlobs α).idOffset = off := rfl

theorem process_track (m : Libm α) (k sk : Nat) (t : Int) (datum : List (Data α)) (off : Nat)
    (ev : Event α) (h : sk < k) :
    process m (track k sk t datum off) ev =
      (track k (sk + 1) ev.timestamp
        ((lifecyclePass m (track k sk t datum off) ev).datum
          ++ (lifecyclePass m (track k sk t datum off) ev).datumToAdd)
        (lifecyclePass m (track k sk t datum off) ev).idOffset,
       (lifecyclePass m (track k sk t datum off) ev).notes) := by
  have h' : ¬ (lifecycle m (track k sk t datum off) ev).1.skippedEvents
      ≥ (lifecycle m (track k sk t datum off) ev).1.pairwiseCalculationsToSkip := by
    simp only [lifecycle, track]; omega
  simp only [process, pairwise, if_neg h']
  simp [lifecycle, track]

theorem exampleEngine_eq (k : Nat) : (exampleEngine k : TrackBlobs α) = track k 0 0 [seedSlot] 0 := by
  simp [exampleEngine, construct, track, seedSlot, seedBlob, List.range_succ]

/-! ## The example run, event by event (over the reals) -/

theorem sqrt_quarter : Real.sqrt (1 / 4) = 1 / 2 := by
  rw [show (1 / 4 : ℝ) = (1 / 2) ^ 2 by norm_num]
  exact Real.sqrt_sq (by norm_num)

theorem sqrt_sixteenth : Real.sqrt (1 / 16) = 1 / 4 := by
  rw [show (1 / 16 : ℝ) = (1 / 4) ^ 2 by norm_num]
  exact Real.sqrt_sq (by norm_num)

theorem candidate_seed_origin :
    probabilityCandidate (⟨Real.exp, Real.sqrt, Real.pi⟩ : Libm ℝ) eventOrigin seedBlob = 1 := by
  simp [probabilityCandidate, determinant, eventOrigin, seedBlob]

theorem associate_origin :
    associate (⟨Real.exp, Real.sqrt, Real.pi⟩ : Libm ℝ) eventOrigin [seedSlot]
      = (1 / (2 * Real.pi), 0) := by
  simp only [associate, associateLoop, seedSlot, candidate_seed_origin]
  norm_num

theorem density_origin_gt : (1 / 100 : ℝ) < 1 / (2 * Real.pi) := by
  have h2 := Real.pi_le_four
  have h3 := Real.pi_pos
  rw [div_lt_div_iff₀ (by norm_num) (by positivity)]
  linarith

theorem pass_origin (k sk : Nat) :
    lifecyclePass (⟨Real.exp, Real.sqrt, Real.pi⟩ : Libm ℝ) (track k sk 0 [seedSlot] 0) eventOrigin =
      { datum := [seedSlot]
        datumToAdd := [⟨0, blobA, 1 / (2 * Real.pi), Status.promoted⟩]
        idOffset := 1
        notes := [Notification.promoted 0 blobA] } := by
  have hp := density_origin_gt
  have hp0 : (0 : ℝ) < 1 / (2 * Real.pi) := by linarith
  have hdecay : exponentialDecay (⟨Real.exp, Real.sqrt, Real.pi⟩ : Libm ℝ)
      (track k sk 0 [seedSlot] 0) eventOrigin = 1 := by
    simp [exponentialDecay, track, eventOrigin]
  have hu : updates (track k sk 0 [seedSlot] 0 : TrackBlobs ℝ) (1 / (2 * Real.pi)) true = true := by
    simp only [updates, track, Bool.true_and, decide_eq_true_eq]
    exact hp0
  have hd : decayUpdate (track k sk 0 [seedSlot] 0 : TrackBlobs ℝ) eventOrigin
      (1 / (2 * Real.pi)) 1 true seedSlot = ⟨0, blobA, 1 / (2 * Real.pi), Status.hidden⟩ := by
    rw [decayUpdate_of_updates _ _ _ _ _ _ hu]
    simp only [updateBlob, track, eventOrigin, seedSlot, seedBlob, blobA]
    norm_num
  have ht := transition_hidden_promote (track k sk 0 [seedSlot] 0 : TrackBlobs ℝ) 0
    ⟨0, blobA, 1 / (2 * Real.pi), Status.hidden⟩ rfl hp
  unfold lifecyclePass
  rw [show (track k sk 0 [seedSlot] 0 : TrackBlobs ℝ).datum = [seedSlot] from rfl,
    associate_origin, hdecay]
  simp only [lifecycleLoop, decide_True, track_idOffset, hd, ht, updateNotes, hu]
  simp [sizeMax, seedSlot]

/-! ## Bounds on the exponentials of the example run -/

theorem exp_neg_one_bounds :
    (367 / 1000 : ℝ) < Real.exp (-1) ∧ Real.exp (-1) < 371 / 1000 := by
  have h1 := Real.exp_one_gt_d9
  have h2 := Real.exp_one_lt_d9
  have hpos : (0 : ℝ) < Real.exp 1 := Real.exp_pos 1
  rw [Real.exp_neg]
  constructor
  · rw [lt_inv_comm₀ (by norm_num) hpos]
    norm_num at h2 ⊢
    linarith
  · rw [inv_lt_comm₀ hpos (by norm_num)]
    norm_num at h1 ⊢
    linarith

theorem exp_neg_two_bounds :
    (134 / 1000 : ℝ) < Real.exp (-2) ∧ Real.exp (-2) < 138 / 1000 := by
  have h : Real.exp (-2) = Real.exp (-1) * Real.exp (-1) := by
    rw [← Real.exp_add]; norm_num
  obtain ⟨h1, h2⟩ := exp_neg_one_bounds
  rw [h]
  constructor
  · have := mul_lt_mul h1 h1.le (by norm_num) (Real.exp_pos _).le
    linarith
  · have := mul_lt_mul h2 h2.le (Real.exp_pos _) (by norm_num)
    linarith

theorem exp_neg_three_bounds :
    (49 / 1000 : ℝ) < Real.exp (-3) ∧ Real.exp (-3) < 52 / 1000 := by
  have h : Real.exp (-3) = Real.exp (-2) * Real.exp (-1) := by
    rw [← Real.exp_add]; norm_num
  obtain ⟨h1, h2⟩ := exp_neg_one_bounds
  obtain ⟨h3, h4⟩ := exp_neg_two_bounds
  rw [h]
  constructor
  · have := mul_lt_mul h3 h1.le (by norm_num) (Real.exp_pos _).le
    linarith
  · have := mul_lt_mul h4 h2.le (Real.exp_pos _) (by norm_num)
    linarith

theorem exp_neg_four_lt : Real.exp (-4) < 2 / 100 := by
  have h : Real.exp (-4) = Real.exp (-3) * Real.exp (-1) := by
    rw [← Real.exp_add]; norm_num
  obtain ⟨_, h2⟩ := exp_neg_one_bounds
  obtain ⟨_, h4⟩ := exp_neg_three_bounds
  rw [h]
  have := mul_lt_mul h4 h2.le (Real.exp_pos _) (by norm_num)
  linarith

/-- The activity `exp(-3) / (2π)` lies between the two thresholds. -/
theorem decayed_between : (1 / 200 : ℝ) < Real.exp (-3) / (2 * Real.pi) ∧
    Real.exp (-3) / (2 * Real.pi) ≤ 1 / 100 := by
  obtain ⟨h1, h2⟩ := exp_neg_three_bounds
  have h3 := Real.pi_gt_three
  have h4 := Real.pi_le_four
  have hpi : (0 : ℝ) < 2 * Real.pi := by positivity
  constructor
  · rw [lt_div_iff₀ hpi]; linarith
  · rw [div_le_iff₀ hpi]; linarith

/-- The activity `exp(-4) / (2π)` is below the deletion threshold. -/
theorem decayed_twice_le : Real.exp (-4) / (2 * Real.pi) ≤ 1 / 200 := by
  have h1 := exp_neg_four_lt
  have h3 := Real.pi_gt_three
  have hpi : (0 : ℝ) < 2 * Real.pi := by positivity
  rw [div_le_iff₀ hpi]; linarith

/-- The density `exp(-2) / (2π)` is above the promotion threshold. -/
theorem density_east_gt : (1 / 100 : ℝ) < Real.exp (-2) / (2 * Real.pi) := by
  obtain ⟨h1, h2⟩ := exp_neg_two_bounds
  have h4 := Real.pi_le_four
  have hpi : (0 : ℝ) < 2 * Real.pi := by have := Real.pi_pos; positivity
  rw [lt_div_iff₀ hpi]; linarith

/-! ### Candidates of the example run -/

theorem candidate_real (ev : Event ℝ) (b : Blob ℝ) :
    probabilityCandidate (⟨Real.exp, Real.sqrt, Real.pi⟩ : Libm ℝ) ev b =
      Real.exp (-((ev.x - b.x) ^ 2 * b.squaredSigmaY + (ev.y - b.y) ^ 2 * b.squaredSigmaX
        - 2 * (ev.x - b.x) * (ev.y - b.y) * b.sigmaXY) / (2 * determinant b))
      / Real.sqrt (determinant b) := rfl

theorem determinant_seedBlob : determinant (seedBlob : Blob ℝ) = 1 := by
  norm_num [determinant, seedBlob]

theorem determinant_blobA : determinant (blobA : Blob ℝ) = 1 / 16 := by
  norm_num [determinant, blobA]

theorem determinant_blobB : determinant (blobB : Blob ℝ) = 1 / 4 := by
  norm_num [determinant, blobB]

theorem determinant_blobC : determinant (blobC : Blob ℝ) = 1 / 4 := by
  norm_num [determinant, blobC]

theorem candidate_east_seed :
    probabilityCandidate (⟨Real.exp, Real.sqrt, Real.pi⟩ : Libm ℝ) eventEast seedBlob
      = Real.exp (-2) := by
  rw [candidate_real, determinant_seedBlob, Real.sqrt_one, div_one]
  congr 1
  norm_num [eventEast, seedBlob]

theorem candidate_east_A :
    probabilityCandidate (⟨Real.exp, Real.sqrt, Real.pi⟩ : Libm ℝ) eventEast blobA
      = Real.exp (-8) / (1 / 4) := by
  rw [candidate_real, determinant_blobA, sqrt_sixteenth]
  congr 2
  norm_num [eventEast, blobA]

theorem candidate_north_seed :
    probabilityCandidate (⟨Real.exp, Real.sqrt, Real.pi⟩ : Libm ℝ) eventNorth seedBlob
      = Real.exp (-2) := by
  rw [candidate_real, determinant_seedBlob, Real.sqrt_one, div_one]
  congr 1
  norm_num [eventNorth, seedBlob]

theorem candidate_north_A :
    probabilityCandidate (⟨Real.exp, Real.sqrt, Real.pi⟩ : Libm ℝ) eventNorth blobA
      = Real.exp (-8) / (1 / 4) := by
  rw [candidate_real, determinant_blobA, sqrt_sixteenth]
  congr 2
  norm_num [eventNorth, blobA]

theorem candidate_north_B :
    probabilityCandidate (⟨Real.exp, Real.sqrt, Real.pi⟩ : Libm ℝ) eventNorth blobB
      = Real.exp (-(17 / 2)) / (1 / 2) := by
  rw [candidate_real, determinant_blobB, sqrt_quarter]
  congr 2
  norm_num [eventNorth, blobB]

theorem candidate_near_seed :
    probabilityCandidate (⟨Real.exp, Real.sqrt, Real.pi⟩ : Libm ℝ) eventNear seedBlob
      = Real.exp (-(1 / 2)) := by
  rw [candidate_real, determinant_seedBlob, Real.sqrt_one, div_one]
  congr 1
  norm_num [eventNear, seedBlob]

theorem candidate_near_A :
    probabilityCandidate (⟨Real.exp, Real.sqrt, Real.pi⟩ : Libm ℝ) eventNear blobA
      = Real.exp (-2) / (1 / 4) := by
  rw [candidate_real, determinant_blobA, sqrt_sixteenth]
  congr 2
  norm_num [eventNear, blobA]

theorem candidate_near_B :
    probabilityCandidate (⟨Real.exp, Real.sqrt, Real.pi⟩ : Libm ℝ) eventNear blobB = 2 := by
  rw [candidate_real, determinant_blobB, sqrt_quarter]
  norm_num [eventNear, blobB]

theorem candidate_near_C :
    probabilityCandidate (⟨Real.exp, Real.sqrt, Real.pi⟩ : Libm ℝ) eventNear blobC
      = Real.exp (-(5 / 2)) / (1 / 2) := by
  rw [candidate_real, determinant_blobC, sqrt_quarter]
  congr 2
  norm_num [eventNear, blobC]

/-! ### Comparisons of the candidates -/

theorem east_A_not_gt : ¬ Real.exp (-8) / (1 / 4) > Real.exp (-2) := by
  have h : Real.exp (-8) = Real.exp (-2) * Real.exp (-6) := by
    rw [← Real.exp_add]; norm_num
  have h6 : Real.exp (-6) ≤ 1 / 7 := by
    rw [Real.exp_neg, inv_le_comm₀ (Real.exp_pos _) (by norm_num)]
    have := Real.add_one_le_exp (6 : ℝ)
    norm_num at this ⊢
    linarith
  have hpos : (0 : ℝ) < Real.exp (-2) := Real.exp_pos _
  rw [h, not_lt, div_le_iff₀ (by norm_num)]
  nlinarith

theorem north_B_not_gt : ¬ Real.exp (-(17 / 2)) / (1 / 2) > Real.exp (-2) := by
  have h : Real.exp (-(17 / 2)) = Real.exp (-2) * Real.exp (-(13 / 2)) := by
    rw [← Real.exp_add]; norm_num
  have h6 : Real.exp (-(13 / 2)) ≤ 1 / 3 := by
    rw [Real.exp_neg, inv_le_comm₀ (Real.exp_pos _) (by norm_num)]
    have := Real.add_one_le_exp (13 / 2 : ℝ)
    norm_num at this ⊢
    linarith
  have hpos : (0 : ℝ) < Real.exp (-2) := Real.exp_pos _
  rw [h, not_lt, div_le_iff₀ (by norm_num)]
  nlinarith

theorem exp_neg_half_bounds :
    (6 / 10 : ℝ) < Real.exp (-(1 / 2)) ∧ Real.exp (-(1 / 2)) < 1 := by
  have hsq : Real.exp (-(1 / 2)) * Real.exp (-(1 / 2)) = Real.exp (-1) := by
    rw [← Real.exp_add]; norm_num
  obtain ⟨h1, _⟩ := exp_neg_one_bounds
  have hpos : (0 : ℝ) < Real.exp (-(1 / 2)) := Real.exp_pos _
  constructor
  · by_contra hn
    push_neg at hn
    have := mul_le_mul hn hn hpos.le (by norm_num)
    linarith
  · exact Real.exp_lt_one_iff.mpr (by norm_num)

theorem near_A_not_gt : ¬ Real.exp (-2) / (1 / 4) > Real.exp (-(1 / 2)) := by
  obtain ⟨_, h2⟩ := exp_neg_two_bounds
  obtain ⟨h3, _⟩ := exp_neg_half_bounds
  rw [not_lt, div_le_iff₀ (by norm_num)]
  linarith

theorem near_B_gt : (2 : ℝ) > Real.exp (-(1 / 2)) := by
  obtain ⟨_, h⟩ := exp_neg_half_bounds
  linarith

theorem near_C_not_gt : ¬ Real.exp (-(5 / 2)) / (1 / 2) > 2 := by
  have h2 : Real.exp (-(5 / 2)) < 1 := Real.exp_lt_one_iff.mpr (by norm_num)
  rw [not_lt, div_le_iff₀ (by norm_num)]
  linarith

/-! ### The four associations -/

theorem associate_east (a : Data ℝ) (ha : a.blob = blobA) :
    associate (⟨Real.exp, Real.sqrt, Real.pi⟩ : Libm ℝ) eventEast [seedSlot, a]
      = (Real.exp (-2) / (2 * Real.pi), 0) := by
  have h0 : probabilityCandidate (⟨Real.exp, Real.sqrt, Real.pi⟩ : Libm ℝ) eventEast
      (seedSlot : Data ℝ).blob > 0 := by
    rw [show (seedSlot : Data ℝ).blob = seedBlob from rfl, candidate_east_seed]
    exact Real.exp_pos _
  have h1 : ¬ probabilityCandidate (⟨Real.exp, Real.sqrt, Real.pi⟩ : Libm ℝ) eventEast a.blob
      > probabilityCandidate (⟨Real.exp, Real.sqrt, Real.pi⟩ : Libm ℝ) eventEast
        (seedSlot : Data ℝ).blob := by
    rw [ha, show (seedSlot : Data ℝ).blob = seedBlob from rfl, candidate_east_seed,
      candidate_east_A]
    exact east_A_not_gt
  simp only [associate, associateLoop, if_pos h0, if_neg h1]
  rw [show (seedSlot : Data ℝ).blob = seedBlob from rfl, candidate_east_seed]

theorem associate_north (a b : Data ℝ) (ha : a.blob = blobA) (hb : b.blob = blobB) :
    associate (⟨Real.exp, Real.sqrt, Real.pi⟩ : Libm ℝ) eventNorth [seedSlot, a, b]
      = (Real.exp (-2) / (2 * Real.pi), 0) := by
  have h0 : probabilityCandidate (⟨Real.exp, Real.sqrt, Real.pi⟩ : Libm ℝ) eventNorth
      (seedSlot : Data ℝ).blob > 0 := by
    rw [show (seedSlot : Data ℝ).blob = seedBlob from rfl, candidate_north_seed]
    exact Real.exp_pos _
  have h1 : ¬ probabilityCandidate (⟨Real.exp, Real.sqrt, Real.pi⟩ : Libm ℝ) eventNorth a.blob
      > probabilityCandidate (⟨Real.exp, Real.sqrt, Real.pi⟩ : Libm ℝ) eventNorth
        (seedSlot : Data ℝ).blob := by
    rw [ha, show (seedSlot : Data ℝ).blob = seedBlob from rfl, candidate_north_seed,
      candidate_north_A]
    exact east_A_not_gt
  have h2 : ¬ probabilityCandidate (⟨Real.exp, Real.sqrt, Real.pi⟩ : Libm ℝ) eventNorth b.blob
      > probabilityCandidate (⟨Real.exp, Real.sqrt, Real.pi⟩ : Libm ℝ) eventNorth
        (seedSlot : Data ℝ).blob := by
    rw [hb, show (seedSlot : Data ℝ).blob = seedBlob from rfl, candidate_north_seed,
      candidate_north_B]
    exact north_B_not_gt
  simp only [associate, associateLoop, if_pos h0, if_neg h1, if_neg h2]
  rw [show (seedSlot : Data ℝ).blob = seedBlob from rfl, candidate_north_seed]

theorem associate_near (a b c : Data ℝ) (ha : a.blob = blobA) (hb : b.blob = blobB)
    (hc : c.blob = blobC) :
    associate (⟨Real.exp, Real.sqrt, Real.pi⟩ : Libm ℝ) eventNear [seedSlot, a, b, c]
      = (2 / (2 * Real.pi), 2) := by
  have h0 : probabilityCandidate (⟨Real.exp, Real.sqrt, Real.pi⟩ : Libm ℝ) eventNear
      (seedSlot : Data ℝ).blob > 0 := by
    rw [show (seedSlot : Data ℝ).blob = seedBlob from rfl, candidate_near_seed]
    exact Real.exp_pos _
  have h1 : ¬ probabilityCandidate (⟨Real.exp, Real.sqrt, Real.pi⟩ : Libm ℝ) eventNear a.blob
      > probabilityCandidate (⟨Real.exp, Real.sqrt, Real.pi⟩ : Libm ℝ) eventNear
        (seedSlot : Data ℝ).blob := by
    rw [ha, show (seedSlot : Data ℝ).blob = seedBlob from rfl, candidate_near_seed,
      candidate_near_A]
    exact near_A_not_gt
  have h2 : probabilityCandidate (⟨Real.exp, Real.sqrt, Real.pi⟩ : Libm ℝ) eventNear b.blob
      > probabilityCandidate (⟨Real.exp, Real.sqrt, Real.pi⟩ : Libm ℝ) eventNear
        (seedSlot : Data ℝ).blob := by
    rw [hb, show (seedSlot : Data ℝ).blob = seedBlob from rfl, candidate_near_seed,
      candidate_near_B]
    exact near_B_gt
  have h3 : ¬ probabilityCandidate (⟨Real.exp, Real.sqrt, Real.pi⟩ : Libm ℝ) eventNear c.blob
      > probabilityCandidate (⟨Real.exp, Real.sqrt, Real.pi⟩ : Libm ℝ) eventNear b.blob := by
    rw [hc, hb, candidate_near_B, candidate_near_C]
    exact near_C_not_gt
  simp only [associate, associateLoop, if_pos h0, if_neg h1, if_pos h2, if_neg h3]
  rw [hb, candidate_near_B]

/-! ### The passes of the example run -/

theorem pass_east (k sk : Nat) :
    lifecyclePass (⟨Real.exp, Real.sqrt, Real.pi⟩ : Libm ℝ)
      (track k sk 0 [seedSlot, ⟨0, blobA, 1 / (2 * Real.pi), Status.promoted⟩] 1) eventEast =
      { datum := [seedSlot, ⟨0, blobA, 1 / (2 * Real.pi) * Real.exp (-3), Status.demoted⟩]
        datumToAdd := [⟨1, blobB, Real.exp (-2) / (2 * Real.pi), Status.promoted⟩]
        idOffset := 2
        notes := [Notification.promoted 1 blobB, Notification.demoted 0 blobA] } := by
  have hp := density_east_gt
  have hp0 : (0 : ℝ) < Real.exp (-2) / (2 * Real.pi) := by linarith
  have hact : 1 / (2 * Real.pi) * Real.exp (-3) = Real.exp (-3) / (2 * Real.pi) := by ring
  obtain ⟨hlo, hhi⟩ := decayed_between
  have hdecay : exponentialDecay (⟨Real.exp, Real.sqrt, Real.pi⟩ : Libm ℝ)
      (track k sk 0 [seedSlot, ⟨0, blobA, 1 / (2 * Real.pi), Status.promoted⟩] 1) eventEast
      = Real.exp (-3) := by
    simp [exponentialDecay, eventEast]
  have hu : updates (track k sk 0 [seedSlot, ⟨0, blobA, 1 / (2 * Real.pi), Status.promoted⟩] 1
      : TrackBlobs ℝ) (Real.exp (-2) / (2 * Real.pi)) true = true := by
    simp only [updates, track_minimumProbability, Bool.true_and, decide_eq_true_eq]
    exact hp0
  have hn : updates (track k sk 0 [seedSlot, ⟨0, blobA, 1 / (2 * Real.pi), Status.promoted⟩] 1
      : TrackBlobs ℝ) (Real.exp (-2) / (2 * Real.pi)) false = false := rfl
  have hd0 : decayUpdate (track k sk 0 [seedSlot, ⟨0, blobA, 1 / (2 * Real.pi), Status.promoted⟩] 1
      : TrackBlobs ℝ) eventEast (Real.exp (-2) / (2 * Real.pi)) (Real.exp (-3)) true seedSlot
      = ⟨0, blobB, Real.exp (-2) / (2 * Real.pi), Status.hidden⟩ := by
    rw [decayUpdate_of_updates _ _ _ _ _ _ hu]
    simp only [updateBlob, track_meanInertia, track_covarianceInertia, eventEast, seedSlot,
      seedBlob, blobB]
    norm_num
  have ht0 := transition_hidden_promote
    (track k sk 0 [seedSlot, ⟨0, blobA, 1 / (2 * Real.pi), Status.promoted⟩] 1 : TrackBlobs ℝ) 1
    ⟨0, blobB, Real.exp (-2) / (2 * Real.pi), Status.hidden⟩ rfl hp
  have hd1 : decayUpdate (track k sk 0 [seedSlot, ⟨0, blobA, 1 / (2 * Real.pi), Status.promoted⟩] 1
      : TrackBlobs ℝ) eventEast (Real.exp (-2) / (2 * Real.pi)) (Real.exp (-3)) false
      ⟨0, blobA, 1 / (2 * Real.pi), Status.promoted⟩
      = ⟨0, blobA, 1 / (2 * Real.pi) * Real.exp (-3), Status.promoted⟩ := by
    rw [decayUpdate_of_not_updates _ _ _ _ _ _ hn]
  have ht1 := transition_promoted_demote
    (track k sk 0 [seedSlot, ⟨0, blobA, 1 / (2 * Real.pi), Status.promoted⟩] 1 : TrackBlobs ℝ) 2
    ⟨0, blobA, 1 / (2 * Real.pi) * Real.exp (-3), Status.promoted⟩ rfl
    (by show 1 / (2 * Real.pi) * Real.exp (-3) ≤ 1 / 100; rw [hact]; exact hhi)
    (by show ¬ 1 / (2 * Real.pi) * Real.exp (-3) ≤ 1 / 200; rw [hact]; exact not_le.mpr hlo)
  unfold lifecyclePass
  rw [track_datum, associate_east _ rfl, hdecay]
  simp only [lifecycleLoop, track_idOffset, decide_True, hd0, ht0, Option.isSome_some, if_true,
    Nat.zero_add, Nat.reduceAdd, Nat.reduceEqDiff, decide_False, hd1, sizeMax, Nat.reducePow,
    Nat.reduceMod, ht1, updateNotes, hu, hn]
  simp [seedSlot, seedBlob]

theorem pass_north (k sk : Nat) :
    lifecyclePass (⟨Real.exp, Real.sqrt, Real.pi⟩ : Libm ℝ)
      (track k sk 3 [seedSlot, ⟨0, blobA, 1 / (2 * Real.pi) * Real.exp (-3), Status.demoted⟩,
        ⟨1, blobB, Real.exp (-2) / (2 * Real.pi), Status.promoted⟩] 2) eventNorth =
      { datum := [seedSlot, ⟨0, blobA, 1 / (2 * Real.pi) * Real.exp (-3), Status.demoted⟩,
          ⟨1, blobB, Real.exp (-2) / (2 * Real.pi), Status.promoted⟩]
        datumToAdd := [⟨2, blobC, Real.exp (-2) / (2 * Real.pi), Status.promoted⟩]
        idOffset := 3
        notes := [Notification.promoted 2 blobC] } := by
  have hp := density_east_gt
  have hp0 : (0 : ℝ) < Real.exp (-2) / (2 * Real.pi) := by linarith
  have hact : 1 / (2 * Real.pi) * Real.exp (-3) = Real.exp (-3) / (2 * Real.pi) := by ring
  obtain ⟨hlo, hhi⟩ := decayed_between
  generalize hs : (track k sk 3 [seedSlot,
      ⟨0, blobA, 1 / (2 * Real.pi) * Real.exp (-3), Status.demoted⟩,
      ⟨1, blobB, Real.exp (-2) / (2 * Real.pi), Status.promoted⟩] 2 : TrackBlobs ℝ) = s
  have hdecay : exponentialDecay (⟨Real.exp, Real.sqrt, Real.pi⟩ : Libm ℝ) s eventNorth = 1 := by
    subst hs; simp [exponentialDecay, eventNorth]
  have hu : updates s (Real.exp (-2) / (2 * Real.pi)) true = true := by
    subst hs
    simp only [updates, track_minimumProbability, Bool.true_and, decide_eq_true_eq]
    exact hp0
  have hn : updates s (Real.exp (-2) / (2 * Real.pi)) false = false := rfl
  have hd0 : decayUpdate s eventNorth (Real.exp (-2) / (2 * Real.pi)) 1 true seedSlot
      = ⟨0, blobC, Real.exp (-2) / (2 * Real.pi), Status.hidden⟩ := by
    rw [decayUpdate_of_updates _ _ _ _ _ _ hu]
    subst hs
    simp only [updateBlob, track_meanInertia, track_covarianceInertia, eventNorth, seedSlot,
      seedBlob, blobC]
    norm_num
  have ht0 := transition_hidden_promote s 2
    ⟨0, blobC, Real.exp (-2) / (2 * Real.pi), Status.hidden⟩ rfl (by subst hs; exact hp)
  have hd1 : decayUpdate s eventNorth (Real.exp (-2) / (2 * Real.pi)) 1 false
      ⟨0, blobA, 1 / (2 * Real.pi) * Real.exp (-3), Status.demoted⟩
      = ⟨0, blobA, 1 / (2 * Real.pi) * Real.exp (-3), Status.demoted⟩ := by
    rw [decayUpdate_of_not_updates _ _ _ _ _ _ hn]
    simp
  have ht1 := transition_demoted_stay s 3
    ⟨0, blobA, 1 / (2 * Real.pi) * Real.exp (-3), Status.demoted⟩ rfl
    (by subst hs; show ¬ 1 / (2 * Real.pi) * Real.exp (-3) ≤ 1 / 200
        rw [hact]; exact not_le.mpr hlo)
    (by subst hs; show ¬ 1 / (2 * Real.pi) * Real.exp (-3) > 1 / 100
        rw [hact]; exact not_lt.mpr hhi)
  have hd2 : decayUpdate s eventNorth (Real.exp (-2) / (2 * Real.pi)) 1 false
      ⟨1, blobB, Real.exp (-2) / (2 * Real.pi), Status.promoted⟩
      = ⟨1, blobB, Real.exp (-2) / (2 * Real.pi), Status.promoted⟩ := by
    rw [decayUpdate_of_not_updates _ _ _ _ _ _ hn]
    simp
  have ht2 := transition_promoted_stay s 3
    ⟨1, blobB, Real.exp (-2) / (2 * Real.pi), Status.promoted⟩ rfl
    (by subst hs; exact not_le.mpr hp)
  have hdat : s.datum = [seedSlot, ⟨0, blobA, 1 / (2 * Real.pi) * Real.exp (-3), Status.demoted⟩,
      ⟨1, blobB, Real.exp (-2) / (2 * Real.pi), Status.promoted⟩] := by subst hs; rfl
  have hoff : s.idOffset = 2 := by subst hs; rfl
  have hinit : s.initialBlobs = [seedBlob] := by subst hs; rfl
  unfold lifecyclePass
  rw [hdat, associate_north _ _ rfl rfl, hdecay, hoff]
  simp only [lifecycleLoop, decide_True, hd0, ht0, Option.isSome_some, if_true,
    Nat.zero_add, Nat.reduceAdd, Nat.reduceEqDiff, decide_False, hd1, sizeMax, Nat.reducePow,
    Nat.reduceMod, ht1, hd2, ht2, updateNotes, hu, hn, Option.isSome_none, Bool.false_eq_true,
    if_false]
  simp [seedSlot, hinit]

theorem pass_near (k sk : Nat) :
    lifecyclePass (⟨Real.exp, Real.sqrt, Real.pi⟩ : Libm ℝ)
      (track k sk 3 [seedSlot, ⟨0, blobA, 1 / (2 * Real.pi) * Real.exp (-3), Status.demoted⟩,
        ⟨1, blobB, Real.exp (-2) / (2 * Real.pi), Status.promoted⟩,
        ⟨2, blobC, Real.exp (-2) / (2 * Real.pi), Status.promoted⟩] 3) eventNear =
      { datum := [seedSlot,
          ⟨1, blobB, Real.exp (-2) / (2 * Real.pi) * Real.exp (-1), Status.demoted⟩,
          ⟨2, blobCUpdated, Real.exp (-2) / (2 * Real.pi) * Real.exp (-1) + 2 / (2 * Real.pi),
            Status.promoted⟩]
        datumToAdd := []
        idOffset := 3
        notes := [Notification.deleted 0 blobA, Notification.demoted 1 blobB,
          Notification.updated 2 blobCUpdated] } := by
  have hpi : (0 : ℝ) < 2 * Real.pi := by have := Real.pi_pos; positivity
  have hp0 : (0 : ℝ) < 2 / (2 * Real.pi) := by positivity
  have hactA : 1 / (2 * Real.pi) * Real.exp (-3) * Real.exp (-1)
      = Real.exp (-4) / (2 * Real.pi) := by
    rw [show (-4 : ℝ) = -3 + -1 by norm_num, Real.exp_add]; ring
  have hactB : Real.exp (-2) / (2 * Real.pi) * Real.exp (-1)
      = Real.exp (-3) / (2 * Real.pi) := by
    rw [show (-3 : ℝ) = -2 + -1 by norm_num, Real.exp_add]; ring
  obtain ⟨hlo, hhi⟩ := decayed_between
  have hdel := decayed_twice_le
  have hquarter : (1 / 100 : ℝ) < 2 / (2 * Real.pi) := by
    have := Real.pi_le_four
    rw [lt_div_iff₀ hpi]; linarith
  generalize hs : (track k sk 3 [seedSlot,
      ⟨0, blobA, 1 / (2 * Real.pi) * Real.exp (-3), Status.demoted⟩,
      ⟨1, blobB, Real.exp (-2) / (2 * Real.pi), Status.promoted⟩,
      ⟨2, blobC, Real.exp (-2) / (2 * Real.pi), Status.promoted⟩] 3 : TrackBlobs ℝ) = s
  have hdecay : exponentialDecay (⟨Real.exp, Real.sqrt, Real.pi⟩ : Libm ℝ) s eventNear
      = Real.exp (-1) := by
    subst hs; simp [exponentialDecay, eventNear]
  have hu : updates s (2 / (2 * Real.pi)) true = true := by
    subst hs
    simp only [updates, track_minimumProbability, Bool.true_and, decide_eq_true_eq]
    exact hp0
  have hn : updates s (2 / (2 * Real.pi)) false = false := rfl
  have hd0 : decayUpdate s eventNear (2 / (2 * Real.pi)) (Real.exp (-1)) false seedSlot
      = seedSlot := by
    rw [decayUpdate_of_not_updates _ _ _ _ _ _ hn]
    simp [seedSlot]
  have ht0 := transition_hidden_stay s 3 (seedSlot : Data ℝ) rfl
    (by subst hs; show ¬ (0 : ℝ) > 1 / 100; norm_num)
  have hd1 : decayUpdate s eventNear (2 / (2 * Real.pi)) (Real.exp (-1)) false
      ⟨0, blobA, 1 / (2 * Real.pi) * Real.exp (-3), Status.demoted⟩
      = ⟨0, blobA, 1 / (2 * Real.pi) * Real.exp (-3) * Real.exp (-1), Status.demoted⟩ := by
    rw [decayUpdate_of_not_updates _ _ _ _ _ _ hn]
  have ht1 := transition_demoted_delete s 3
    ⟨0, blobA, 1 / (2 * Real.pi) * Real.exp (-3) * Real.exp (-1), Status.demoted⟩ rfl
    (by subst hs; show 1 / (2 * Real.pi) * Real.exp (-3) * Real.exp (-1) ≤ 1 / 200
        rw [hactA]; exact hdel)
  have hd2 : decayUpdate s eventNear (2 / (2 * Real.pi)) (Real.exp (-1)) false
      ⟨1, blobB, Real.exp (-2) / (2 * Real.pi), Status.promoted⟩
      = ⟨1, blobB, Real.exp (-2) / (2 * Real.pi) * Real.exp (-1), Status.promoted⟩ := by
    rw [decayUpdate_of_not_updates _ _ _ _ _ _ hn]
  have ht2 := transition_promoted_demote s 3
    ⟨1, blobB, Real.exp (-2) / (2 * Real.pi) * Real.exp (-1), Status.promoted⟩ rfl
    (by subst hs; show Real.exp (-2) / (2 * Real.pi) * Real.exp (-1) ≤ 1 / 100
        rw [hactB]; exact hhi)
    (by subst hs; show ¬ Real.exp (-2) / (2 * Real.pi) * Real.exp (-1) ≤ 1 / 200
        rw [hactB]; exact not_le.mpr hlo)
  have hd3 : decayUpdate s eventNear (2 / (2 * Real.pi)) (Real.exp (-1)) true
      ⟨2, blobC, Real.exp (-2) / (2 * Real.pi), Status.promoted⟩
      = ⟨2, blobCUpdated, Real.exp (-2) / (2 * Real.pi) * Real.exp (-1) + 2 / (2 * Real.pi),
          Status.promoted⟩ := by
    rw [decayUpdate_of_updates _ _ _ _ _ _ hu]
    subst hs
    simp only [updateBlob, track_meanInertia, track_covarianceInertia, eventNear, blobC,
      blobCUpdated]
    norm_num
  have ht3 := transition_promoted_stay s 3
    ⟨2, blobCUpdated, Real.exp (-2) / (2 * Real.pi) * Real.exp (-1) + 2 / (2 * Real.pi),
      Status.promoted⟩ rfl
    (by subst hs
        show ¬ Real.exp (-2) / (2 * Real.pi) * Real.exp (-1) + 2 / (2 * Real.pi) ≤ 1 / 100
        rw [hactB]; linarith)
  have hdat : s.datum = [seedSlot, ⟨0, blobA, 1 / (2 * Real.pi) * Real.exp (-3), Status.demoted⟩,
      ⟨1, blobB, Real.exp (-2) / (2 * Real.pi), Status.promoted⟩,
      ⟨2, blobC, Real.exp (-2) / (2 * Real.pi), Status.promoted⟩] := by subst hs; rfl
  have hoff : s.idOffset = 3 := by subst hs; rfl
  unfold lifecyclePass
  rw [hdat, associate_near _ _ _ rfl rfl rfl, hdecay, hoff]
  simp only [lifecycleLoop, hd0, ht0, Option.isSome_some, if_true,
    Nat.zero_add, Nat.reduceAdd, Nat.reduceEqDiff, decide_False, decide_True, hd1, ht1, hd2,
    ht2, hd3, ht3, updateNotes, hu, hn, Option.isSome_none, Bool.false_eq_true, if_false]
  simp

/-! ### The example run as a whole -/

theorem process_origin (k sk : Nat) (h : sk < k) :
    process (⟨Real.exp, Real.sqrt, Real.pi⟩ : Libm ℝ) (track k sk 0 [seedSlot] 0) eventOrigin =
      (track k (sk + 1) 0 [seedSlot, ⟨0, blobA, 1 / (2 * Real.pi), Status.promoted⟩] 1,
        [Notification.promoted 0 blobA]) := by
  rw [process_track _ _ _ _ _ _ _ h, pass_origin]
  rfl

theorem process_east (k sk : Nat) (h : sk < k) :
    process (⟨Real.exp, Real.sqrt, Real.pi⟩ : Libm ℝ)
      (track k sk 0 [seedSlot, ⟨0, blobA, 1 / (2 * Real.pi), Status.promoted⟩] 1) eventEast =
      (track k (sk + 1) 3 [seedSlot,
          ⟨0, blobA, 1 / (2 * Real.pi) * Real.exp (-3), Status.demoted⟩,
          ⟨1, blobB, Real.exp (-2) / (2 * Real.pi), Status.promoted⟩] 2,
        [Notification.promoted 1 blobB, Notification.demoted 0 blobA]) := by
  rw [process_track _ _ _ _ _ _ _ h, pass_east]
  rfl

theorem process_north (k sk : Nat) (h : sk < k) :
    process (⟨Real.exp, Real.sqrt, Real.pi⟩ : Libm ℝ)
      (track k sk 3 [seedSlot, ⟨0, blobA, 1 / (2 * Real.pi) * Real.exp (-3), Status.demoted⟩,
        ⟨1, blobB, Real.exp (-2) / (2 * Real.pi), Status.promoted⟩] 2) eventNorth =
      (track k (sk + 1) 3 [seedSlot,
          ⟨0, blobA, 1 / (2 * Real.pi) * Real.exp (-3), Status.demoted⟩,
          ⟨1, blobB, Real.exp (-2) / (2 * Real.pi), Status.promoted⟩,
          ⟨2, blobC, Real.exp (-2) / (2 * Real.pi), Status.promoted⟩] 3,
        [Notification.promoted 2 blobC]) := by
  rw [process_track _ _ _ _ _ _ _ h, pass_north]
  rfl

theorem process_near (k sk : Nat) (h : sk < k) :
    process (⟨Real.exp, Real.sqrt, Real.pi⟩ : Libm ℝ)
      (track k sk 3 [seedSlot, ⟨0, blobA, 1 / (2 * Real.pi) * Real.exp (-3), Status.demoted⟩,
        ⟨1, blobB, Real.exp (-2) / (2 * Real.pi), Status.promoted⟩,
        ⟨2, blobC, Real.exp (-2) / (2 * Real.pi), Status.promoted⟩] 3) eventNear =
      (track k (sk + 1) 4 [seedSlot,
          ⟨1, blobB, Real.exp (-2) / (2 * Real.pi) * Real.exp (-1), Status.demoted⟩,
          ⟨2, blobCUpdated, Real.exp (-2) / (2 * Real.pi) * Real.exp (-1) + 2 / (2 * Real.pi),
            Status.promoted⟩] 3,
        [Notification.deleted 0 blobA, Notification.demoted 1 blobB,
          Notification.updated 2 blobCUpdated]) := by
  rw [process_track _ _ _ _ _ _ _ h, pass_near]
  rfl

theorem run_two (k : Nat) (hk : 2 ≤ k) :
    run (⟨Real.exp, Real.sqrt, Real.pi⟩ : Libm ℝ) (exampleEngine k) [eventOrigin, eventEast] =
      (track k 2 3 [seedSlot, ⟨0, blobA, 1 / (2 * Real.pi) * Real.exp (-3), Status.demoted⟩,
          ⟨1, blobB, Real.exp (-2) / (2 * Real.pi), Status.promoted⟩] 2,
        [Notification.promoted 0 blobA, Notification.promoted 1 blobB,
          Notification.demoted 0 blobA]) := by
  rw [exampleEngine_eq]
  simp only [run, process_origin k 0 (by omega), process_east k 1 (by omega)]
  rfl

theorem run_three (k : Nat) (hk : 3 ≤ k) :
    run (⟨Real.exp, Real.sqrt, Real.pi⟩ : Libm ℝ) (exampleEngine k)
        [eventOrigin, eventEast, eventNorth] =
      (track k 3 3 [seedSlot, ⟨0, blobA, 1 / (2 * Real.pi) * Real.exp (-3), Status.demoted⟩,
          ⟨1, blobB, Real.exp (-2) / (2 * Real.pi), Status.promoted⟩,
          ⟨2, blobC, Real.exp (-2) / (2 * Real.pi), Status.promoted⟩] 3,
        [Notification.promoted 0 blobA, Notification.promoted 1 blobB,
          Notification.demoted 0 blobA, Notification.promoted 2 blobC]) := by
  rw [exampleEngine_eq]
  simp only [run, process_origin k 0 (by omega), process_east k 1 (by omega),
    process_north k 2 (by omega)]
  rfl

/-! ### A correction pass right after a promotion -/

theorem addAt_zero_getD (v : List α) (i j : Nat) : (addAt v i 0).getD j 0 = v.getD j 0 := by
  unfold addAt
  simp only [add_zero, List.getD_eq_getElem?_getD, List.getElem?_set]
  split_ifs with h1 h2
  · subst h1
    simp [List.getElem?_eq_getElem h2]
  · subst h1
    simp [List.getElem?_eq_none (not_lt.mp h2)]
  · rfl

theorem attract_deltas_of_no_strength (s : TrackBlobs α) (hs : s.attractionStrength = 0)
    (l : List (Data α)) : ∀ (ds : Deltas α) (j : Nat),
    (attract s l ds).2.x.getD j 0 = ds.x.getD j 0 ∧
    (attract s l ds).2.y.getD j 0 = ds.y.getD j 0 := by
  induction l with
  | nil => intro ds j; exact ⟨rfl, rfl⟩
  | cons d rest ih =>
    intro ds j
    unfold attract
    split_ifs with h
    · simp only [hs, zero_mul]
      obtain ⟨h1, h2⟩ := ih ⟨addAt ds.x d.id 0, addAt ds.y d.id 0⟩ j
      exact ⟨h1.trans (addAt_zero_getD _ _ _), h2.trans (addAt_zero_getD _ _ _)⟩
    · exact ih ds j

/-- The mean of the entry at position `j` after the correction pass. -/
theorem correct_getElem?_x (m : Libm α) (s : TrackBlobs α) (j : Nat) (d : Data α)
    (hd : s.datum[j]? = some d) :
    ∃ e, (correct m s)[j]? = some e ∧
      e.blob.x = (if d.blob.x ^ 2 + d.blob.y ^ 2 > s.attractionResetDistanceSquared then d.blob.x
          else (s.initialBlobs.getD d.id Blob.zero).x)
        + (attract s s.datum (repulseOuter m s 0 s.datum
            ⟨List.replicate s.datum.length 0, List.replicate s.datum.length 0⟩)).2.x.getD j 0 := by
  unfold correct
  simp only [applyDeltas_getElem?, attract_fst, List.getElem?_map, hd, Option.map_some']
  refine ⟨_, rfl, ?_⟩
  split_ifs <;> simp

theorem candidate_right_seed :
    probabilityCandidate (⟨Real.exp, Real.sqrt, Real.pi⟩ : Libm ℝ) eventRight seedBlob
      = Real.exp (-(1 / 2)) := by
  rw [candidate_real, determinant_seedBlob, Real.sqrt_one, div_one]
  congr 1
  norm_num [eventRight, seedBlob]

theorem associate_right :
    associate (⟨Real.exp, Real.sqrt, Real.pi⟩ : Libm ℝ) eventRight [seedSlot]
      = (Real.exp (-(1 / 2)) / (2 * Real.pi), 0) := by
  have h0 : probabilityCandidate (⟨Real.exp, Real.sqrt, Real.pi⟩ : Libm ℝ) eventRight
      (seedSlot : Data ℝ).blob > 0 := by
    rw [show (seedSlot : Data ℝ).blob = seedBlob from rfl, candidate_right_seed]
    exact Real.exp_pos _
  simp only [associate, associateLoop, if_pos h0]
  rw [show (seedSlot : Data ℝ).blob = seedBlob from rfl, candidate_right_seed]

theorem density_right_bounds : (1 / 100 : ℝ) < Real.exp (-(1 / 2)) / (2 * Real.pi) ∧
    Real.exp (-(1 / 2)) / (2 * Real.pi) ≤ 1 / 2 := by
  obtain ⟨h1, h2⟩ := exp_neg_half_bounds
  have h3 := Real.pi_gt_three
  have h4 := Real.pi_le_four
  have hpi : (0 : ℝ) < 2 * Real.pi := by positivity
  constructor
  · rw [lt_div_iff₀ hpi]; linarith
  · rw [div_le_iff₀ hpi]; linarith

theorem afterUpdate_right (k sk : Nat) :
    afterUpdate (⟨Real.exp, Real.sqrt, Real.pi⟩ : Libm ℝ) (track k sk 0 [seedSlot] 0) eventRight
      [] seedSlot = ⟨0, blobR, Real.exp (-(1 / 2)) / (2 * Real.pi), Status.hidden⟩ := by
  have hp0 : (0 : ℝ) < Real.exp (-(1 / 2)) / (2 * Real.pi) := by
    have := density_right_bounds.1; linarith
  have hdecay : exponentialDecay (⟨Real.exp, Real.sqrt, Real.pi⟩ : Libm ℝ)
      (track k sk 0 [seedSlot] 0) eventRight = 1 := by
    simp [exponentialDecay, eventRight]
  have hu : updates (track k sk 0 [seedSlot] 0 : TrackBlobs ℝ)
      (Real.exp (-(1 / 2)) / (2 * Real.pi)) true = true := by
    simp only [updates, track_minimumProbability, Bool.true_and, decide_eq_true_eq]
    exact hp0
  have hw : atWinner (⟨Real.exp, Real.sqrt, Real.pi⟩ : Libm ℝ) (track k sk 0 [seedSlot] 0)
      eventRight [] = true := by
    simp only [atWinner, reach, lifecycleLoop, track_datum, associate_right, List.length_nil,
      decide_True]
  unfold afterUpdate
  rw [hw, track_datum, associate_right, hdecay, decayUpdate_of_updates _ _ _ _ _ _ hu]
  simp only [updateBlob, track_meanInertia, track_covarianceInertia, eventRight, seedSlot,
    seedBlob, blobR]
  norm_num

theorem pass_right (k sk : Nat) :
    lifecyclePass (⟨Real.exp, Real.sqrt, Real.pi⟩ : Libm ℝ) (track k sk 0 [seedSlot] 0) eventRight =
      { datum := [seedSlot]
        datumToAdd := [⟨0, blobR, Real.exp (-(1 / 2)) / (2 * Real.pi), Status.promoted⟩]
        idOffset := 1
        notes := [Notification.promoted 0 blobR] } := by
  have hsplit := lifecyclePass_split (⟨Real.exp, Real.sqrt, Real.pi⟩ : Libm ℝ)
    (track k sk 0 [seedSlot] 0) eventRight [] seedSlot [] rfl
  have ht := transition_hidden_promote (track k sk 0 [seedSlot] 0 : TrackBlobs ℝ) 0
    ⟨0, blobR, Real.exp (-(1 / 2)) / (2 * Real.pi), Status.hidden⟩ rfl density_right_bounds.1
  rw [hsplit]
  simp only [visit, afterUpdate_right, reach, resume, lifecycleLoop, track_idOffset, ht,
    updateNotes, Pass.append]
  simp [sizeMax, seedSlot]

/-- After `eventRight` on the fresh example engine with a correction pass at
every event, the seed slot stands left of the origin. -/
theorem process_right_seed :
    ∃ e, (process (⟨Real.exp, Real.sqrt, Real.pi⟩ : Libm ℝ) (exampleEngine 0) eventRight).1.datum[0]?
        = some e ∧ e.blob.x = -(Real.exp (-2⁻¹) * 2⁻¹) := by
  rw [exampleEngine_eq, process_datum_of_correct _ _ _ (by simp)]
  have hl : (lifecycle (⟨Real.exp, Real.sqrt, Real.pi⟩ : Libm ℝ) (track 0 0 0 [seedSlot] 0)
      eventRight).1 = track 0 0 0
        [seedSlot, ⟨0, blobR, Real.exp (-(1 / 2)) / (2 * Real.pi), Status.promoted⟩] 1 := by
    simp only [lifecycle, pass_right]
    rfl
  rw [hl]
  obtain ⟨e, he, hx⟩ := correct_getElem?_x (⟨Real.exp, Real.sqrt, Real.pi⟩ : Libm ℝ)
    (track 0 0 0 [seedSlot, ⟨0, blobR, Real.exp (-(1 / 2)) / (2 * Real.pi), Status.promoted⟩] 1)
    0 seedSlot rfl
  refine ⟨e, he, ?_⟩
  rw [hx, (attract_deltas_of_no_strength _ rfl _ _ 0).1]
  simp [repulseOuter, repulseInner, repulsePair, addAt, hypot, seedSlot, seedBlob, blobR]
  have hq : Real.exp (-2⁻¹) / (2 * Real.pi) ≠ 0 :=
    div_ne_zero (Real.exp_ne_zero _) (mul_ne_zero two_ne_zero Real.pi_ne_zero)
  rw [if_neg Real.pi_ne_zero, div_self (pow_ne_zero 2 hq), mul_one]

/-! ### The states the example run passes through -/

theorem afterTwo_eq :
    afterTwo (⟨Real.exp, Real.sqrt, Real.pi⟩ : Libm ℝ) =
      track 2 2 3 [seedSlot, ⟨0, blobA, 1 / (2 * Real.pi) * Real.exp (-3), Status.demoted⟩,
        ⟨1, blobB, Real.exp (-2) / (2 * Real.pi), Status.promoted⟩] 2 := by
  unfold afterTwo
  rw [run_two 2 (le_refl _)]

theorem afterThree_eq :
    afterThree (⟨Real.exp, Real.sqrt, Real.pi⟩ : Libm ℝ) =
      track 10 3 3 [seedSlot, ⟨0, blobA, 1 / (2 * Real.pi) * Real.exp (-3), Status.demoted⟩,
        ⟨1, blobB, Real.exp (-2) / (2 * Real.pi), Status.promoted⟩,
        ⟨2, blobC, Real.exp (-2) / (2 * Real.pi), Status.promoted⟩] 3 := by
  unfold afterThree
  rw [run_three 10 (by norm_num)]

theorem lifecycle_north_afterTwo :
    (lifecycle (⟨Real.exp, Real.sqrt, Real.pi⟩ : Libm ℝ)
      (afterTwo (⟨Real.exp, Real.sqrt, Real.pi⟩ : Libm ℝ)) eventNorth).1 =
      track 2 2 3 [seedSlot, ⟨0, blobA, 1 / (2 * Real.pi) * Real.exp (-3), Status.demoted⟩,
        ⟨1, blobB, Real.exp (-2) / (2 * Real.pi), Status.promoted⟩,
        ⟨2, blobC, Real.exp (-2) / (2 * Real.pi), Status.promoted⟩] 3 := by
  rw [afterTwo_eq]
  simp only [lifecycle, pass_north]
  rfl

theorem lifecycle_near_afterThree :
    lifecycle (⟨Real.exp, Real.sqrt, Real.pi⟩ : Libm ℝ)
      (afterThree (⟨Real.exp, Real.sqrt, Real.pi⟩ : Libm ℝ)) eventNear =
      (track 10 3 3 [seedSlot,
          ⟨1, blobB, Real.exp (-2) / (2 * Real.pi) * Real.exp (-1), Status.demoted⟩,
          ⟨2, blobCUpdated, Real.exp (-2) / (2 * Real.pi) * Real.exp (-1) + 2 / (2 * Real.pi),
            Status.promoted⟩] 3,
        [Notification.deleted 0 blobA, Notification.demoted 1 blobB,
          Notification.updated 2 blobCUpdated]) := by
  rw [afterThree_eq]
  simp only [lifecycle, pass_near]
  rfl

theorem density_near_pos : (0 : ℝ) < 2 / (2 * Real.pi) := by
  have := Real.pi_pos
  positivity

/-! ## The claims on the example run -/

/-- C1 (amended), at an instance: in the population of the example engine
after three events every determinant is positive and the value computed for
the seed slot at `eventNear` is positive; the entry at the winner's position
has the largest density, strictly larger than that of every entry before
it. -/
theorem association_selects_first_maximum_witness :
    (∀ d ∈ (afterThree (⟨Real.exp, Real.sqrt, Real.pi⟩ : Libm ℝ)).datum, 0 < determinant d.blob) ∧
    ∃ w, (afterThree (⟨Real.exp, Real.sqrt, Real.pi⟩ : Libm ℝ)).datum[(associate
        (⟨Real.exp, Real.sqrt, Real.pi⟩ : Libm ℝ) eventNear
        (afterThree (⟨Real.exp, Real.sqrt, Real.pi⟩ : Libm ℝ)).datum).2]? = some w ∧
      (associate (⟨Real.exp, Real.sqrt, Real.pi⟩ : Libm ℝ) eventNear
        (afterThree (⟨Real.exp, Real.sqrt, Real.pi⟩ : Libm ℝ)).datum).1
        = gaussianDensity (⟨Real.exp, Real.sqrt, Real.pi⟩ : Libm ℝ) eventNear w.blob ∧
      ∀ j d, (afterThree (⟨Real.exp, Real.sqrt, Real.pi⟩ : Libm ℝ)).datum[j]? = some d →
        gaussianDensity (⟨Real.exp, Real.sqrt, Real.pi⟩ : Libm ℝ) eventNear d.blob
          ≤ gaussianDensity (⟨Real.exp, Real.sqrt, Real.pi⟩ : Libm ℝ) eventNear w.blob ∧
        (j < (associate (⟨Real.exp, Real.sqrt, Real.pi⟩ : Libm ℝ) eventNear
          (afterThree (⟨Real.exp, Real.sqrt, Real.pi⟩ : Libm ℝ)).datum).2 →
          gaussianDensity (⟨Real.exp, Real.sqrt, Real.pi⟩ : Libm ℝ) eventNear d.blob
            < gaussianDensity (⟨Real.exp, Real.sqrt, Real.pi⟩ : Libm ℝ) eventNear w.blob) := by
  have hdet : ∀ d ∈ (afterThree (⟨Real.exp, Real.sqrt, Real.pi⟩ : Libm ℝ)).datum,
      0 < determinant d.blob := by
    rw [afterThree_eq]
    intro d hd
    simp only [track_datum, List.mem_cons, List.mem_singleton, List.not_mem_nil, or_false] at hd
    rcases hd with rfl | rfl | rfl | rfl
    · rw [show (seedSlot : Data ℝ).blob = seedBlob from rfl, determinant_seedBlob]; norm_num
    · rw [determinant_blobA]; norm_num
    · rw [determinant_blobB]; norm_num
    · rw [determinant_blobC]; norm_num
  have hmem : (seedSlot : Data ℝ) ∈ (afterThree (⟨Real.exp, Real.sqrt, Real.pi⟩ : Libm ℝ)).datum := by
    rw [afterThree_eq]
    simp [track]
  have hpos : 0 < probabilityCandidate (⟨Real.exp, Real.sqrt, Real.pi⟩ : Libm ℝ) eventNear
      (seedSlot : Data ℝ).blob :=
    probabilityCandidate_pos _ Real.exp_pos (fun _ hz => Real.sqrt_pos.mpr hz) _ _ (hdet _ hmem)
  exact ⟨hdet, (association_selects_first_maximum (⟨Real.exp, Real.sqrt, Real.pi⟩ : Libm ℝ)
    Real.pi_pos _ eventNear hdet).1 ⟨seedSlot, hmem, hpos⟩⟩

/-- C2, at the failing input: after the events `eventOrigin`, `eventEast`,
`eventNorth` the association of `eventNear` selects the entry at position 2
(id 1, blob `blobB`) with a probability above `minimumProbability`; the entry
before it is erased during the pass, so the winner is reached at position 1
and left with its blob and its decayed activity only, where the update would
have added the probability and changed the blob. -/
theorem winner_not_updated_after_erase :
    (afterThree (⟨Real.exp, Real.sqrt, Real.pi⟩ : Libm ℝ)).datum[2]?
      = some ⟨1, blobB, Real.exp (-2) / (2 * Real.pi), Status.promoted⟩ ∧
    associate (⟨Real.exp, Real.sqrt, Real.pi⟩ : Libm ℝ) eventNear
      (afterThree (⟨Real.exp, Real.sqrt, Real.pi⟩ : Libm ℝ)).datum = (2 / (2 * Real.pi), 2) ∧
    (2 / (2 * Real.pi) : ℝ) >
      (afterThree (⟨Real.exp, Real.sqrt, Real.pi⟩ : Libm ℝ)).minimumProbability ∧
    exponentialDecay (⟨Real.exp, Real.sqrt, Real.pi⟩ : Libm ℝ)
      (afterThree (⟨Real.exp, Real.sqrt, Real.pi⟩ : Libm ℝ)) eventNear = Real.exp (-1) ∧
    (process (⟨Real.exp, Real.sqrt, Real.pi⟩ : Libm ℝ)
      (afterThree (⟨Real.exp, Real.sqrt, Real.pi⟩ : Libm ℝ)) eventNear).1.datum =
      [seedSlot, ⟨1, blobB, Real.exp (-2) / (2 * Real.pi) * Real.exp (-1), Status.demoted⟩,
        ⟨2, blobCUpdated, Real.exp (-2) / (2 * Real.pi) * Real.exp (-1) + 2 / (2 * Real.pi),
          Status.promoted⟩] ∧
    Real.exp (-2) / (2 * Real.pi) * Real.exp (-1) ≠
      Real.exp (-2) / (2 * Real.pi) * Real.exp (-1) + 2 / (2 * Real.pi) ∧
    updateBlob (afterThree (⟨Real.exp, Real.sqrt, Real.pi⟩ : Libm ℝ)) eventNear blobB ≠ blobB := by
  have hpos := density_near_pos
  refine ⟨?_, ?_, ?_, ?_, ?_, ?_, ?_⟩
  · rw [afterThree_eq]; rfl
  · rw [afterThree_eq]; exact associate_near _ _ _ rfl rfl rfl
  · rw [afterThree_eq]; exact hpos
  · rw [afterThree_eq]; simp [exponentialDecay, eventNear]
  · rw [afterThree_eq, process_near 10 3 (by norm_num)]; rfl
  · intro h
    linarith
  · rw [afterThree_eq]
    intro h
    have := congrArg Blob.squaredSigmaX h
    simp only [updateBlob, track_meanInertia, track_covarianceInertia, eventNear, blobB] at this
    norm_num at this

/-- C4, at the failing input: in the same call the entry at position 3 (id 2,
blob `blobC`), which is not the association winner (position 2), is neither
erased nor a seed, and leaves the lifecycle pass with another blob. -/
theorem non_winner_updated_after_erase :
    (afterThree (⟨Real.exp, Real.sqrt, Real.pi⟩ : Libm ℝ)).datum =
      [seedSlot, ⟨0, blobA, 1 / (2 * Real.pi) * Real.exp (-3), Status.demoted⟩,
        ⟨1, blobB, Real.exp (-2) / (2 * Real.pi), Status.promoted⟩,
        ⟨2, blobC, Real.exp (-2) / (2 * Real.pi), Status.promoted⟩] ∧
    (associate (⟨Real.exp, Real.sqrt, Real.pi⟩ : Libm ℝ) eventNear
      (afterThree (⟨Real.exp, Real.sqrt, Real.pi⟩ : Libm ℝ)).datum).2 = 2 ∧
    (lifecycle (⟨Real.exp, Real.sqrt, Real.pi⟩ : Libm ℝ)
      (afterThree (⟨Real.exp, Real.sqrt, Real.pi⟩ : Libm ℝ)) eventNear).1.datum =
      [seedSlot, ⟨1, blobB, Real.exp (-2) / (2 * Real.pi) * Real.exp (-1), Status.demoted⟩,
        ⟨2, blobCUpdated, Real.exp (-2) / (2 * Real.pi) * Real.exp (-1) + 2 / (2 * Real.pi),
          Status.promoted⟩] ∧
    (blobCUpdated : Blob ℝ) ≠ blobC := by
  refine ⟨?_, ?_, ?_, ?_⟩
  · rw [afterThree_eq]; rfl
  · rw [afterThree_eq, track_datum, associate_near _ _ _ rfl rfl rfl]
  · rw [lifecycle_near_afterThree]; rfl
  · intro h
    have := congrArg Blob.x h
    simp only [blobCUpdated, blobC] at this
    norm_num at this

/-- C8, at the failing input: in the same call the association winner is the
entry with id 1, and the one `onUpdated` call is made for the entry with id 2,
with the blob that entry has after the update meant for the winner. -/
theorem updated_emitted_for_non_winner :
    (afterThree (⟨Real.exp, Real.sqrt, Real.pi⟩ : Libm ℝ)).datum[(associate
        (⟨Real.exp, Real.sqrt, Real.pi⟩ : Libm ℝ) eventNear
        (afterThree (⟨Real.exp, Real.sqrt, Real.pi⟩ : Libm ℝ)).datum).2]?
      = some ⟨1, blobB, Real.exp (-2) / (2 * Real.pi), Status.promoted⟩ ∧
    (afterThree (⟨Real.exp, Real.sqrt, Real.pi⟩ : Libm ℝ)).datum[3]?
      = some ⟨2, blobC, Real.exp (-2) / (2 * Real.pi), Status.promoted⟩ ∧
    (process (⟨Real.exp, Real.sqrt, Real.pi⟩ : Libm ℝ)
      (afterThree (⟨Real.exp, Real.sqrt, Real.pi⟩ : Libm ℝ)) eventNear).2 =
      [Notification.deleted 0 blobA, Notification.demoted 1 blobB,
        Notification.updated 2 blobCUpdated] := by
  refine ⟨?_, ?_, ?_⟩
  · rw [afterThree_eq, track_datum, associate_near _ _ _ rfl rfl rfl]; rfl
  · rw [afterThree_eq]; rfl
  · rw [afterThree_eq, process_near 10 3 (by norm_num)]

theorem pickyEngine_datum : (pickyEngine : TrackBlobs α).datum = [seedSlot] := by
  simp [pickyEngine, construct, seedSlot, seedBlob, List.range_succ]

theorem afterUpdate_north (k sk : Nat) :
    afterUpdate (⟨Real.exp, Real.sqrt, Real.pi⟩ : Libm ℝ)
      (track k sk 3 [seedSlot, ⟨0, blobA, 1 / (2 * Real.pi) * Real.exp (-3), Status.demoted⟩,
        ⟨1, blobB, Real.exp (-2) / (2 * Real.pi), Status.promoted⟩] 2) eventNorth [] seedSlot
      = ⟨0, blobC, Real.exp (-2) / (2 * Real.pi), Status.hidden⟩ := by
  have hp0 : (0 : ℝ) < Real.exp (-2) / (2 * Real.pi) := by
    have := density_east_gt; linarith
  generalize hs : (track k sk 3 [seedSlot,
      ⟨0, blobA, 1 / (2 * Real.pi) * Real.exp (-3), Status.demoted⟩,
      ⟨1, blobB, Real.exp (-2) / (2 * Real.pi), Status.promoted⟩] 2 : TrackBlobs ℝ) = s
  have hdat : s.datum = [seedSlot, ⟨0, blobA, 1 / (2 * Real.pi) * Real.exp (-3), Status.demoted⟩,
      ⟨1, blobB, Real.exp (-2) / (2 * Real.pi), Status.promoted⟩] := by subst hs; rfl
  have hdecay : exponentialDecay (⟨Real.exp, Real.sqrt, Real.pi⟩ : Libm ℝ) s eventNorth = 1 := by
    subst hs; simp [exponentialDecay, eventNorth]
  have hu : updates s (Real.exp (-2) / (2 * Real.pi)) true = true := by
    subst hs
    simp only [updates, track_minimumProbability, Bool.true_and, decide_eq_true_eq]
    exact hp0
  have hassoc := associate_north
    (⟨0, blobA, 1 / (2 * Real.pi) * Real.exp (-3), Status.demoted⟩ : Data ℝ)
    ⟨1, blobB, Real.exp (-2) / (2 * Real.pi), Status.promoted⟩ rfl rfl
  have hw : atWinner (⟨Real.exp, Real.sqrt, Real.pi⟩ : Libm ℝ) s eventNorth [] = true := by
    simp only [atWinner, reach, lifecycleLoop, hdat, hassoc, List.length_nil, decide_True]
  unfold afterUpdate
  rw [hw, hdat, hassoc, hdecay, decayUpdate_of_updates _ _ _ _ _ _ hu]
  subst hs
  simp only [updateBlob, track_meanInertia, track_covarianceInertia, eventNorth, seedSlot,
    seedBlob, blobC]
  norm_num

theorem spawnedBy_two :
    spawnedBy (⟨Real.exp, Real.sqrt, Real.pi⟩ : Libm ℝ) (exampleEngine 2)
        [eventOrigin, eventEast] =
      [⟨0, blobA, 1 / (2 * Real.pi), Status.promoted⟩,
        ⟨1, blobB, Real.exp (-2) / (2 * Real.pi), Status.promoted⟩] := by
  rw [exampleEngine_eq]
  simp only [spawnedBy, pass_origin, process_origin 2 0 (by norm_num), pass_east]
  rfl

/-- C3, as stated, fails: after `eventOrigin` and `eventEast` the entry at
position 1 (id 0, demoted, activity `exp(-3) / 2π`) does not win the
association of `eventNorth` (the winner is position 0), it is still in the
population after the lifecycle pass and when the call returns, and the
correction pass of that call has set its activity to `0`, which is not its
former activity times the decay factor. -/
theorem correction_resets_decayed_activity :
    (afterTwo (⟨Real.exp, Real.sqrt, Real.pi⟩ : Libm ℝ)).datum[1]?
      = some ⟨0, blobA, 1 / (2 * Real.pi) * Real.exp (-3), Status.demoted⟩ ∧
    (associate (⟨Real.exp, Real.sqrt, Real.pi⟩ : Libm ℝ) eventNorth
      (afterTwo (⟨Real.exp, Real.sqrt, Real.pi⟩ : Libm ℝ)).datum).2 = 0 ∧
    (lifecycle (⟨Real.exp, Real.sqrt, Real.pi⟩ : Libm ℝ)
      (afterTwo (⟨Real.exp, Real.sqrt, Real.pi⟩ : Libm ℝ)) eventNorth).1.datum =
      [seedSlot, ⟨0, blobA, 1 / (2 * Real.pi) * Real.exp (-3), Status.demoted⟩,
        ⟨1, blobB, Real.exp (-2) / (2 * Real.pi), Status.promoted⟩,
        ⟨2, blobC, Real.exp (-2) / (2 * Real.pi), Status.promoted⟩] ∧
    (∃ e, (process (⟨Real.exp, Real.sqrt, Real.pi⟩ : Libm ℝ)
        (afterTwo (⟨Real.exp, Real.sqrt, Real.pi⟩ : Libm ℝ)) eventNorth).1.datum[1]? = some e ∧
      e.id = 0 ∧ e.status = Status.demoted ∧ e.activity = 0) ∧
    1 / (2 * Real.pi) * Real.exp (-3) *
      Real.exp (((-((eventNorth : Event ℝ).timestamp
        - (afterTwo (⟨Real.exp, Real.sqrt, Real.pi⟩ : Libm ℝ)).previousTimestamp) : Int) : ℝ)
        / (afterTwo (⟨Real.exp, Real.sqrt, Real.pi⟩ : Libm ℝ)).activityDecay) ≠ 0 := by
  refine ⟨?_, ?_, ?_, ?_, ?_⟩
  · rw [afterTwo_eq]; rfl
  · rw [afterTwo_eq, track_datum, associate_north _ _ rfl rfl]
  · rw [lifecycle_north_afterTwo]; rfl
  · rw [process_datum_of_correct _ _ _ (by rw [afterTwo_eq]; simp), lifecycle_north_afterTwo]
    obtain ⟨e, he, hid, hst, _, h2⟩ := correct_getElem? (⟨Real.exp, Real.sqrt, Real.pi⟩ : Libm ℝ)
      (track 2 2 3 [seedSlot, ⟨0, blobA, 1 / (2 * Real.pi) * Real.exp (-3), Status.demoted⟩,
        ⟨1, blobB, Real.exp (-2) / (2 * Real.pi), Status.promoted⟩,
        ⟨2, blobC, Real.exp (-2) / (2 * Real.pi), Status.promoted⟩] 3) 1
      ⟨0, blobA, 1 / (2 * Real.pi) * Real.exp (-3), Status.demoted⟩ rfl
    refine ⟨e, he, hid, hst, (h2 ?_).1⟩
    simp only [blobA, track_attractionResetDistanceSquared]
    norm_num
  · have hpi : (0 : ℝ) < 2 * Real.pi := by have := Real.pi_pos; positivity
    have h1 : (0 : ℝ) < 1 / (2 * Real.pi) := by positivity
    exact (mul_pos (mul_pos h1 (Real.exp_pos _)) (Real.exp_pos _)).ne'

/-- C3 (amended), at an instance: the entry of the counterexample stands at
position 1 and is reached there, the winner standing at position 0; it is
kept by the lifecycle pass with its decayed activity, and the correction pass
of the call then resets it. -/
theorem decayed_activity_after_lifecycle_witness :
    (afterTwo (⟨Real.exp, Real.sqrt, Real.pi⟩ : Libm ℝ)).datum = [seedSlot]
      ++ ⟨0, blobA, 1 / (2 * Real.pi) * Real.exp (-3), Status.demoted⟩
      :: [⟨1, blobB, Real.exp (-2) / (2 * Real.pi), Status.promoted⟩] ∧
    (reach (⟨Real.exp, Real.sqrt, Real.pi⟩ : Libm ℝ)
        (afterTwo (⟨Real.exp, Real.sqrt, Real.pi⟩ : Libm ℝ)) eventNorth [seedSlot]).datum.length
      ≠ (associate (⟨Real.exp, Real.sqrt, Real.pi⟩ : Libm ℝ) eventNorth
        (afterTwo (⟨Real.exp, Real.sqrt, Real.pi⟩ : Libm ℝ)).datum).2 ∧
    (visit (⟨Real.exp, Real.sqrt, Real.pi⟩ : Libm ℝ)
        (afterTwo (⟨Real.exp, Real.sqrt, Real.pi⟩ : Libm ℝ)) eventNorth [seedSlot]
        ⟨0, blobA, 1 / (2 * Real.pi) * Real.exp (-3), Status.demoted⟩).datum
      = [⟨0, blobA, 1 / (2 * Real.pi) * Real.exp (-3), Status.demoted⟩] ∧
    (⟨0, blobA, 1 / (2 * Real.pi) * Real.exp (-3), Status.demoted⟩ : Data ℝ).activity =
      (⟨0, blobA, 1 / (2 * Real.pi) * Real.exp (-3), Status.demoted⟩ : Data ℝ).activity *
        Real.exp (((-((eventNorth : Event ℝ).timestamp
          - (afterTwo (⟨Real.exp, Real.sqrt, Real.pi⟩ : Libm ℝ)).previousTimestamp) : Int) : ℝ)
          / (afterTwo (⟨Real.exp, Real.sqrt, Real.pi⟩ : Libm ℝ)).activityDecay) := by
  have hdat : (afterTwo (⟨Real.exp, Real.sqrt, Real.pi⟩ : Libm ℝ)).datum = [seedSlot]
      ++ ⟨0, blobA, 1 / (2 * Real.pi) * Real.exp (-3), Status.demoted⟩
      :: [⟨1, blobB, Real.exp (-2) / (2 * Real.pi), Status.promoted⟩] := by
    rw [afterTwo_eq]; rfl
  have hlen : (reach (⟨Real.exp, Real.sqrt, Real.pi⟩ : Libm ℝ)
      (afterTwo (⟨Real.exp, Real.sqrt, Real.pi⟩ : Libm ℝ)) eventNorth [seedSlot]).datum.length
      = 1 :=
    lifecycleLoop_hidden_length _ _ _ _ _ [seedSlot]
      (by intro d hd; rw [List.mem_singleton.mp hd]; rfl) _ _
  have hwin : (associate (⟨Real.exp, Real.sqrt, Real.pi⟩ : Libm ℝ) eventNorth
      (afterTwo (⟨Real.exp, Real.sqrt, Real.pi⟩ : Libm ℝ)).datum).2 = 0 := by
    rw [afterTwo_eq, track_datum, associate_north _ _ rfl rfl]
  have hpos : (reach (⟨Real.exp, Real.sqrt, Real.pi⟩ : Libm ℝ)
      (afterTwo (⟨Real.exp, Real.sqrt, Real.pi⟩ : Libm ℝ)) eventNorth [seedSlot]).datum.length
      ≠ (associate (⟨Real.exp, Real.sqrt, Real.pi⟩ : Libm ℝ) eventNorth
        (afterTwo (⟨Real.exp, Real.sqrt, Real.pi⟩ : Libm ℝ)).datum).2 := by
    rw [hlen, hwin]; norm_num
  have hdecay : exponentialDecay (⟨Real.exp, Real.sqrt, Real.pi⟩ : Libm ℝ)
      (afterTwo (⟨Real.exp, Real.sqrt, Real.pi⟩ : Libm ℝ)) eventNorth = 1 := by
    rw [afterTwo_eq]; simp [exponentialDecay, eventNorth]
  have hact : 1 / (2 * Real.pi) * Real.exp (-3) = Real.exp (-3) / (2 * Real.pi) := by ring
  obtain ⟨hlo, hhi⟩ := decayed_between
  have hvisit : (visit (⟨Real.exp, Real.sqrt, Real.pi⟩ : Libm ℝ)
      (afterTwo (⟨Real.exp, Real.sqrt, Real.pi⟩ : Libm ℝ)) eventNorth [seedSlot]
      ⟨0, blobA, 1 / (2 * Real.pi) * Real.exp (-3), Status.demoted⟩).datum
      = [⟨0, blobA, 1 / (2 * Real.pi) * Real.exp (-3), Status.demoted⟩] := by
    have hup : updates (afterTwo (⟨Real.exp, Real.sqrt, Real.pi⟩ : Libm ℝ))
        (associate (⟨Real.exp, Real.sqrt, Real.pi⟩ : Libm ℝ) eventNorth
          (afterTwo (⟨Real.exp, Real.sqrt, Real.pi⟩ : Libm ℝ)).datum).1
        (atWinner (⟨Real.exp, Real.sqrt, Real.pi⟩ : Libm ℝ)
          (afterTwo (⟨Real.exp, Real.sqrt, Real.pi⟩ : Libm ℝ)) eventNorth [seedSlot]) = false := by
      simp [updates, atWinner, hpos]
    have hd : afterUpdate (⟨Real.exp, Real.sqrt, Real.pi⟩ : Libm ℝ)
        (afterTwo (⟨Real.exp, Real.sqrt, Real.pi⟩ : Libm ℝ)) eventNorth [seedSlot]
        ⟨0, blobA, 1 / (2 * Real.pi) * Real.exp (-3), Status.demoted⟩
        = ⟨0, blobA, 1 / (2 * Real.pi) * Real.exp (-3), Status.demoted⟩ := by
      unfold afterUpdate
      rw [decayUpdate_of_not_updates _ _ _ _ _ _ hup, hdecay]
      simp
    have ht := transition_demoted_stay (afterTwo (⟨Real.exp, Real.sqrt, Real.pi⟩ : Libm ℝ))
      (reach (⟨Real.exp, Real.sqrt, Real.pi⟩ : Libm ℝ)
        (afterTwo (⟨Real.exp, Real.sqrt, Real.pi⟩ : Libm ℝ)) eventNorth [seedSlot]).idOffset
      ⟨0, blobA, 1 / (2 * Real.pi) * Real.exp (-3), Status.demoted⟩ rfl
      (by rw [afterTwo_eq]; show ¬ 1 / (2 * Real.pi) * Real.exp (-3) ≤ 1 / 200
          rw [hact]; exact not_le.mpr hlo)
      (by rw [afterTwo_eq]; show ¬ 1 / (2 * Real.pi) * Real.exp (-3) > 1 / 100
          rw [hact]; exact not_lt.mpr hhi)
    simp only [visit, hd, ht, Option.toList]
  exact ⟨hdat, hpos, hvisit,
    (decayed_activity_after_lifecycle (⟨Real.exp, Real.sqrt, Real.pi⟩ : Libm ℝ)
      (afterTwo (⟨Real.exp, Real.sqrt, Real.pi⟩ : Libm ℝ)) eventNorth [seedSlot]
      ⟨0, blobA, 1 / (2 * Real.pi) * Real.exp (-3), Status.demoted⟩
      [⟨1, blobB, Real.exp (-2) / (2 * Real.pi), Status.promoted⟩] hdat
      (by rw [hwin]; simp) hpos
      (by intro h; exact absurd h.1 (by decide))
      ⟨0, blobA, 1 / (2 * Real.pi) * Real.exp (-3), Status.demoted⟩ hvisit).2.2.1⟩

/-- C5, at an instance: in the example engine after two events (two entries
spawned, ids 0 and 1), `eventNorth` promotes the seed: one entry with id 2 and
blob `blobC` is pushed, `onPromoted` is called once with them, and no entry
spawned before carries the id 2. -/
theorem hidden_seed_promotion_witness :
    (afterTwo (⟨Real.exp, Real.sqrt, Real.pi⟩ : Libm ℝ)).datum = []
      ++ seedSlot :: [⟨0, blobA, 1 / (2 * Real.pi) * Real.exp (-3), Status.demoted⟩,
        ⟨1, blobB, Real.exp (-2) / (2 * Real.pi), Status.promoted⟩] ∧
    (visit (⟨Real.exp, Real.sqrt, Real.pi⟩ : Libm ℝ)
        (afterTwo (⟨Real.exp, Real.sqrt, Real.pi⟩ : Libm ℝ)) eventNorth [] seedSlot).datumToAdd
      = [⟨2, blobC, Real.exp (-2) / (2 * Real.pi), Status.promoted⟩] ∧
    (visit (⟨Real.exp, Real.sqrt, Real.pi⟩ : Libm ℝ)
        (afterTwo (⟨Real.exp, Real.sqrt, Real.pi⟩ : Libm ℝ)) eventNorth [] seedSlot).notes
      = [Notification.promoted 2 blobC] ∧
    ∀ e ∈ spawnedBy (⟨Real.exp, Real.sqrt, Real.pi⟩ : Libm ℝ) (exampleEngine 2)
        [eventOrigin, eventEast], e.id ≠ 2 := by
  have hdat : (afterTwo (⟨Real.exp, Real.sqrt, Real.pi⟩ : Libm ℝ)).datum = []
      ++ seedSlot :: [⟨0, blobA, 1 / (2 * Real.pi) * Real.exp (-3), Status.demoted⟩,
        ⟨1, blobB, Real.exp (-2) / (2 * Real.pi), Status.promoted⟩] := by
    rw [afterTwo_eq]; rfl
  have hup : afterUpdate (⟨Real.exp, Real.sqrt, Real.pi⟩ : Libm ℝ)
      (afterTwo (⟨Real.exp, Real.sqrt, Real.pi⟩ : Libm ℝ)) eventNorth [] seedSlot
      = ⟨0, blobC, Real.exp (-2) / (2 * Real.pi), Status.hidden⟩ := by
    rw [afterTwo_eq]; exact afterUpdate_north 2 2
  have hoff : (reach (⟨Real.exp, Real.sqrt, Real.pi⟩ : Libm ℝ)
      (afterTwo (⟨Real.exp, Real.sqrt, Real.pi⟩ : Libm ℝ)) eventNorth []).idOffset = 2 := by
    rw [afterTwo_eq]; rfl
  have hadd : (reach (⟨Real.exp, Real.sqrt, Real.pi⟩ : Libm ℝ)
      (afterTwo (⟨Real.exp, Real.sqrt, Real.pi⟩ : Libm ℝ)) eventNorth []).datumToAdd = [] := rfl
  have hpromo : (afterUpdate (⟨Real.exp, Real.sqrt, Real.pi⟩ : Libm ℝ)
      (afterTwo (⟨Real.exp, Real.sqrt, Real.pi⟩ : Libm ℝ)) eventNorth [] seedSlot).activity
      > (afterTwo (⟨Real.exp, Real.sqrt, Real.pi⟩ : Libm ℝ)).promotionActivity := by
    rw [hup, afterTwo_eq]; exact density_east_gt
  obtain ⟨h1, h2, _, _, h5⟩ := (hidden_seed_promotion (⟨Real.exp, Real.sqrt, Real.pi⟩ : Libm ℝ)
    [seedBlob] 0 1 0 (1 / 100) (1 / 200) (1 / 2) (1 / 4) 1 1 1 (1 / 2) 2 0 0
    [eventOrigin, eventEast] (afterTwo (⟨Real.exp, Real.sqrt, Real.pi⟩ : Libm ℝ)) rfl
    eventNorth [] seedSlot _ hdat rfl).2.2.2.1 hpromo
  rw [hup, hoff] at h1 h2
  refine ⟨hdat, h1, h2, ?_⟩
  intro e he
  have hb := h5 (by
    rw [hadd, show spawnedBy (⟨Real.exp, Real.sqrt, Real.pi⟩ : Libm ℝ)
        (construct [seedBlob] 0 1 0 (1 / 100) (1 / 200) (1 / 2) (1 / 4) 1 1 1 (1 / 2) 2 0 0)
        [eventOrigin, eventEast] = _ from spawnedBy_two]
    simp [sizeMax]) e (List.mem_append_left _ he)
  rw [hoff] at hb
  exact hb

/-- C6, at an instance: the promoted entry at position 2 of the example engine
after three events, visited by the pass of `eventNear`. -/
theorem promoted_entry_lifecycle_witness :
    (afterThree (⟨Real.exp, Real.sqrt, Real.pi⟩ : Libm ℝ)).datum =
      [seedSlot, ⟨0, blobA, 1 / (2 * Real.pi) * Real.exp (-3), Status.demoted⟩]
      ++ ⟨1, blobB, Real.exp (-2) / (2 * Real.pi), Status.promoted⟩
      :: [⟨2, blobC, Real.exp (-2) / (2 * Real.pi), Status.promoted⟩] ∧
    ((visit (⟨Real.exp, Real.sqrt, Real.pi⟩ : Libm ℝ)
        (afterThree (⟨Real.exp, Real.sqrt, Real.pi⟩ : Libm ℝ)) eventNear
        [seedSlot, ⟨0, blobA, 1 / (2 * Real.pi) * Real.exp (-3), Status.demoted⟩]
        ⟨1, blobB, Real.exp (-2) / (2 * Real.pi), Status.promoted⟩).datum = [] ↔
      (afterUpdate (⟨Real.exp, Real.sqrt, Real.pi⟩ : Libm ℝ)
        (afterThree (⟨Real.exp, Real.sqrt, Real.pi⟩ : Libm ℝ)) eventNear
        [seedSlot, ⟨0, blobA, 1 / (2 * Real.pi) * Real.exp (-3), Status.demoted⟩]
        ⟨1, blobB, Real.exp (-2) / (2 * Real.pi), Status.promoted⟩).activity
        ≤ (afterThree (⟨Real.exp, Real.sqrt, Real.pi⟩ : Libm ℝ)).promotionActivity ∧
      (afterUpdate (⟨Real.exp, Real.sqrt, Real.pi⟩ : Libm ℝ)
        (afterThree (⟨Real.exp, Real.sqrt, Real.pi⟩ : Libm ℝ)) eventNear
        [seedSlot, ⟨0, blobA, 1 / (2 * Real.pi) * Real.exp (-3), Status.demoted⟩]
        ⟨1, blobB, Real.exp (-2) / (2 * Real.pi), Status.promoted⟩).activity
        ≤ (afterThree (⟨Real.exp, Real.sqrt, Real.pi⟩ : Libm ℝ)).deletionActivity) := by
  have hdat : (afterThree (⟨Real.exp, Real.sqrt, Real.pi⟩ : Libm ℝ)).datum =
      [seedSlot, ⟨0, blobA, 1 / (2 * Real.pi) * Real.exp (-3), Status.demoted⟩]
      ++ ⟨1, blobB, Real.exp (-2) / (2 * Real.pi), Status.promoted⟩
      :: [⟨2, blobC, Real.exp (-2) / (2 * Real.pi), Status.promoted⟩] := by
    rw [afterThree_eq]; rfl
  exact ⟨hdat, (promoted_entry_lifecycle (⟨Real.exp, Real.sqrt, Real.pi⟩ : Libm ℝ)
    (afterThree (⟨Real.exp, Real.sqrt, Real.pi⟩ : Libm ℝ)) eventNear _ _ _ hdat
    rfl).2.2.2.2.2.2.2⟩

/-- C7, at an instance: the demoted entry at position 1 of the example engine
after three events has, in the pass of `eventNear`, an activity at or below
`deletionActivity`: it is erased and `onDeleted` is called with its id. -/
theorem demoted_entry_lifecycle_witness :
    (afterThree (⟨Real.exp, Real.sqrt, Real.pi⟩ : Libm ℝ)).datum =
      [seedSlot] ++ ⟨0, blobA, 1 / (2 * Real.pi) * Real.exp (-3), Status.demoted⟩
      :: [⟨1, blobB, Real.exp (-2) / (2 * Real.pi), Status.promoted⟩,
        ⟨2, blobC, Real.exp (-2) / (2 * Real.pi), Status.promoted⟩] ∧
    (afterUpdate (⟨Real.exp, Real.sqrt, Real.pi⟩ : Libm ℝ)
        (afterThree (⟨Real.exp, Real.sqrt, Real.pi⟩ : Libm ℝ)) eventNear [seedSlot]
        ⟨0, blobA, 1 / (2 * Real.pi) * Real.exp (-3), Status.demoted⟩).activity
      ≤ (afterThree (⟨Real.exp, Real.sqrt, Real.pi⟩ : Libm ℝ)).deletionActivity ∧
    (visit (⟨Real.exp, Real.sqrt, Real.pi⟩ : Libm ℝ)
        (afterThree (⟨Real.exp, Real.sqrt, Real.pi⟩ : Libm ℝ)) eventNear [seedSlot]
        ⟨0, blobA, 1 / (2 * Real.pi) * Real.exp (-3), Status.demoted⟩).datum = [] ∧
    (visit (⟨Real.exp, Real.sqrt, Real.pi⟩ : Libm ℝ)
        (afterThree (⟨Real.exp, Real.sqrt, Real.pi⟩ : Libm ℝ)) eventNear [seedSlot]
        ⟨0, blobA, 1 / (2 * Real.pi) * Real.exp (-3), Status.demoted⟩).notes
      = [Notification.deleted 0 (afterUpdate (⟨Real.exp, Real.sqrt, Real.pi⟩ : Libm ℝ)
        (afterThree (⟨Real.exp, Real.sqrt, Real.pi⟩ : Libm ℝ)) eventNear [seedSlot]
        ⟨0, blobA, 1 / (2 * Real.pi) * Real.exp (-3), Status.demoted⟩).blob] := by
  have hdat : (afterThree (⟨Real.exp, Real.sqrt, Real.pi⟩ : Libm ℝ)).datum =
      [seedSlot] ++ ⟨0, blobA, 1 / (2 * Real.pi) * Real.exp (-3), Status.demoted⟩
      :: [⟨1, blobB, Real.exp (-2) / (2 * Real.pi), Status.promoted⟩,
        ⟨2, blobC, Real.exp (-2) / (2 * Real.pi), Status.promoted⟩] := by
    rw [afterThree_eq]; rfl
  have hlen : (reach (⟨Real.exp, Real.sqrt, Real.pi⟩ : Libm ℝ)
      (afterThree (⟨Real.exp, Real.sqrt, Real.pi⟩ : Libm ℝ)) eventNear [seedSlot]).datum.length
      = 1 :=
    lifecycleLoop_hidden_length _ _ _ _ _ [seedSlot]
      (by intro d hd; rw [List.mem_singleton.mp hd]; rfl) _ _
  have hwin : (associate (⟨Real.exp, Real.sqrt, Real.pi⟩ : Libm ℝ) eventNear
      (afterThree (⟨Real.exp, Real.sqrt, Real.pi⟩ : Libm ℝ)).datum).2 = 2 := by
    rw [afterThree_eq, track_datum, associate_near _ _ _ rfl rfl rfl]
  have hup : updates (afterThree (⟨Real.exp, Real.sqrt, Real.pi⟩ : Libm ℝ))
      (associate (⟨Real.exp, Real.sqrt, Real.pi⟩ : Libm ℝ) eventNear
        (afterThree (⟨Real.exp, Real.sqrt, Real.pi⟩ : Libm ℝ)).datum).1
      (atWinner (⟨Real.exp, Real.sqrt, Real.pi⟩ : Libm ℝ)
        (afterThree (⟨Real.exp, Real.sqrt, Real.pi⟩ : Libm ℝ)) eventNear [seedSlot]) = false := by
    simp [updates, atWinner, hlen, hwin]
  have hdecay : exponentialDecay (⟨Real.exp, Real.sqrt, Real.pi⟩ : Libm ℝ)
      (afterThree (⟨Real.exp, Real.sqrt, Real.pi⟩ : Libm ℝ)) eventNear = Real.exp (-1) := by
    rw [afterThree_eq]; simp [exponentialDecay, eventNear]
  have hd : afterUpdate (⟨Real.exp, Real.sqrt, Real.pi⟩ : Libm ℝ)
      (afterThree (⟨Real.exp, Real.sqrt, Real.pi⟩ : Libm ℝ)) eventNear [seedSlot]
      ⟨0, blobA, 1 / (2 * Real.pi) * Real.exp (-3), Status.demoted⟩
      = ⟨0, blobA, 1 / (2 * Real.pi) * Real.exp (-3) * Real.exp (-1), Status.demoted⟩ := by
    unfold afterUpdate
    rw [decayUpdate_of_not_updates _ _ _ _ _ _ hup, hdecay]
  have hact : 1 / (2 * Real.pi) * Real.exp (-3) * Real.exp (-1)
      = Real.exp (-4) / (2 * Real.pi) := by
    rw [show (-4 : ℝ) = -3 + -1 by norm_num, Real.exp_add]; ring
  have hdel : (afterUpdate (⟨Real.exp, Real.sqrt, Real.pi⟩ : Libm ℝ)
      (afterThree (⟨Real.exp, Real.sqrt, Real.pi⟩ : Libm ℝ)) eventNear [seedSlot]
      ⟨0, blobA, 1 / (2 * Real.pi) * Real.exp (-3), Status.demoted⟩).activity
      ≤ (afterThree (⟨Real.exp, Real.sqrt, Real.pi⟩ : Libm ℝ)).deletionActivity := by
    rw [hd, afterThree_eq]
    show 1 / (2 * Real.pi) * Real.exp (-3) * Real.exp (-1) ≤ 1 / 200
    rw [hact]; exact decayed_twice_le
  obtain ⟨h1, h2⟩ := (demoted_entry_lifecycle (⟨Real.exp, Real.sqrt, Real.pi⟩ : Libm ℝ)
    (afterThree (⟨Real.exp, Real.sqrt, Real.pi⟩ : Libm ℝ)) eventNear _ _ _ hdat
    rfl).2.2.2.2.1 hdel
  exact ⟨hdat, hdel, h1, h2⟩

/-- C9, at an instance: on the engine with an association floor of one half,
the probability of `eventRight` stays below the floor and no `onUpdated` call
is made. -/
theorem no_update_below_minimum_probability_witness :
    (associate (⟨Real.exp, Real.sqrt, Real.pi⟩ : Libm ℝ) eventRight
        (pickyEngine : TrackBlobs ℝ).datum).1 ≤ (pickyEngine : TrackBlobs ℝ).minimumProbability ∧
    ∀ n ∈ (lifecycle (⟨Real.exp, Real.sqrt, Real.pi⟩ : Libm ℝ) pickyEngine eventRight).2,
      ∀ (id : Nat) (b : Blob ℝ), n ≠ Notification.updated id b := by
  have hlow : (associate (⟨Real.exp, Real.sqrt, Real.pi⟩ : Libm ℝ) eventRight
      (pickyEngine : TrackBlobs ℝ).datum).1 ≤ (pickyEngine : TrackBlobs ℝ).minimumProbability := by
    rw [pickyEngine_datum, associate_right]
    exact density_right_bounds.2
  exact ⟨hlow, (no_update_below_minimum_probability (⟨Real.exp, Real.sqrt, Real.pi⟩ : Libm ℝ)
    pickyEngine eventRight (Or.inl hlow)).2.1⟩

/-- C10, as stated, fails: on the fresh example engine with a correction pass
at every event, `eventRight` promotes the seed, and when the call returns the
seed slot stands left of the origin, where its construction blob is at the
origin. -/
theorem seed_moved_by_correction :
    (exampleEngine 0 : TrackBlobs ℝ).datum = [seedSlot] ∧
    (afterUpdate (⟨Real.exp, Real.sqrt, Real.pi⟩ : Libm ℝ) (exampleEngine 0) eventRight []
        seedSlot).activity > (exampleEngine 0 : TrackBlobs ℝ).promotionActivity ∧
    ∃ e, (process (⟨Real.exp, Real.sqrt, Real.pi⟩ : Libm ℝ) (exampleEngine 0)
        eventRight).1.datum[0]? = some e ∧
      e.id = 0 ∧ e.status = Status.hidden ∧ e.blob.x < 0 ∧ (seedBlob : Blob ℝ).x = 0 ∧
      e.blob ≠ seedBlob := by
  refine ⟨by rw [exampleEngine_eq]; rfl, ?_, ?_⟩
  · rw [exampleEngine_eq, afterUpdate_right]
    exact density_right_bounds.1
  · obtain ⟨e, he, hx⟩ := process_right_seed
    have hneg : e.blob.x < 0 := by
      rw [hx]
      have : (0 : ℝ) < Real.exp (-2⁻¹) * 2⁻¹ := mul_pos (Real.exp_pos _) (by norm_num)
      linarith
    have hl : (lifecycle (⟨Real.exp, Real.sqrt, Real.pi⟩ : Libm ℝ) (exampleEngine 0)
        eventRight).1.datum[0]? = some seedSlot := by
      rw [exampleEngine_eq]
      simp only [lifecycle, pass_right]
      rfl
    obtain ⟨e', he', hid, hst, _⟩ := correct_getElem? (⟨Real.exp, Real.sqrt, Real.pi⟩ : Libm ℝ)
      (lifecycle (⟨Real.exp, Real.sqrt, Real.pi⟩ : Libm ℝ) (exampleEngine 0) eventRight).1
      0 seedSlot hl
    rw [← process_datum_of_correct _ _ _ (by rw [exampleEngine_eq]; simp), he] at he'
    have hee : e = e' := Option.some.inj he'
    subst hee
    refine ⟨e, he, hid, hst, hneg, rfl, ?_⟩
    intro h
    rw [h] at hneg
    exact absurd hneg (by simp [seedBlob])

/-- C10 (amended), at an instance: on the fresh example engine `eventRight`
promotes the seed, and right after the lifecycle pass the seed slot is the
construction one. -/
theorem seed_reset_on_promotion_witness :
    (exampleEngine 0 : TrackBlobs ℝ).datum = [] ++ seedSlot :: [] ∧
    (afterUpdate (⟨Real.exp, Real.sqrt, Real.pi⟩ : Libm ℝ) (exampleEngine 0) eventRight []
        seedSlot).activity > (exampleEngine 0 : TrackBlobs ℝ).promotionActivity ∧
    ∃ b, ([seedBlob] : List (Blob ℝ))[0]? = some b ∧
      (lifecycle (⟨Real.exp, Real.sqrt, Real.pi⟩ : Libm ℝ) (exampleEngine 0)
        eventRight).1.datum[0]? = some ⟨0, b, 0, Status.hidden⟩ := by
  have hdat : (exampleEngine 0 : TrackBlobs ℝ).datum = [] ++ seedSlot :: [] := by
    rw [exampleEngine_eq]; rfl
  have hpromo : (afterUpdate (⟨Real.exp, Real.sqrt, Real.pi⟩ : Libm ℝ) (exampleEngine 0)
      eventRight [] seedSlot).activity > (exampleEngine 0 : TrackBlobs ℝ).promotionActivity := by
    rw [exampleEngine_eq, afterUpdate_right]
    exact density_right_bounds.1
  obtain ⟨_, _, b, hb, hl, _⟩ := seed_reset_on_promotion (⟨Real.exp, Real.sqrt, Real.pi⟩ : Libm ℝ)
    [seedBlob] 0 1 0 (1 / 100) (1 / 200) (1 / 2) (1 / 4) 1 1 1 (1 / 2) 0 0 0 []
    (exampleEngine 0) rfl eventRight [] seedSlot [] hdat (by simp) hpromo
  exact ⟨hdat, hpromo, b, hb, hl⟩

/-! ## Tracked entries in the loop: statuses, ids and activities -/

theorem transition_tracked (s : TrackBlobs α) (off : Nat) (d : Data α)
    (hs : d.status ≠ Status.hidden) :
    (transition s off d).spawned = none ∧
    ∀ e, (transition s off d).kept = some e → e.id = d.id ∧ e.status ≠ Status.hidden := by
  unfold transition
  cases hst : d.status
  · exact absurd hst hs
  · simp only
    split_ifs <;> refine ⟨rfl, ?_⟩ <;> intro e he <;> simp at he <;> subst he <;> simp [hst]
  · simp only
    split_ifs <;> refine ⟨rfl, ?_⟩ <;> intro e he <;> simp at he <;> subst he <;> simp [hst]

theorem transition_spawned_status (s : TrackBlobs α) (off : Nat) (d e : Data α)
    (h : (transition s off d).spawned = some e) : e.status = Status.promoted := by
  unfold transition at h
  cases hst : d.status <;> simp only [hst] at h <;> split_ifs at h <;> simp at h
  rw [← h]

theorem transition_activity (s : TrackBlobs α) (off : Nat) (d : Data α)
    (hd : 0 ≤ d.activity) :
    (∀ e, (transition s off d).kept = some e → 0 ≤ e.activity) ∧
    (∀ e, (transition s off d).spawned = some e → 0 ≤ e.activity) := by
  unfold transition
  cases hst : d.status <;> simp only <;> split_ifs <;> constructor <;> intro e he <;>
    simp at he <;> subst he <;> first | exact hd | exact le_refl _

theorem decayUpdate_activity (s : TrackBlobs α) (ev : Event α) (p decay : α) (w : Bool)
    (d : Data α) (hp : 0 ≤ p) (hdecay : 0 ≤ decay) (hd : 0 ≤ d.activity) :
    0 ≤ (decayUpdate s ev p decay w d).activity := by
  unfold decayUpdate
  split
  · exact add_nonneg (mul_nonneg hd hdecay) hp
  · exact mul_nonneg hd hdecay

/-- A stretch of the loop over promoted and demoted entries spawns nothing,
leaves only promoted and demoted entries, and keeps their ids in order. -/
theorem lifecycleLoop_tracked (s : TrackBlobs α) (ev : Event α) (p decay : α) (winner : Nat)
    (l : List (Data α)) (hl : ∀ d ∈ l, d.status ≠ Status.hidden) : ∀ (pos off : Nat),
    (lifecycleLoop s ev p decay winner pos off l).datumToAdd = [] ∧
    (∀ e ∈ (lifecycleLoop s ev p decay winner pos off l).datum, e.status ≠ Status.hidden) ∧
    ((lifecycleLoop s ev p decay winner pos off l).datum.map Data.id).Sublist
      (l.map Data.id) := by
  induction l with
  | nil =>
    intro pos off
    simp [lifecycleLoop]
  | cons d rest ih =>
    intro pos off
    have hd1 : (decayUpdate s ev p decay (decide (pos = winner)) d).status ≠ Status.hidden := by
      rw [decayUpdate_status]
      exact hl d (List.mem_cons_self _ _)
    obtain ⟨hsp, hk⟩ := transition_tracked s off _ hd1
    have hrest : ∀ e ∈ rest, e.status ≠ Status.hidden :=
      fun e he => hl e (List.mem_cons_of_mem _ he)
    simp only [lifecycleLoop, hsp, Option.toList, Option.isSome_none, Bool.false_eq_true,
      if_false, List.nil_append]
    cases hkept : (transition s off (decayUpdate s ev p decay (decide (pos = winner)) d)).kept with
    | none =>
      obtain ⟨h1, h2, h3⟩ := ih hrest pos off
      simp only [Option.isSome_none, Bool.false_eq_true, if_false, List.nil_append]
      exact ⟨h1, h2, List.Sublist.trans h3 (List.sublist_cons_self _ _)⟩
    | some e =>
      obtain ⟨h1, h2, h3⟩ := ih hrest (pos + 1) off
      obtain ⟨hid, hst⟩ := hk e hkept
      simp only [Option.isSome_some, if_true, List.singleton_append, List.map_cons]
      refine ⟨h1, ?_, ?_⟩
      · intro x hx
        rcases List.mem_cons.mp hx with rfl | hx
        · exact hst
        · exact h2 x hx
      · rw [hid, decayUpdate_id]
        exact List.Sublist.cons₂ _ h3

theorem lifecycleLoop_spawned_promoted (s : TrackBlobs α) (ev : Event α) (p decay : α)
    (winner : Nat) (l : List (Data α)) : ∀ (pos off : Nat),
    ∀ e ∈ (lifecycleLoop s ev p decay winner pos off l).datumToAdd,
      e.status = Status.promoted := by
  induction l with
  | nil =>
    intro pos off e he
    simp [lifecycleLoop] at he
  | cons d rest ih =>
    intro pos off e he
    simp only [lifecycleLoop, List.mem_append] at he
    rcases he with he | he
    · cases hsp : (transition s off (decayUpdate s ev p decay (decide (pos = winner)) d)).spawned with
      | none => simp [hsp] at he
      | some x =>
        simp only [hsp, Option.toList, List.mem_singleton] at he
        rw [he]
        exact transition_spawned_status s off _ x hsp
    · exact ih _ _ e he

theorem lifecycleLoop_activity (s : TrackBlobs α) (ev : Event α) (p decay : α) (winner : Nat)
    (hp : 0 ≤ p) (hdecay : 0 ≤ decay) (l : List (Data α)) (hl : ∀ d ∈ l, 0 ≤ d.activity) :
    ∀ (pos off : Nat),
    (∀ e ∈ (lifecycleLoop s ev p decay winner pos off l).datum, 0 ≤ e.activity) ∧
    (∀ e ∈ (lifecycleLoop s ev p decay winner pos off l).datumToAdd, 0 ≤ e.activity) := by
  induction l with
  | nil =>
    intro pos off
    simp [lifecycleLoop]
  | cons d rest ih =>
    intro pos off
    have hd1 := decayUpdate_activity s ev p decay (decide (pos = winner)) d hp hdecay
      (hl d (List.mem_cons_self _ _))
    obtain ⟨hk, hsp⟩ := transition_activity s off _ hd1
    have hrest : ∀ e ∈ rest, 0 ≤ e.activity := fun e he => hl e (List.mem_cons_of_mem _ he)
    simp only [lifecycleLoop, List.mem_append]
    constructor
    · intro e he
      rcases he with he | he
      · cases hkept : (transition s off
            (decayUpdate s ev p decay (decide (pos = winner)) d)).kept with
        | none => simp [hkept] at he
        | some x =>
          simp only [hkept, Option.toList, List.mem_singleton] at he
          rw [he]
          exact hk x hkept
      · exact (ih hrest _ _).1 e he
    · intro e he
      rcases he with he | he
      · cases hspw : (transition s off
            (decayUpdate s ev p decay (decide (pos = winner)) d)).spawned with
        | none => simp [hspw] at he
        | some x =>
          simp only [hspw, Option.toList, List.mem_singleton] at he
          rw [he]
          exact hsp x hspw
      · exact (ih hrest _ _).2 e he

/-! ## What the correction pass leaves alone -/

theorem applyDeltas_map {β : Type} (f : Data α → β)
    (hf : ∀ (d : Data α) (b : Blob α), f { d with blob := b } = f d) (ds : Deltas α)
    (l : List (Data α)) : ∀ (pos : Nat), (applyDeltas ds pos l).map f = l.map f := by
  induction l with
  | nil => intro pos; rfl
  | cons d rest ih =>
    intro pos
    simp only [applyDeltas, List.map_cons, hf, ih]

theorem correct_map_id (m : Libm α) (s : TrackBlobs α) :
    (correct m s).map Data.id = s.datum.map Data.id := by
  unfold correct
  simp only
  rw [applyDeltas_map Data.id (fun _ _ => rfl), attract_fst, List.map_map]
  apply List.map_congr_left
  intro d _
  simp only [Function.comp]
  split_ifs <;> rfl

theorem correct_map_status (m : Libm α) (s : TrackBlobs α) :
    (correct m s).map Data.status = s.datum.map Data.status := by
  unfold correct
  simp only
  rw [applyDeltas_map Data.status (fun _ _ => rfl), attract_fst, List.map_map]
  apply List.map_congr_left
  intro d _
  simp only [Function.comp]
  split_ifs <;> rfl

theorem correct_map_activity (m : Libm α) (s : TrackBlobs α) :
    (correct m s).map Data.activity = s.datum.map (fun d =>
      if d.blob.x ^ 2 + d.blob.y ^ 2 > s.attractionResetDistanceSquared then d.activity
      else 0) := by
  unfold correct
  simp only
  rw [applyDeltas_map Data.activity (fun _ _ => rfl), attract_fst, List.map_map]
  apply List.map_congr_left
  intro d _
  simp only [Function.comp]
  split_ifs <;> rfl

theorem pairwise_map_id (m : Libm α) (s : TrackBlobs α) :
    (pairwise m s).datum.map Data.id = s.datum.map Data.id ∧
    (pairwise m s).datum.map Data.status = s.datum.map Data.status := by
  unfold pairwise
  split_ifs
  · exact ⟨correct_map_id m s, correct_map_status m s⟩
  · exact ⟨rfl, rfl⟩

theorem pairwise_activity (m : Libm α) (s : TrackBlobs α)
    (h : ∀ d ∈ s.datum, 0 ≤ d.activity) : ∀ d ∈ (pairwise m s).datum, 0 ≤ d.activity := by
  unfold pairwise
  split_ifs
  · intro e he
    have hm : e.activity ∈ (correct m s).map Data.activity := List.mem_map_of_mem _ he
    rw [correct_map_activity] at hm
    obtain ⟨d, hd, hda⟩ := List.mem_map.mp hm
    rw [← hda]
    split_ifs
    · exact h d hd
    · exact le_refl _
  · exact h

/-! ## The population in every reachable state -/

theorem seedsInFront_le_length (n : Nat) (datum : List (Data α)) (h : SeedsInFront n datum) :
    n ≤ datum.length := by
  cases n with
  | zero => exact Nat.zero_le _
  | succ k =>
    obtain ⟨d, hd, _⟩ := h k (Nat.lt_succ_self k)
    have := (List.getElem?_eq_some_iff.mp hd).1
    omega

/-- One lifecycle block: behind the seed slots there are the entries kept from
behind the seed slots, then the entries spawned in this call. -/
theorem lifecycle_tail (m : Libm α) (s : TrackBlobs α) (ev : Event α) (n : Nat)
    (h : SeedsInFront n s.datum) (ht : ∀ d ∈ s.datum.drop n, d.status ≠ Status.hidden) :
    (∀ d ∈ (lifecycle m s ev).1.datum.drop n, d.status ≠ Status.hidden) ∧
    (((lifecycle m s ev).1.datum.drop n).map Data.id).Sublist
      ((s.datum.drop n).map Data.id ++ (lifecyclePass m s ev).datumToAdd.map Data.id) := by
  have hn := seedsInFront_le_length n s.datum h
  have hpass : lifecyclePass m s ev =
      lifecycleLoop s ev (associate m ev s.datum).1 (exponentialDecay m s ev)
        (associate m ev s.datum).2 0 s.idOffset (s.datum.take n ++ s.datum.drop n) := by
    rw [List.take_append_drop]
    rfl
  rw [lifecycleLoop_append] at hpass
  have hlen := lifecycleLoop_hidden_length s ev (associate m ev s.datum).1
    (exponentialDecay m s ev) (associate m ev s.datum).2 (s.datum.take n)
    (seedsInFront_take_hidden n s.datum h n (le_refl n)) 0 s.idOffset
  rw [List.length_take, Nat.min_eq_left hn] at hlen
  obtain ⟨h1, h2, h3⟩ := lifecycleLoop_tracked s ev (associate m ev s.datum).1
    (exponentialDecay m s ev) (associate m ev s.datum).2 (s.datum.drop n) ht
    (0 + (lifecycleLoop s ev (associate m ev s.datum).1 (exponentialDecay m s ev)
      (associate m ev s.datum).2 0 s.idOffset (s.datum.take n)).datum.length)
    (lifecycleLoop s ev (associate m ev s.datum).1 (exponentialDecay m s ev)
      (associate m ev s.datum).2 0 s.idOffset (s.datum.take n)).idOffset
  have hsp := lifecycleLoop_spawned_promoted s ev (associate m ev s.datum).1
    (exponentialDecay m s ev) (associate m ev s.datum).2 (s.datum.take n) 0 s.idOffset
  have hdatum : (lifecycle m s ev).1.datum = (lifecyclePass m s ev).datum
      ++ (lifecyclePass m s ev).datumToAdd := rfl
  rw [hdatum, hpass]
  simp only [Pass.append, h1, List.append_nil, List.append_assoc]
  rw [List.drop_left' hlen]
  constructor
  · intro d hd
    rcases List.mem_append.mp hd with hd | hd
    · exact h2 d hd
    · rw [hsp d hd]
      decide
  · rw [List.map_append]
    exact List.Sublist.append h3 (List.Sublist.refl _)

theorem process_tail (m : Libm α) (s : TrackBlobs α) (ev : Event α) (n : Nat)
    (h : SeedsInFront n s.datum) (ht : ∀ d ∈ s.datum.drop n, d.status ≠ Status.hidden) :
    (∀ d ∈ (process m s ev).1.datum.drop n, d.status ≠ Status.hidden) ∧
    (((process m s ev).1.datum.drop n).map Data.id).Sublist
      ((s.datum.drop n).map Data.id ++ (lifecyclePass m s ev).datumToAdd.map Data.id) := by
  obtain ⟨h1, h2⟩ := lifecycle_tail m s ev n h ht
  have hp : (process m s ev).1.datum = (pairwise m (lifecycle m s ev).1).datum := rfl
  obtain ⟨hid, hst⟩ := pairwise_map_id m (lifecycle m s ev).1
  rw [hp]
  constructor
  · intro d hd
    have hm : d.status ∈ ((pairwise m (lifecycle m s ev).1).datum.drop n).map Data.status :=
      List.mem_map_of_mem _ hd
    rw [List.map_drop, hst, ← List.map_drop] at hm
    obtain ⟨e, he, hes⟩ := List.mem_map.mp hm
    rw [← hes]
    exact h1 e he
  · rw [List.map_drop, hid, ← List.map_drop]
    exact h2

/-- Over a run: the seed slots stay in front, behind them there are only
promoted and demoted entries, and their ids are, in order, among the ids
handed out so far. -/
theorem run_tail (m : Libm α) (n : Nat) (evs : List (Event α)) :
    ∀ (s : TrackBlobs α) (ids : List Nat), SeedsInFront n s.datum →
      (∀ d ∈ s.datum.drop n, d.status ≠ Status.hidden) →
      ((s.datum.drop n).map Data.id).Sublist ids →
      (∀ d ∈ (run m s evs).1.datum.drop n, d.status ≠ Status.hidden) ∧
      (((run m s evs).1.datum.drop n).map Data.id).Sublist
        (ids ++ (spawnedBy m s evs).map Data.id) := by
  induction evs with
  | nil =>
    intro s ids _ ht hsub
    simp only [run, spawnedBy, List.map_nil, List.append_nil]
    exact ⟨ht, hsub⟩
  | cons ev rest ih =>
    intro s ids h ht hsub
    obtain ⟨h1, h2⟩ := process_tail m s ev n h ht
    have h3 := ih (process m s ev).1 (ids ++ (lifecyclePass m s ev).datumToAdd.map Data.id)
      (process_seedsInFront m s ev n h) h1
      (List.Sublist.trans h2 (List.Sublist.append hsub (List.Sublist.refl _)))
    simp only [run, spawnedBy, List.map_append]
    rw [← List.append_assoc]
    exact h3

theorem construct_tail (initialBlobs : List (Blob α)) (initialTimestamp : Int)
    (activityDecay minimumProbability promotionActivity deletionActivity meanInertia
      covarianceInertia repulsionStrength repulsionLength attractionStrength
      attractionResetDistance : α)
    (pairwiseCalculationsToSkip : Nat) (garbageStrength : α) (garbageSkipped : Nat) :
    (construct initialBlobs initialTimestamp activityDecay minimumProbability
        promotionActivity deletionActivity meanInertia covarianceInertia repulsionStrength
        repulsionLength attractionStrength attractionResetDistance pairwiseCalculationsToSkip
        garbageStrength garbageSkipped).datum.drop initialBlobs.length = [] := by
  apply List.drop_eq_nil_of_le
  simp [construct]

/-- While at most `2 ^ 64` entries have been spawned, the ids handed out are
`0, 1, 2, ...` in spawn order. -/
theorem spawnedBy_ids_range (m : Libm α) (s : TrackBlobs α) (evs : List (Event α))
    (h0 : s.idOffset = 0) (hfew : (spawnedBy m s evs).length ≤ sizeMax) :
    (spawnedBy m s evs).map Data.id = List.range (spawnedBy m s evs).length := by
  have hids := (run_ids m evs s (by rw [h0]; unfold sizeMax; norm_num)).2
  apply List.ext_getElem?
  intro i
  by_cases hi : i < (spawnedBy m s evs).length
  · rw [List.getElem?_map, List.getElem?_eq_getElem hi, List.getElem?_range hi]
    have := hids i _ (List.getElem?_eq_getElem hi)
    rw [h0, Nat.zero_add, Nat.mod_eq_of_lt (by omega)] at this
    simp [this]
  · rw [List.getElem?_eq_none (by simpa using hi), List.getElem?_eq_none (by simpa using hi)]

/-! ## Activities in every reachable state -/

theorem associate_nonneg (m : Libm α) (hpi : 0 ≤ m.pi) (ev : Event α) (datum : List (Data α)) :
    0 ≤ (associate m ev datum).1 := by
  unfold associate
  exact div_nonneg (associateLoop_ge m ev datum 0 0 datum.length).1
    (mul_nonneg (by norm_num) hpi)

theorem process_activity (m : Libm α) (hexp : ∀ z : α, 0 ≤ m.exp z) (hpi : 0 ≤ m.pi)
    (s : TrackBlobs α) (ev : Event α) (h : ∀ d ∈ s.datum, 0 ≤ d.activity) :
    ∀ d ∈ (process m s ev).1.datum, 0 ≤ d.activity := by
  have hl := lifecycleLoop_activity s ev (associate m ev s.datum).1 (exponentialDecay m s ev)
    (associate m ev s.datum).2 (associate_nonneg m hpi ev s.datum) (hexp _) s.datum h 0 s.idOffset
  have hp : (process m s ev).1.datum = (pairwise m (lifecycle m s ev).1).datum := rfl
  rw [hp]
  apply pairwise_activity
  intro d hd
  have hdatum : (lifecycle m s ev).1.datum = (lifecyclePass m s ev).datum
      ++ (lifecyclePass m s ev).datumToAdd := rfl
  rw [hdatum] at hd
  rcases List.mem_append.mp hd with hd | hd
  · exact hl.1 d hd
  · exact hl.2 d hd

theorem run_activity (m : Libm α) (hexp : ∀ z : α, 0 ≤ m.exp z) (hpi : 0 ≤ m.pi)
    (evs : List (Event α)) : ∀ (s : TrackBlobs α), (∀ d ∈ s.datum, 0 ≤ d.activity) →
    ∀ d ∈ (run m s evs).1.datum, 0 ≤ d.activity := by
  induction evs with
  | nil => intro s h; exact h
  | cons ev rest ih =>
    intro s h
    exact ih (process m s ev).1 (process_activity m hexp hpi s ev h)

/-! ## Spawned ids in spawn order -/

/-- C11: The ids given to spawned entries are strictly increasing in spawn
order: while the engine has spawned at most `2 ^ 64` entries since its
construction, the entry spawned `i`-th (counting from 0, over all calls,
deleted entries included) has id `i`, so of two spawned entries the later one
has the greater id. -/
theorem spawned_ids_increasing (m : Libm α)
    (initialBlobs : List (Blob α)) (initialTimestamp : Int)
    (activityDecay minimumProbability promotionActivity deletionActivity meanInertia
      covarianceInertia repulsionStrength repulsionLength attractionStrength
      attractionResetDistance : α)
    (pairwiseCalculationsToSkip : Nat) (garbageStrength : α) (garbageSkipped : Nat)
    (evs : List (Event α))
    (hfew : (spawnedBy m (construct initialBlobs initialTimestamp activityDecay
        minimumProbability promotionActivity deletionActivity meanInertia covarianceInertia
        repulsionStrength repulsionLength attractionStrength attractionResetDistance
        pairwiseCalculationsToSkip garbageStrength garbageSkipped) evs).length ≤ sizeMax)
    (i j : Nat) (ei ej : Data α) (hij : i < j)
    (hi : (spawnedBy m (construct initialBlobs initialTimestamp activityDecay
        minimumProbability promotionActivity deletionActivity meanInertia covarianceInertia
        repulsionStrength repulsionLength attractionStrength attractionResetDistance
        pairwiseCalculationsToSkip garbageStrength garbageSkipped) evs)[i]? = some ei)
    (hj : (spawnedBy m (construct initialBlobs initialTimestamp activityDecay
        minimumProbability promotionActivity deletionActivity meanInertia covarianceInertia
        repulsionStrength repulsionLength attractionStrength attractionResetDistance
        pairwiseCalculationsToSkip garbageStrength garbageSkipped) evs)[j]? = some ej) :
    ei.id = i ∧ ej.id = j ∧ ei.id < ej.id := by
  have h0 : (construct initialBlobs initialTimestamp activityDecay
        minimumProbability promotionActivity deletionActivity meanInertia covarianceInertia
        repulsionStrength repulsionLength attractionStrength attractionResetDistance
        pairwiseCalculationsToSkip garbageStrength garbageSkipped).idOffset = 0 := rfl
  have hids := (run_ids m evs _ (by rw [h0]; unfold sizeMax; norm_num)).2
  have hjl : j < sizeMax := by
    have := (List.getElem?_eq_some_iff.mp hj).1
    omega
  have e1 := hids i ei hi
  have e2 := hids j ej hj
  rw [h0, Nat.zero_add, Nat.mod_eq_of_lt (by omega)] at e1
  rw [h0, Nat.zero_add, Nat.mod_eq_of_lt hjl] at e2
  exact ⟨e1, e2, by omega⟩

theorem spawned_ids_increasing_witness :
    (⟨0, blobA, 1 / (2 * Real.pi), Status.promoted⟩ : Data ℝ).id = 0 ∧
    (⟨1, blobB, Real.exp (-2) / (2 * Real.pi), Status.promoted⟩ : Data ℝ).id = 1 ∧
    (⟨0, blobA, 1 / (2 * Real.pi), Status.promoted⟩ : Data ℝ).id
      < (⟨1, blobB, Real.exp (-2) / (2 * Real.pi), Status.promoted⟩ : Data ℝ).id :=
  spawned_ids_increasing (⟨Real.exp, Real.sqrt, Real.pi⟩ : Libm ℝ)
    [seedBlob] 0 1 0 (1 / 100) (1 / 200) (1 / 2) (1 / 4) 1 1 1 (1 / 2) 2 0 0
    [eventOrigin, eventEast]
    (by
      have h := spawnedBy_two
      unfold exampleEngine at h
      rw [h]
      unfold sizeMax
      norm_num)
    0 1 _ _ (by decide)
    (by
      have h := spawnedBy_two
      unfold exampleEngine at h
      rw [h]
      rfl)
    (by
      have h := spawnedBy_two
      unfold exampleEngine at h
      rw [h]
      rfl)

/-! ## The constructor and the attraction strength -/

theorem construct_attractionStrength (initialBlobs : List (Blob α)) (initialTimestamp : Int)
    (activityDecay minimumProbability promotionActivity deletionActivity meanInertia
      covarianceInertia repulsionStrength repulsionLength attractionStrength
      attractionResetDistance : α)
    (pairwiseCalculationsToSkip : Nat) (garbageStrength : α) (garbageSkipped : Nat) :
    (construct initialBlobs initialTimestamp activityDecay minimumProbability
        promotionActivity deletionActivity meanInertia covarianceInertia repulsionStrength
        repulsionLength attractionStrength attractionResetDistance pairwiseCalculationsToSkip
        garbageStrength garbageSkipped).attractionStrength = garbageStrength :=
  rfl

/-- C17: The attraction strength stored by the constructor is not the
caller's argument: constructed with `attractionStrength = 1` in memory that
held `0`, the engine stores `0`. -/
theorem attraction_strength_not_stored :
    (construct [seedBlob] 0 1 0 (1 / 100) (1 / 200) (1 / 2) (1 / 4) 1 1 (1 : ℝ) (1 / 2) 0
        (0 : ℝ) 0).attractionStrength = 0 ∧
    (construct [seedBlob] 0 1 0 (1 / 100) (1 / 200) (1 / 2) (1 / 4) 1 1 (1 : ℝ) (1 / 2) 0
        (0 : ℝ) 0).attractionStrength ≠ 1 := by
  rw [construct_attractionStrength]
  exact ⟨rfl, zero_ne_one⟩

/-! ## The density of an isotropic blob -/

theorem candidate_isotropic (m : Libm α) (hsqrt : ∀ z : α, 0 ≤ z → m.sqrt (z ^ 2) = z)
    (ev : Event α) (b : Blob α) (v : α) (hv : 0 < v)
    (hx : b.squaredSigmaX = v) (hy : b.squaredSigmaY = v) (hxy : b.sigmaXY = 0) :
    probabilityCandidate m ev b
      = m.exp (-((ev.x - b.x) ^ 2 + (ev.y - b.y) ^ 2) / (2 * v)) / v := by
  have hv0 : v ≠ 0 := ne_of_gt hv
  have hdet : determinant b = v ^ 2 := by
    unfold determinant
    rw [hx, hy, hxy]
    ring
  unfold probabilityCandidate
  simp only [hdet, hx, hy, hxy, hsqrt v (le_of_lt hv)]
  congr 2
  field_simp
  ring

/-- C19: For an isotropic blob (`squaredSigmaX = squaredSigmaY = v > 0`,
`sigmaXY = 0`) the normalized association density is
`exp(-(dx² + dy²) / (2·v)) / (2·π·v)`: this is the candidate of the blob
divided by `2π`, the specification's density, and the probability the
association returns for a population of that one entry. -/
theorem isotropic_density_closed_form (m : Libm α)
    (hsqrt : ∀ z : α, 0 ≤ z → m.sqrt (z ^ 2) = z) (hexp : ∀ z : α, 0 < m.exp z)
    (ev : Event α) (d : Data α) (v : α) (hv : 0 < v)
    (hx : d.blob.squaredSigmaX = v) (hy : d.blob.squaredSigmaY = v)
    (hxy : d.blob.sigmaXY = 0) :
    probabilityCandidate m ev d.blob / (2 * m.pi)
      = m.exp (-((ev.x - d.blob.x) ^ 2 + (ev.y - d.blob.y) ^ 2) / (2 * v)) / (2 * m.pi * v) ∧
    gaussianDensity m ev d.blob
      = m.exp (-((ev.x - d.blob.x) ^ 2 + (ev.y - d.blob.y) ^ 2) / (2 * v)) / (2 * m.pi * v) ∧
    associate m ev [d]
      = (m.exp (-((ev.x - d.blob.x) ^ 2 + (ev.y - d.blob.y) ^ 2) / (2 * v)) / (2 * m.pi * v),
          0) := by
  have hc := candidate_isotropic m hsqrt ev d.blob v hv hx hy hxy
  have h1 : probabilityCandidate m ev d.blob / (2 * m.pi)
      = m.exp (-((ev.x - d.blob.x) ^ 2 + (ev.y - d.blob.y) ^ 2) / (2 * v)) / (2 * m.pi * v) := by
    rw [hc, div_div, mul_comm v]
  have hpos : probabilityCandidate m ev d.blob > 0 := by
    rw [hc]
    exact div_pos (hexp _) hv
  refine ⟨h1, ?_, ?_⟩
  · rw [gaussianDensity_eq, h1]
  · unfold associate
    simp only [associateLoop, if_pos hpos, h1]

theorem isotropic_density_closed_form_witness :
    associate (⟨Real.exp, Real.sqrt, Real.pi⟩ : Libm ℝ) eventEast [seedSlot]
      = (Real.exp (-(((eventEast : Event ℝ).x - (seedSlot : Data ℝ).blob.x) ^ 2
          + ((eventEast : Event ℝ).y - (seedSlot : Data ℝ).blob.y) ^ 2) / (2 * 1))
            / (2 * Real.pi * 1), 0) :=
  (isotropic_density_closed_form (⟨Real.exp, Real.sqrt, Real.pi⟩ : Libm ℝ)
    (fun z hz => Real.sqrt_sq hz) Real.exp_pos eventEast seedSlot 1 one_pos rfl rfl rfl).2.2

/-! ## The cadence of the correction pass -/

theorem lifecycle_counters (m : Libm α) (s : TrackBlobs α) (ev : Event α) :
    (lifecycle m s ev).1.skippedEvents = s.skippedEvents ∧
    (lifecycle m s ev).1.pairwiseCalculationsToSkip = s.pairwiseCalculationsToSkip :=
  ⟨rfl, rfl⟩

theorem process_skippedEvents (m : Libm α) (s : TrackBlobs α) (ev : Event α) :
    (process m s ev).1.skippedEvents =
      (if s.skippedEvents ≥ s.pairwiseCalculationsToSkip then 0 else s.skippedEvents + 1) ∧
    (process m s ev).1.pairwiseCalculationsToSkip = s.pairwiseCalculationsToSkip := by
  unfold process pairwise
  simp only [(lifecycle_counters m s ev).1, (lifecycle_counters m s ev).2]
  split_ifs <;> exact ⟨rfl, rfl⟩

/-- With a counter `_skippedEvents` that is at most `k`, the call number
`n + 1` runs the correction pass exactly when `k + 1` divides the counter plus
`n + 1`. -/
theorem cadence_of_counter (m : Libm α) (evs : List (Event α)) : ∀ (s : TrackBlobs α),
    s.skippedEvents ≤ s.pairwiseCalculationsToSkip → ∀ (n : Nat) (b : Bool),
    (cadence m s evs)[n]? = some b →
      b = decide ((s.pairwiseCalculationsToSkip + 1) ∣ (s.skippedEvents + n + 1)) := by
  induction evs with
  | nil =>
    intro s _ n b h
    simp [cadence] at h
  | cons ev rest ih =>
    intro s hs n b h
    unfold cadence at h
    cases n with
    | zero =>
      simp only [List.getElem?_cons_zero, Option.some.injEq] at h
      rw [← h]
      by_cases hk : s.skippedEvents ≥ s.pairwiseCalculationsToSkip
      · have he : s.skippedEvents = s.pairwiseCalculationsToSkip := le_antisymm hs hk
        simp [he]
      · have hlt : s.skippedEvents + 1 < s.pairwiseCalculationsToSkip + 1 := by omega
        have hnd : ¬ (s.pairwiseCalculationsToSkip + 1) ∣ (s.skippedEvents + 0 + 1) := by
          intro hd
          have := Nat.le_of_dvd (by omega) hd
          omega
        simp [hk, hnd]
    | succ n =>
      simp only [List.getElem?_cons_succ] at h
      have hp := process_skippedEvents m s ev
      have hle : (process m s ev).1.skippedEvents
          ≤ (process m s ev).1.pairwiseCalculationsToSkip := by
        rw [hp.1, hp.2]
        split_ifs <;> omega
      have := ih (process m s ev).1 hle n b h
      rw [this, hp.1, hp.2]
      by_cases hk : s.skippedEvents ≥ s.pairwiseCalculationsToSkip
      · have he : s.skippedEvents = s.pairwiseCalculationsToSkip := le_antisymm hs hk
        rw [if_pos hk, he]
        have e : s.pairwiseCalculationsToSkip + (n + 1) + 1
            = (0 + n + 1) + (s.pairwiseCalculationsToSkip + 1) := by omega
        rw [e]
        exact decide_eq_decide.mpr Nat.dvd_add_self_right.symm
      · rw [if_neg hk]
        have e : s.skippedEvents + (n + 1) + 1 = s.skippedEvents + 1 + n + 1 := by omega
        rw [e]

/-- When the memory of `_skippedEvents` held `0` at construction, the
correction pass runs in the call number `n + 1` exactly when `k + 1` divides
`n + 1`. -/
theorem cadence_of_zeroed_counter (m : Libm α)
    (initialBlobs : List (Blob α)) (initialTimestamp : Int)
    (activityDecay minimumProbability promotionActivity deletionActivity meanInertia
      covarianceInertia repulsionStrength repulsionLength attractionStrength
      attractionResetDistance : α)
    (k : Nat) (garbageStrength : α) (evs : List (Event α)) (n : Nat) (b : Bool)
    (h : (cadence m (construct initialBlobs initialTimestamp activityDecay minimumProbability
        promotionActivity deletionActivity meanInertia covarianceInertia repulsionStrength
        repulsionLength attractionStrength attractionResetDistance k garbageStrength 0)
        evs)[n]? = some b) :
    b = decide ((k + 1) ∣ (n + 1)) := by
  have := cadence_of_counter m evs _ (Nat.zero_le _) n b h
  simpa [construct] using this

/-- C13: The cadence of the correction pass depends on the uninitialised
member `_skippedEvents`: an engine constructed with
`pairwiseCalculationsToSkip = 1` in memory where `_skippedEvents` held `1`
runs the correction pass in its first call and not in its second, whereas
the multiples of `k + 1 = 2` are the second call and not the first. -/
theorem correction_cadence_uninitialised :
    cadence (⟨Real.exp, Real.sqrt, Real.pi⟩ : Libm ℝ)
        (construct [seedBlob] 0 1 0 (1 / 100) (1 / 200) (1 / 2) (1 / 4) 1 1 1 (1 / 2) 1 0 1)
        [eventOrigin, eventEast] = [true, false] := by
  have hp := process_skippedEvents (⟨Real.exp, Real.sqrt, Real.pi⟩ : Libm ℝ)
    (construct [seedBlob] 0 1 0 (1 / 100) (1 / 200) (1 / 2) (1 / 4) 1 1 1 (1 / 2) 1 0 1)
    eventOrigin
  have h1 : (construct [seedBlob] 0 1 0 (1 / 100) (1 / 200) (1 / 2) (1 / 4) 1 1 (1 : ℝ) (1 / 2)
      1 0 1).skippedEvents = 1 := rfl
  have h2 : (construct [seedBlob] 0 1 0 (1 / 100) (1 / 200) (1 / 2) (1 / 4) 1 1 (1 : ℝ) (1 / 2)
      1 0 1).pairwiseCalculationsToSkip = 1 := rfl
  rw [h1, h2] at hp
  simp only [cadence, hp.1, hp.2, h1, h2]
  decide

/-! ## Seed slots and tracked entries in every reachable state -/

/-- C20: In every state reached from a freshly constructed engine with `N`
seed blobs, the first `N` entries of the population are the seed slots in
their construction order, each hidden with its index as id (so no seed slot
is ever removed), and every entry behind them is promoted or demoted. -/
theorem seed_slots_in_front (m : Libm α)
    (initialBlobs : List (Blob α)) (initialTimestamp : Int)
    (activityDecay minimumProbability promotionActivity deletionActivity meanInertia
      covarianceInertia repulsionStrength repulsionLength attractionStrength
      attractionResetDistance : α)
    (pairwiseCalculationsToSkip : Nat) (garbageStrength : α) (garbageSkipped : Nat)
    (evs : List (Event α)) :
    (∀ j, j < initialBlobs.length →
      ∃ d, (run m (construct initialBlobs initialTimestamp activityDecay minimumProbability
        promotionActivity deletionActivity meanInertia covarianceInertia repulsionStrength
        repulsionLength attractionStrength attractionResetDistance pairwiseCalculationsToSkip
        garbageStrength garbageSkipped) evs).1.datum[j]? = some d ∧
        d.id = j ∧ d.status = Status.hidden) ∧
    (∀ j d, initialBlobs.length ≤ j →
      (run m (construct initialBlobs initialTimestamp activityDecay minimumProbability
        promotionActivity deletionActivity meanInertia covarianceInertia repulsionStrength
        repulsionLength attractionStrength attractionResetDistance pairwiseCalculationsToSkip
        garbageStrength garbageSkipped) evs).1.datum[j]? = some d →
      d.status = Status.promoted ∨ d.status = Status.demoted) := by
  have hseed := construct_seedsInFront initialBlobs initialTimestamp activityDecay
    minimumProbability promotionActivity deletionActivity meanInertia covarianceInertia
    repulsionStrength repulsionLength attractionStrength attractionResetDistance
    pairwiseCalculationsToSkip garbageStrength garbageSkipped
  have htail := construct_tail initialBlobs initialTimestamp activityDecay
    minimumProbability promotionActivity deletionActivity meanInertia covarianceInertia
    repulsionStrength repulsionLength attractionStrength attractionResetDistance
    pairwiseCalculationsToSkip garbageStrength garbageSkipped
  refine ⟨(run_seedsInFront m _ evs _ hseed).1, ?_⟩
  intro j d hj hd
  have ht := (run_tail m initialBlobs.length evs _ [] hseed
    (by rw [htail]; intro d hd; cases hd) (by rw [htail]; exact List.Sublist.refl _)).1
  have hmem : d ∈ (run m (construct initialBlobs initialTimestamp activityDecay
      minimumProbability promotionActivity deletionActivity meanInertia covarianceInertia
      repulsionStrength repulsionLength attractionStrength attractionResetDistance
      pairwiseCalculationsToSkip garbageStrength garbageSkipped) evs).1.datum.drop
        initialBlobs.length := by
    have e : j = initialBlobs.length + (j - initialBlobs.length) := by omega
    rw [e, ← List.getElem?_drop] at hd
    exact List.getElem?_mem hd
  have := ht d hmem
  cases hst : d.status
  · exact absurd hst this
  · exact Or.inl rfl
  · exact Or.inr rfl

theorem seed_slots_in_front_witness :
    (⟨1, blobB, Real.exp (-2) / (2 * Real.pi), Status.promoted⟩ : Data ℝ).status
        = Status.promoted ∨
      (⟨1, blobB, Real.exp (-2) / (2 * Real.pi), Status.promoted⟩ : Data ℝ).status
        = Status.demoted :=
  (seed_slots_in_front (⟨Real.exp, Real.sqrt, Real.pi⟩ : Libm ℝ)
    [seedBlob] 0 1 0 (1 / 100) (1 / 200) (1 / 2) (1 / 4) 1 1 1 (1 / 2) 2 0 0
    [eventOrigin, eventEast]).2 2 _ (by decide)
    (by
      have h := run_two 2 (le_refl 2)
      unfold exampleEngine at h
      rw [h]
      rfl)

/-! ## The ids in the population -/

/-- C12 (counterexample): after its first event the example engine holds the
seed slot with id 0 and the first spawned entry, also with id 0: the ids of
the population are not pairwise distinct. -/
theorem spawned_id_equals_seed_id :
    (run (⟨Real.exp, Real.sqrt, Real.pi⟩ : Libm ℝ) (exampleEngine 10) [eventOrigin]).1.datum
      = [seedSlot, ⟨0, blobA, 1 / (2 * Real.pi), Status.promoted⟩] ∧
    ¬ ((run (⟨Real.exp, Real.sqrt, Real.pi⟩ : Libm ℝ) (exampleEngine 10)
        [eventOrigin]).1.datum.map Data.id).Nodup := by
  have h : (run (⟨Real.exp, Real.sqrt, Real.pi⟩ : Libm ℝ) (exampleEngine 10)
      [eventOrigin]).1.datum
      = [seedSlot, ⟨0, blobA, 1 / (2 * Real.pi), Status.promoted⟩] := by
    simp only [run]
    rw [exampleEngine_eq, process_origin 10 0 (by decide)]
    rfl
  rw [h]
  refine ⟨rfl, ?_⟩
  simp [seedSlot]

/-- C12 (amended): in every state reached from a freshly constructed engine
with `N` seed blobs, the seed slots carry the ids `0, ..., N - 1`, and, while
at most `2 ^ 64` entries have been spawned, the entries behind the seed slots
(the spawned entries still in the population) have pairwise distinct ids.
Seed ids and spawned ids are counted separately, both from 0. -/
theorem population_ids_distinct_by_kind (m : Libm α)
    (initialBlobs : List (Blob α)) (initialTimestamp : Int)
    (activityDecay minimumProbability promotionActivity deletionActivity meanInertia
      covarianceInertia repulsionStrength repulsionLength attractionStrength
      attractionResetDistance : α)
    (pairwiseCalculationsToSkip : Nat) (garbageStrength : α) (garbageSkipped : Nat)
    (evs : List (Event α))
    (hfew : (spawnedBy m (construct initialBlobs initialTimestamp activityDecay
        minimumProbability promotionActivity deletionActivity meanInertia covarianceInertia
        repulsionStrength repulsionLength attractionStrength attractionResetDistance
        pairwiseCalculationsToSkip garbageStrength garbageSkipped) evs).length ≤ sizeMax) :
    ((run m (construct initialBlobs initialTimestamp activityDecay minimumProbability
        promotionActivity deletionActivity meanInertia covarianceInertia repulsionStrength
        repulsionLength attractionStrength attractionResetDistance pairwiseCalculationsToSkip
        garbageStrength garbageSkipped) evs).1.datum.take initialBlobs.length).map Data.id
      = List.range initialBlobs.length ∧
    (((run m (construct initialBlobs initialTimestamp activityDecay minimumProbability
        promotionActivity deletionActivity meanInertia covarianceInertia repulsionStrength
        repulsionLength attractionStrength attractionResetDistance pairwiseCalculationsToSkip
        garbageStrength garbageSkipped) evs).1.datum.drop initialBlobs.length).map
          Data.id).Nodup := by
  have hseed := construct_seedsInFront initialBlobs initialTimestamp activityDecay
    minimumProbability promotionActivity deletionActivity meanInertia covarianceInertia
    repulsionStrength repulsionLength attractionStrength attractionResetDistance
    pairwiseCalculationsToSkip garbageStrength garbageSkipped
  have htail := construct_tail initialBlobs initialTimestamp activityDecay
    minimumProbability promotionActivity deletionActivity meanInertia covarianceInertia
    repulsionStrength repulsionLength attractionStrength attractionResetDistance
    pairwiseCalculationsToSkip garbageStrength garbageSkipped
  have hs := (run_seedsInFront m _ evs _ hseed).1
  constructor
  · apply List.ext_getElem?
    intro j
    by_cases hj : j < initialBlobs.length
    · obtain ⟨d, hd, hid, _⟩ := hs j hj
      rw [List.getElem?_map, List.getElem?_take_of_lt hj, hd, List.getElem?_range hj]
      simp [hid]
    · have hn := seedsInFront_le_length _ _ hs
      rw [List.getElem?_eq_none (by simp; omega), List.getElem?_eq_none (by simp; omega)]
  · have hsub := (run_tail m initialBlobs.length evs _ [] hseed
      (by rw [htail]; intro d hd; cases hd) (by rw [htail]; exact List.Sublist.refl _)).2
    rw [List.nil_append, spawnedBy_ids_range m _ evs rfl hfew] at hsub
    exact List.Nodup.sublist hsub (List.nodup_range _)

theorem population_ids_distinct_by_kind_witness :
    ((afterTwo (⟨Real.exp, Real.sqrt, Real.pi⟩ : Libm ℝ)).datum.take 1).map Data.id
      = List.range 1 ∧
    (((afterTwo (⟨Real.exp, Real.sqrt, Real.pi⟩ : Libm ℝ)).datum.drop 1).map Data.id).Nodup :=
  population_ids_distinct_by_kind (⟨Real.exp, Real.sqrt, Real.pi⟩ : Libm ℝ)
    [seedBlob] 0 1 0 (1 / 100) (1 / 200) (1 / 2) (1 / 4) 1 1 1 (1 / 2) 2 0 0
    [eventOrigin, eventEast]
    (by
      have h := spawnedBy_two
      unfold exampleEngine at h
      rw [h]
      unfold sizeMax
      norm_num)

/-! ## Activities are never negative -/

/-- Over exact arithmetic (an `exp` whose values are finite and positive) and
for an `Event` with a signed timestamp: in every state reached from a freshly
constructed engine by any sequence of events, every entry of the population
has a non-negative activity.  In `double` this needs a finite factor at
line 111; where `std::exp` overflows there, the product with an activity 0 is
NaN. -/
theorem activity_nonneg (m : Libm α) (hexp : ∀ z : α, 0 < m.exp z) (hpi : 0 < m.pi)
    (initialBlobs : List (Blob α)) (initialTimestamp : Int)
    (activityDecay minimumProbability promotionActivity deletionActivity meanInertia
      covarianceInertia repulsionStrength repulsionLength attractionStrength
      attractionResetDistance : α)
    (pairwiseCalculationsToSkip : Nat) (garbageStrength : α) (garbageSkipped : Nat)
    (evs : List (Event α)) (d : Data α)
    (hd : d ∈ (run m (construct initialBlobs initialTimestamp activityDecay minimumProbability
        promotionActivity deletionActivity meanInertia covarianceInertia repulsionStrength
        repulsionLength attractionStrength attractionResetDistance pairwiseCalculationsToSkip
        garbageStrength garbageSkipped) evs).1.datum) :
    0 ≤ d.activity := by
  refine run_activity m (fun z => le_of_lt (hexp z)) (le_of_lt hpi) evs _ ?_ d hd
  intro e he
  simp only [construct, List.mem_map] at he
  obtain ⟨i, _, hi⟩ := he
  rw [← hi]

/-- The same at an instance: the entry spawned by the second event of the
example run. -/
theorem activity_nonneg_witness :
    0 ≤ (⟨1, blobB, Real.exp (-2) / (2 * Real.pi), Status.promoted⟩ : Data ℝ).activity :=
  activity_nonneg (⟨Real.exp, Real.sqrt, Real.pi⟩ : Libm ℝ) Real.exp_pos Real.pi_pos
    [seedBlob] 0 1 0 (1 / 100) (1 / 200) (1 / 2) (1 / 4) 1 1 1 (1 / 2) 2 0 0
    [eventOrigin, eventEast] _
    (by
      have h := run_two 2 (le_refl 2)
      unfold exampleEngine at h
      rw [h]
      simp [track])

/-! ## The repulsion deltas as sums over the other entries -/

theorem addAt_length (v : List α) (i : Nat) (a : α) : (addAt v i a).length = v.length := by
  simp [addAt]

theorem addAt_getD (v : List α) (i : Nat) (a : α) (j : Nat) (hi : i < v.length) :
    (addAt v i a).getD j 0 = v.getD j 0 + (if j = i then a else 0) := by
  unfold addAt
  simp only [List.getD_eq_getElem?_getD, List.getElem?_set]
  by_cases h : i = j
  · subst h
    simp [hi]
  · have h2 : ¬ j = i := fun e => h e.symm
    simp [h, h2]

theorem addAt_addAt_getD (v : List α) (i j : Nat) (a b : α) (p : Nat) (hi : i < v.length)
    (hj : j < v.length) :
    (addAt (addAt v i a) j b).getD p 0
      = v.getD p 0 + (if p = i then a else 0) + (if p = j then b else 0) := by
  rw [addAt_getD (addAt v i a) j b p (by rw [addAt_length]; exact hj), addAt_getD v i a p hi]

theorem sq_add_sq_eq_zero_iff (a b : α) : a ^ 2 + b ^ 2 = 0 ↔ a = 0 ∧ b = 0 := by
  constructor
  · intro h
    have ha : a ^ 2 = 0 := by nlinarith [sq_nonneg a, sq_nonneg b]
    have hb : b ^ 2 = 0 := by nlinarith [sq_nonneg a, sq_nonneg b]
    exact ⟨pow_eq_zero_iff (by norm_num) |>.mp ha, pow_eq_zero_iff (by norm_num) |>.mp hb⟩
  · rintro ⟨rfl, rfl⟩
    norm_num

/-- The body of the inner loop adds to the slot of each entry of the pair the
repulsion term of that entry by the other one. -/
theorem repulsePair_eq (m : Libm α) (s : TrackBlobs α) (i j : Nat) (a b : Data α)
    (ds : Deltas α) :
    repulsePair m s i j a b ds =
      { x := addAt (addAt ds.x i (repulsionTerm m s a b).1) j (repulsionTerm m s b a).1
        y := addAt (addAt ds.y i (repulsionTerm m s a b).2) j (repulsionTerm m s b a).2 } := by
  have hdist : m.sqrt ((b.blob.x - a.blob.x) ^ 2 + (b.blob.y - a.blob.y) ^ 2)
      = m.sqrt ((a.blob.x - b.blob.x) ^ 2 + (a.blob.y - b.blob.y) ^ 2) := by
    congr 1
    ring
  have hab : share a b = (if a.activity ^ 2 + b.activity ^ 2 = 0 then 0
      else b.activity ^ 2 / (a.activity ^ 2 + b.activity ^ 2)) := by
    unfold share
    by_cases h : a.activity = 0 ∧ b.activity = 0
    · rw [if_pos h, if_pos ((sq_add_sq_eq_zero_iff _ _).mpr h)]
    · rw [if_neg h, if_neg (fun e => h ((sq_add_sq_eq_zero_iff _ _).mp e))]
  have hba : share b a = (if a.activity ^ 2 + b.activity ^ 2 = 0 then 0
      else a.activity ^ 2 / (a.activity ^ 2 + b.activity ^ 2)) := by
    unfold share
    by_cases h : b.activity = 0 ∧ a.activity = 0
    · rw [if_pos h, if_pos ((sq_add_sq_eq_zero_iff _ _).mpr ⟨h.2, h.1⟩)]
    · rw [if_neg h, if_neg (fun e => h ((sq_add_sq_eq_zero_iff _ _).mp e).symm),
        add_comm (b.activity ^ 2)]
  unfold repulsePair repulsionTerm hypot
  simp only [hdist, hab, hba]
  have hneg : ∀ c u v : α, -(c * (u - v)) = c * (v - u) := fun c u v => by ring
  simp only [hneg]

/-- The inner loop for the entry `a` at position `i` over the entries `rest`
standing from position `j` on. -/
theorem repulseInner_getD (m : Libm α) (s : TrackBlobs α) (i : Nat) (a : Data α) (n : Nat)
    (hi : i < n) (rest : List (Data α)) : ∀ (j : Nat) (ds : Deltas α),
    ds.x.length = n → ds.y.length = n → j + rest.length ≤ n →
    (repulseInner m s i a j rest ds).x.length = n ∧
    (repulseInner m s i a j rest ds).y.length = n ∧
    ∀ p, (repulseInner m s i a j rest ds).x.getD p 0 = ds.x.getD p 0
        + (if p = i then (rest.map (fun o => (repulsionTerm m s a o).1)).sum else 0)
        + (if j ≤ p then (rest[p - j]?).elim 0 (fun o => (repulsionTerm m s o a).1) else 0) ∧
      (repulseInner m s i a j rest ds).y.getD p 0 = ds.y.getD p 0
        + (if p = i then (rest.map (fun o => (repulsionTerm m s a o).2)).sum else 0)
        + (if j ≤ p then (rest[p - j]?).elim 0 (fun o => (repulsionTerm m s o a).2) else 0) := by
  induction rest with
  | nil =>
    intro j ds hx hy _
    simp [repulseInner, hx, hy]
  | cons b rest ih =>
    intro j ds hx hy hj
    simp only [List.length_cons] at hj
    have hjn : j < n := by omega
    unfold repulseInner
    rw [repulsePair_eq]
    obtain ⟨h1, h2, h3⟩ := ih (j + 1)
      { x := addAt (addAt ds.x i (repulsionTerm m s a b).1) j (repulsionTerm m s b a).1
        y := addAt (addAt ds.y i (repulsionTerm m s a b).2) j (repulsionTerm m s b a).2 }
      (by simp [addAt_length, hx]) (by simp [addAt_length, hy]) (by omega)
    refine ⟨h1, h2, ?_⟩
    intro p
    obtain ⟨hpx, hpy⟩ := h3 p
    rw [hpx, hpy]
    simp only [addAt_addAt_getD ds.x i j _ _ p (by rw [hx]; exact hi) (by rw [hx]; exact hjn),
      addAt_addAt_getD ds.y i j _ _ p (by rw [hy]; exact hi) (by rw [hy]; exact hjn),
      List.map_cons, List.sum_cons]
    have hcase : (p = j ∧ (b :: rest)[p - j]? = some b) ∨
        (j + 1 ≤ p ∧ (b :: rest)[p - j]? = rest[p - (j + 1)]?) ∨ p < j := by
      rcases Nat.lt_trichotomy p j with h | h | h
      · exact Or.inr (Or.inr h)
      · subst h
        exact Or.inl ⟨rfl, by simp⟩
      · refine Or.inr (Or.inl ⟨h, ?_⟩)
        have e : p - j = (p - (j + 1)) + 1 := by omega
        rw [e, List.getElem?_cons_succ]
    rcases hcase with ⟨h, hb⟩ | ⟨h, hb⟩ | h
    · rw [hb]
      subst h
      simp only [le_refl, if_true, Option.elim, Nat.not_succ_le_self, if_false]
      constructor <;> split_ifs <;> ring
    · rw [hb]
      have hne : ¬ p = j := by omega
      have hle : j ≤ p := by omega
      simp only [if_neg hne, if_pos h, if_pos hle]
      constructor <;> split_ifs <;> ring
    · have hne : ¬ p = j := by omega
      have h1 : ¬ j + 1 ≤ p := by omega
      have h2 : ¬ j ≤ p := by omega
      simp only [if_neg hne, if_neg h1, if_neg h2]
      constructor <;> split_ifs <;> ring

/-- The outer loop from position `i` on, over the entries `l` standing there:
each of them gets the sum of its repulsion terms over the others of `l`. -/
theorem repulseOuter_getD (m : Libm α) (s : TrackBlobs α) (l : List (Data α)) :
    ∀ (i : Nat) (ds : Deltas α),
    ds.x.length = i + l.length → ds.y.length = i + l.length →
    ∀ p, (repulseOuter m s i l ds).x.getD p 0 = ds.x.getD p 0
        + (if i ≤ p then (l[p - i]?).elim 0 (fun e => (repulsionDelta m s l (p - i) e).1)
          else 0) ∧
      (repulseOuter m s i l ds).y.getD p 0 = ds.y.getD p 0
        + (if i ≤ p then (l[p - i]?).elim 0 (fun e => (repulsionDelta m s l (p - i) e).2)
          else 0) := by
  induction l with
  | nil =>
    intro i ds _ _ p
    simp [repulseOuter]
  | cons a rest ih =>
    intro i ds hx hy p
    simp only [List.length_cons] at hx hy
    obtain ⟨h1, h2, h3⟩ := repulseInner_getD m s i a (i + (rest.length + 1)) (by omega) rest
      (i + 1) ds hx hy (by omega)
    obtain ⟨hpx, hpy⟩ := ih (i + 1) (repulseInner m s i a (i + 1) rest ds)
      (by rw [h1]; omega) (by rw [h2]; omega) p
    obtain ⟨hqx, hqy⟩ := h3 p
    unfold repulseOuter
    rw [hpx, hpy, hqx, hqy]
    rcases Nat.lt_trichotomy p i with h | h | h
    · have hne : ¬ p = i := by omega
      have n1 : ¬ i + 1 ≤ p := by omega
      have n2 : ¬ i ≤ p := by omega
      simp only [if_neg hne, if_neg n1, if_neg n2, add_zero, and_self]
    · subst h
      simp only [if_true, Nat.not_succ_le_self, if_false, le_refl, Nat.sub_self,
        List.getElem?_cons_zero, Option.elim, repulsionDelta, List.eraseIdx_cons_zero, add_zero,
        and_self]
    · have hne : ¬ p = i := by omega
      have hle : i + 1 ≤ p := h
      have hle2 : i ≤ p := by omega
      have e : p - i = (p - (i + 1)) + 1 := by omega
      simp only [if_neg hne, if_pos hle, if_pos hle2, add_zero]
      rw [e, List.getElem?_cons_succ]
      cases hr : rest[p - (i + 1)]? with
      | none => simp only [Option.elim, add_zero, and_self]
      | some e =>
        simp only [Option.elim, repulsionDelta, List.eraseIdx_cons_succ, List.map_cons,
          List.sum_cons]
        constructor <;> ring

/-- With exact squares: for every entry `e` of the population, at position
`p`, the repulsion delta that the correction pass accumulates in `e`'s slot is
the sum, over every other entry `o`, of `repulsionStrength · exp(-dist(e, o) /
repulsionLength) · share(o) · (pos(e) - pos(o))`, where `share(o) = act(o)² /
(act(e)² + act(o)²)` (0 when both activities are 0) and all positions and
activities are those at the start of the pass.  Where the squares underflow
in `double` the test `activitySum == 0` holds for nonzero activities too;
`repulseOuterWith` takes the squares as computed. -/
theorem repulsion_delta_sum (m : Libm α) (s : TrackBlobs α) (p : Nat) (e : Data α)
    (he : s.datum[p]? = some e) :
    (repulseOuter m s 0 s.datum
        ⟨List.replicate s.datum.length 0, List.replicate s.datum.length 0⟩).x.getD p 0
      = (repulsionDelta m s s.datum p e).1 ∧
    (repulseOuter m s 0 s.datum
        ⟨List.replicate s.datum.length 0, List.replicate s.datum.length 0⟩).y.getD p 0
      = (repulsionDelta m s s.datum p e).2 := by
  obtain ⟨hx, hy⟩ := repulseOuter_getD m s s.datum 0
    ⟨List.replicate s.datum.length 0, List.replicate s.datum.length 0⟩
    (by simp) (by simp) p
  rw [hx, hy]
  simp only [Nat.zero_le, if_true, Nat.sub_zero, he, Option.elim]
  have hz : (List.replicate s.datum.length (0 : α)).getD p 0 = 0 := by
    simp only [List.getD_eq_getElem?_getD, List.getElem?_replicate]
    split_ifs <;> rfl
  rw [hz, zero_add, zero_add]
  exact ⟨rfl, rfl⟩

/-! ## The correction pass on an engine with attraction -/

theorem lifecycleLoop_strength (s : TrackBlobs α) (g : α) (ev : Event α) (p decay : α)
    (winner : Nat) (l : List (Data α)) : ∀ (pos off : Nat),
    lifecycleLoop { s with attractionStrength := g } ev p decay winner pos off l
      = lifecycleLoop s ev p decay winner pos off l := by
  induction l with
  | nil => intro pos off; rfl
  | cons d rest ih =>
    intro pos off
    have h1 : decayUpdate { s with attractionStrength := g } ev p decay (decide (pos = winner)) d
        = decayUpdate s ev p decay (decide (pos = winner)) d := rfl
    have h2 : ∀ x, transition { s with attractionStrength := g } off x = transition s off x :=
      fun _ => rfl
    have h3 : ∀ x, updateNotes { s with attractionStrength := g } p (decide (pos = winner)) x
        = updateNotes s p (decide (pos = winner)) x := fun _ => rfl
    simp only [lifecycleLoop, h1, h2, h3, ih]

/-- The lifecycle block does not read `_attractionStrength`. -/
theorem lifecyclePass_strength (m : Libm α) (s : TrackBlobs α) (g : α) (ev : Event α) :
    lifecyclePass m { s with attractionStrength := g } ev = lifecyclePass m s ev := by
  unfold lifecyclePass
  rw [lifecycleLoop_strength]
  rfl

theorem attractEngine_eq : (attractEngine : TrackBlobs α) = attractTrack [seedSlot] 0 := by
  simp [attractEngine, attractTrack, construct, track, seedSlot, seedBlob, List.range_succ]

theorem associate_east_fresh :
    associate (⟨Real.exp, Real.sqrt, Real.pi⟩ : Libm ℝ) eventEast [seedSlot]
      = (Real.exp (-2) / (2 * Real.pi), 0) := by
  have h0 : probabilityCandidate (⟨Real.exp, Real.sqrt, Real.pi⟩ : Libm ℝ) eventEast
      (seedSlot : Data ℝ).blob > 0 := by
    rw [show (seedSlot : Data ℝ).blob = seedBlob from rfl, candidate_east_seed]
    exact Real.exp_pos _
  simp only [associate, associateLoop, if_pos h0]
  rw [show (seedSlot : Data ℝ).blob = seedBlob from rfl, candidate_east_seed]

theorem pass_east_fresh (k sk : Nat) :
    lifecyclePass (⟨Real.exp, Real.sqrt, Real.pi⟩ : Libm ℝ) (track k sk 0 [seedSlot] 0) eventEast =
      { datum := [seedSlot]
        datumToAdd := [⟨0, blobB, Real.exp (-2) / (2 * Real.pi), Status.promoted⟩]
        idOffset := 1
        notes := [Notification.promoted 0 blobB] } := by
  have hp := density_east_gt
  have hp0 : (0 : ℝ) < Real.exp (-2) / (2 * Real.pi) := by linarith
  have hdecay : exponentialDecay (⟨Real.exp, Real.sqrt, Real.pi⟩ : Libm ℝ)
      (track k sk 0 [seedSlot] 0) eventEast = Real.exp (-3) := by
    simp [exponentialDecay, track, eventEast]
  have hu : updates (track k sk 0 [seedSlot] 0 : TrackBlobs ℝ)
      (Real.exp (-2) / (2 * Real.pi)) true = true := by
    simp only [updates, track, Bool.true_and, decide_eq_true_eq]
    exact hp0
  have hd : decayUpdate (track k sk 0 [seedSlot] 0 : TrackBlobs ℝ) eventEast
      (Real.exp (-2) / (2 * Real.pi)) (Real.exp (-3)) true seedSlot
      = ⟨0, blobB, Real.exp (-2) / (2 * Real.pi), Status.hidden⟩ := by
    rw [decayUpdate_of_updates _ _ _ _ _ _ hu]
    simp only [updateBlob, track, eventEast, seedSlot, seedBlob, blobB]
    norm_num
  have ht := transition_hidden_promote (track k sk 0 [seedSlot] 0 : TrackBlobs ℝ) 0
    ⟨0, blobB, Real.exp (-2) / (2 * Real.pi), Status.hidden⟩ rfl hp
  unfold lifecyclePass
  rw [show (track k sk 0 [seedSlot] 0 : TrackBlobs ℝ).datum = [seedSlot] from rfl,
    associate_east_fresh, hdecay]
  simp only [lifecycleLoop, decide_True, track_idOffset, hd, ht, updateNotes, hu]
  simp [sizeMax, seedSlot]

theorem lifecycle_attractEngine_east :
    (lifecycle (⟨Real.exp, Real.sqrt, Real.pi⟩ : Libm ℝ) attractEngine eventEast).1
      = attractTrack [seedSlot, ⟨0, blobB, Real.exp (-2) / (2 * Real.pi), Status.promoted⟩] 1 := by
  rw [attractEngine_eq]
  unfold lifecycle attractTrack
  simp only [lifecyclePass_strength, pass_east_fresh]
  rfl

/-- The repulsion deltas of the two entries left by the lifecycle block. -/
theorem repulse_attractEngine_east :
    repulseOuter (⟨Real.exp, Real.sqrt, Real.pi⟩ : Libm ℝ)
        (attractTrack [seedSlot, ⟨0, blobB, Real.exp (-2) / (2 * Real.pi), Status.promoted⟩] 1) 0
        [seedSlot, ⟨0, blobB, Real.exp (-2) / (2 * Real.pi), Status.promoted⟩]
        ⟨List.replicate 2 0, List.replicate 2 0⟩
      = ⟨[-Real.exp (-1), 0], [0, 0]⟩ := by
  have hq : (Real.exp (-2) / (2 * Real.pi)) ^ 2 ≠ 0 :=
    pow_ne_zero 2 (div_ne_zero (Real.exp_ne_zero _) (mul_ne_zero two_ne_zero Real.pi_ne_zero))
  simp only [repulseOuter, repulseInner, repulsePair, hypot, attractTrack, track, seedSlot,
    seedBlob, blobB, addAt, List.replicate]
  norm_num [hq]

theorem correct_attractEngine_east :
    correct (⟨Real.exp, Real.sqrt, Real.pi⟩ : Libm ℝ)
        (attractTrack [seedSlot, ⟨0, blobB, Real.exp (-2) / (2 * Real.pi), Status.promoted⟩] 1)
      = [⟨0, ⟨-Real.exp (-1) - 1, 0, 1, 0, 1⟩, 0, Status.hidden⟩,
          ⟨0, blobB, Real.exp (-2) / (2 * Real.pi), Status.promoted⟩] := by
  unfold correct
  simp only [show (attractTrack [seedSlot,
      ⟨0, blobB, Real.exp (-2) / (2 * Real.pi), Status.promoted⟩] 1 : TrackBlobs ℝ).datum
      = [seedSlot, ⟨0, blobB, Real.exp (-2) / (2 * Real.pi), Status.promoted⟩] from rfl,
    List.length_cons, List.length_nil, Nat.zero_add, Nat.reduceAdd, repulse_attractEngine_east]
  have h1 : ¬ ((0 : ℝ) ^ 2 + 0 ^ 2 > (1 / 2) ^ 2) := by norm_num
  have h2 : (1 : ℝ) ^ 2 + 0 ^ 2 > (1 / 2) ^ 2 := by norm_num
  simp only [attract, attractTrack, track, seedSlot, seedBlob, blobB, h1, h2, if_true, if_false,
    applyDeltas, addAt, List.getD_cons_zero, List.set_cons_zero, List.getD_eq_getElem?_getD,
    List.getElem?_cons_zero, List.getElem?_cons_succ, Option.getD_some, Nat.zero_add]
  norm_num
  ring

theorem process_attractEngine_east :
    (process (⟨Real.exp, Real.sqrt, Real.pi⟩ : Libm ℝ) attractEngine eventEast).1.datum
      = [⟨0, ⟨-Real.exp (-1) - 1, 0, 1, 0, 1⟩, 0, Status.hidden⟩,
          ⟨0, blobB, Real.exp (-2) / (2 * Real.pi), Status.promoted⟩] := by
  rw [process_datum_of_correct _ _ _ (by simp [attractEngine, construct]),
    lifecycle_attractEngine_east, correct_attractEngine_east]

/-- The same at an instance: the second entry of a population of two. -/
theorem repulsion_delta_sum_witness :
    (repulseOuter (⟨Real.exp, Real.sqrt, Real.pi⟩ : Libm ℝ)
        (attractTrack [seedSlot, ⟨0, blobB, Real.exp (-2) / (2 * Real.pi), Status.promoted⟩] 1) 0
        (attractTrack [seedSlot,
          ⟨0, blobB, Real.exp (-2) / (2 * Real.pi), Status.promoted⟩] 1 : TrackBlobs ℝ).datum
        ⟨List.replicate (attractTrack [seedSlot,
            ⟨0, blobB, Real.exp (-2) / (2 * Real.pi), Status.promoted⟩] 1
              : TrackBlobs ℝ).datum.length 0,
          List.replicate (attractTrack [seedSlot,
            ⟨0, blobB, Real.exp (-2) / (2 * Real.pi), Status.promoted⟩] 1
              : TrackBlobs ℝ).datum.length 0⟩).x.getD 1 0
      = (repulsionDelta (⟨Real.exp, Real.sqrt, Real.pi⟩ : Libm ℝ)
          (attractTrack [seedSlot,
            ⟨0, blobB, Real.exp (-2) / (2 * Real.pi), Status.promoted⟩] 1)
          (attractTrack [seedSlot,
            ⟨0, blobB, Real.exp (-2) / (2 * Real.pi), Status.promoted⟩] 1 : TrackBlobs ℝ).datum
          1 ⟨0, blobB, Real.exp (-2) / (2 * Real.pi), Status.promoted⟩).1 ∧
    (repulseOuter (⟨Real.exp, Real.sqrt, Real.pi⟩ : Libm ℝ)
        (attractTrack [seedSlot, ⟨0, blobB, Real.exp (-2) / (2 * Real.pi), Status.promoted⟩] 1) 0
        (attractTrack [seedSlot,
          ⟨0, blobB, Real.exp (-2) / (2 * Real.pi), Status.promoted⟩] 1 : TrackBlobs ℝ).datum
        ⟨List.replicate (attractTrack [seedSlot,
            ⟨0, blobB, Real.exp (-2) / (2 * Real.pi), Status.promoted⟩] 1
              : TrackBlobs ℝ).datum.length 0,
          List.replicate (attractTrack [seedSlot,
            ⟨0, blobB, Real.exp (-2) / (2 * Real.pi), Status.promoted⟩] 1
              : TrackBlobs ℝ).datum.length 0⟩).y.getD 1 0
      = (repulsionDelta (⟨Real.exp, Real.sqrt, Real.pi⟩ : Libm ℝ)
          (attractTrack [seedSlot,
            ⟨0, blobB, Real.exp (-2) / (2 * Real.pi), Status.promoted⟩] 1)
          (attractTrack [seedSlot,
            ⟨0, blobB, Real.exp (-2) / (2 * Real.pi), Status.promoted⟩] 1 : TrackBlobs ℝ).datum
          1 ⟨0, blobB, Real.exp (-2) / (2 * Real.pi), Status.promoted⟩).2 :=
  repulsion_delta_sum (⟨Real.exp, Real.sqrt, Real.pi⟩ : Libm ℝ)
    (attractTrack [seedSlot, ⟨0, blobB, Real.exp (-2) / (2 * Real.pi), Status.promoted⟩] 1)
    1 ⟨0, blobB, Real.exp (-2) / (2 * Real.pi), Status.promoted⟩ rfl

/-! ## Attraction and reset on the example engine -/

/-- C15: On the engine `attractEngine` (stored attraction strength 1, reset
distance 1/2, a correction pass at every event) the event `eventEast` spawns
the entry with id 0 at position 1 of the population, at (1, 0), outside the
reset distance, from the seed at (0, 0).  Its repulsion delta is 0 and its
attraction would be `1 · (0 - 1) = -1`, yet after the call its mean is still
(1, 0): the attraction was added to the slot of index `id = 0`, the seed
slot. -/
theorem attraction_added_to_other_entry :
    (lifecycle (⟨Real.exp, Real.sqrt, Real.pi⟩ : Libm ℝ) attractEngine eventEast).1.datum
      = [seedSlot, ⟨0, ⟨1, 0, 1, 0, 1 / 4⟩, Real.exp (-2) / (2 * Real.pi), Status.promoted⟩] ∧
    (lifecycle (⟨Real.exp, Real.sqrt, Real.pi⟩ : Libm ℝ) attractEngine
      eventEast).1.attractionStrength = 1 ∧
    (lifecycle (⟨Real.exp, Real.sqrt, Real.pi⟩ : Libm ℝ) attractEngine
      eventEast).1.attractionResetDistanceSquared = (1 / 2) ^ 2 ∧
    (repulseOuter (⟨Real.exp, Real.sqrt, Real.pi⟩ : Libm ℝ)
        (lifecycle (⟨Real.exp, Real.sqrt, Real.pi⟩ : Libm ℝ) attractEngine eventEast).1 0
        (lifecycle (⟨Real.exp, Real.sqrt, Real.pi⟩ : Libm ℝ) attractEngine eventEast).1.datum
        ⟨List.replicate 2 0, List.replicate 2 0⟩).x.getD 1 0 = 0 ∧
    (process (⟨Real.exp, Real.sqrt, Real.pi⟩ : Libm ℝ) attractEngine eventEast).1.datum
      = [⟨0, ⟨-Real.exp (-1) - 1, 0, 1, 0, 1⟩, 0, Status.hidden⟩,
          ⟨0, ⟨1, 0, 1, 0, 1 / 4⟩, Real.exp (-2) / (2 * Real.pi), Status.promoted⟩] := by
  rw [process_attractEngine_east, lifecycle_attractEngine_east]
  refine ⟨rfl, rfl, rfl, ?_, rfl⟩
  rw [show (attractTrack [seedSlot,
      ⟨0, blobB, Real.exp (-2) / (2 * Real.pi), Status.promoted⟩] 1 : TrackBlobs ℝ).datum
      = [seedSlot, ⟨0, blobB, Real.exp (-2) / (2 * Real.pi), Status.promoted⟩] from rfl,
    repulse_attractEngine_east]
  rfl

/-- C16: On the engine `attractEngine` the seed slot is at the origin, inside
the reset distance, when the correction pass of the call for `eventEast`
runs; its seed's mean is (0, 0) and its repulsion delta is `-exp(-1)` in x,
yet after the call its mean is `-exp(-1) - 1` in x: the attraction of the
spawned entry with id 0 was added to the seed slot, the slot of index 0. -/
theorem reset_mean_gets_foreign_attraction :
    (lifecycle (⟨Real.exp, Real.sqrt, Real.pi⟩ : Libm ℝ) attractEngine eventEast).1.datum[0]?
      = some seedSlot ∧
    ((attractEngine : TrackBlobs ℝ).initialBlobs.getD 0 Blob.zero).x = 0 ∧
    (repulseOuter (⟨Real.exp, Real.sqrt, Real.pi⟩ : Libm ℝ)
        (lifecycle (⟨Real.exp, Real.sqrt, Real.pi⟩ : Libm ℝ) attractEngine eventEast).1 0
        (lifecycle (⟨Real.exp, Real.sqrt, Real.pi⟩ : Libm ℝ) attractEngine eventEast).1.datum
        ⟨List.replicate 2 0, List.replicate 2 0⟩).x.getD 0 0 = -Real.exp (-1) ∧
    (process (⟨Real.exp, Real.sqrt, Real.pi⟩ : Libm ℝ) attractEngine eventEast).1.datum[0]?
      = some ⟨0, ⟨-Real.exp (-1) - 1, 0, 1, 0, 1⟩, 0, Status.hidden⟩ ∧
    -Real.exp (-1) - 1 ≠ 0 + -Real.exp (-1) := by
  rw [process_attractEngine_east, lifecycle_attractEngine_east]
  refine ⟨rfl, rfl, ?_, rfl, ?_⟩
  · rw [show (attractTrack [seedSlot,
        ⟨0, blobB, Real.exp (-2) / (2 * Real.pi), Status.promoted⟩] 1 : TrackBlobs ℝ).datum
        = [seedSlot, ⟨0, blobB, Real.exp (-2) / (2 * Real.pi), Status.promoted⟩] from rfl,
      repulse_attractEngine_east]
    rfl
  · intro h
    linarith

/-! ## Unsigned arithmetic without overflow -/

theorem wrapAdd_of_lt (a b : Nat) (h : a + b < sizeMax) : wrapAdd a b = a + b :=
  Nat.mod_eq_of_lt h

theorem wrapMul_of_lt (a b : Nat) (h : a * b < sizeMax) : wrapMul a b = a * b :=
  Nat.mod_eq_of_lt h

theorem wrapSub_of_le (a b : Nat) (hb : b ≤ a) (ha : a < sizeMax) : wrapSub a b = a - b := by
  unfold wrapSub
  rw [Nat.mod_eq_of_lt (lt_of_le_of_lt hb ha)]
  have e : a + sizeMax - b = (a - b) + sizeMax := by omega
  rw [e, Nat.add_mod_right, Nat.mod_eq_of_lt (by omega)]

theorem wrapAdd_lt (a b : Nat) : wrapAdd a b < sizeMax :=
  Nat.mod_lt _ (by unfold sizeMax; norm_num)

theorem wrapSub_lt (a b : Nat) : wrapSub a b < sizeMax :=
  Nat.mod_lt _ (by unfold sizeMax; norm_num)

theorem wrapMul_lt (a b : Nat) : wrapMul a b < sizeMax :=
  Nat.mod_lt _ (by unfold sizeMax; norm_num)

/-! ## SelectRectangle -/

/-- C22: For every event, `SelectRectangle<left, bottom, width, height>`
(its far edges `left + width` and `bottom + height` representable) calls its
handler exactly once, with the event itself, when `left <= x < left + width`
and `bottom <= y < bottom + height`, and not at all otherwise; a second
identical `SelectRectangle` fed with its output drops nothing. -/
theorem selectRectangle_window (left bottom width height : Nat) (ev : PixelEvent)
    (hx : left + width < sizeMax) (hy : bottom + height < sizeMax) :
    (left ≤ ev.x ∧ ev.x < left + width ∧ bottom ≤ ev.y ∧ ev.y < bottom + height →
      selectRectangle left bottom width height ev = [ev]) ∧
    (¬ (left ≤ ev.x ∧ ev.x < left + width ∧ bottom ≤ ev.y ∧ ev.y < bottom + height) →
      selectRectangle left bottom width height ev = []) ∧
    (selectRectangle left bottom width height ev).flatMap (selectRectangle left bottom width height)
      = selectRectangle left bottom width height ev := by
  unfold selectRectangle
  rw [wrapAdd_of_lt _ _ hx, wrapAdd_of_lt _ _ hy]
  refine ⟨fun h => if_pos h, fun h => if_neg h, ?_⟩
  by_cases h : left ≤ ev.x ∧ ev.x < left + width ∧ bottom ≤ ev.y ∧ ev.y < bottom + height
  · simp [if_pos h]
  · simp [if_neg h]

theorem selectRectangle_window_witness :
    (10 ≤ (⟨12, 25, 7⟩ : PixelEvent).x ∧ (⟨12, 25, 7⟩ : PixelEvent).x < 10 + 5 ∧
        20 ≤ (⟨12, 25, 7⟩ : PixelEvent).y ∧ (⟨12, 25, 7⟩ : PixelEvent).y < 20 + 6 →
      selectRectangle 10 20 5 6 ⟨12, 25, 7⟩ = [⟨12, 25, 7⟩]) ∧
    (¬ (10 ≤ (⟨12, 25, 7⟩ : PixelEvent).x ∧ (⟨12, 25, 7⟩ : PixelEvent).x < 10 + 5 ∧
        20 ≤ (⟨12, 25, 7⟩ : PixelEvent).y ∧ (⟨12, 25, 7⟩ : PixelEvent).y < 20 + 6) →
      selectRectangle 10 20 5 6 ⟨12, 25, 7⟩ = []) ∧
    (selectRectangle 10 20 5 6 ⟨12, 25, 7⟩).flatMap (selectRectangle 10 20 5 6)
      = selectRectangle 10 20 5 6 ⟨12, 25, 7⟩ :=
  selectRectangle_window 10 20 5 6 ⟨12, 25, 7⟩ (by unfold sizeMax; norm_num)
    (by unfold sizeMax; norm_num)

/-! ## MirrorY -/

/-- C23: For every event with `0 <= y < height`, `MirrorY<height>` calls its
handler exactly once, with the event whose `y` is `height - 1 - y` (again
below `height`) and whose other fields are unchanged; a second `MirrorY`
fed with that event returns the original event. -/
theorem mirrorY_involution (height : Nat) (ev : PixelEvent) (hh : height < sizeMax)
    (hy : ev.y < height) :
    mirrorY height ev = [⟨ev.x, height - 1 - ev.y, ev.timestamp⟩] ∧
    height - 1 - ev.y < height ∧
    (mirrorY height ev).flatMap (mirrorY height) = [ev] := by
  have h1 : wrapSub height 1 = height - 1 := by
    unfold wrapSub
    have e1 : 1 % sizeMax = 1 := Nat.mod_eq_of_lt (by unfold sizeMax; norm_num)
    have e : height + sizeMax - 1 = (height - 1) + sizeMax := by omega
    rw [e1, e, Nat.add_mod_right, Nat.mod_eq_of_lt (by omega)]
  have h2 : wrapSub (height - 1) ev.y = height - 1 - ev.y :=
    wrapSub_of_le _ _ (by omega) (by omega)
  have h3 : wrapSub (height - 1) (height - 1 - ev.y) = ev.y := by
    rw [wrapSub_of_le _ _ (by omega) (by omega)]
    omega
  have hm : mirrorY height ev = [⟨ev.x, height - 1 - ev.y, ev.timestamp⟩] := by
    unfold mirrorY
    rw [h1, h2]
  refine ⟨hm, by omega, ?_⟩
  rw [hm]
  simp only [List.flatMap_cons, List.flatMap_nil, List.append_nil, mirrorY, h1, h3]

theorem mirrorY_involution_witness :
    mirrorY 240 ⟨3, 10, 5⟩ = [⟨(⟨3, 10, 5⟩ : PixelEvent).x, 240 - 1 - (⟨3, 10, 5⟩ : PixelEvent).y,
      (⟨3, 10, 5⟩ : PixelEvent).timestamp⟩] ∧
    240 - 1 - (⟨3, 10, 5⟩ : PixelEvent).y < 240 ∧
    (mirrorY 240 ⟨3, 10, 5⟩).flatMap (mirrorY 240) = [⟨3, 10, 5⟩] :=
  mirrorY_involution 240 ⟨3, 10, 5⟩ (by unfold sizeMax; norm_num) (by decide)

/-! ## MaskIsolated: the indices of the grid -/

theorem mem_guardedRead (timestamps : List Nat) (t : Nat) (guard : Bool) (j i : Nat)
    (h : i ∈ (guardedRead timestamps t guard j).2) : guard = true ∧ i = j := by
  unfold guardedRead at h
  cases guard
  · simp at h
  · simpa using h

theorem mem_shortCircuitOr (a b : Bool × List Nat) (i : Nat) (h : i ∈ (shortCircuitOr a b).2) :
    i ∈ a.2 ∨ i ∈ b.2 := by
  unfold shortCircuitOr at h
  split_ifs at h
  · exact Or.inl h
  · exact List.mem_append.mp h

/-- The cells `operator()` touches: the cell of the event, and the neighbours
whose guard holds. -/
theorem mem_accessed (s : MaskIsolated) (ev : PixelEvent) (i : Nat) (h : i ∈ s.accessed ev) :
    i = s.index ev ∨ (ev.x > 0 ∧ i = wrapSub (s.index ev) 1) ∨
      (ev.x < wrapSub s.width 1 ∧ i = wrapAdd (s.index ev) 1) ∨
      (ev.y > 0 ∧ i = wrapSub (s.index ev) s.width) ∨
      (ev.y < wrapSub s.height 1 ∧ i = wrapAdd (s.index ev) s.width) := by
  unfold MaskIsolated.accessed at h
  rcases List.mem_cons.mp h with h | h
  · exact Or.inl h
  · unfold MaskIsolated.test at h
    rcases mem_shortCircuitOr _ _ _ h with h | h
    · obtain ⟨hg, hi⟩ := mem_guardedRead _ _ _ _ _ h
      exact Or.inr (Or.inl ⟨of_decide_eq_true hg, hi⟩)
    · rcases mem_shortCircuitOr _ _ _ h with h | h
      · obtain ⟨hg, hi⟩ := mem_guardedRead _ _ _ _ _ h
        exact Or.inr (Or.inr (Or.inl ⟨of_decide_eq_true hg, hi⟩))
      · rcases mem_shortCircuitOr _ _ _ h with h | h
        · obtain ⟨hg, hi⟩ := mem_guardedRead _ _ _ _ _ h
          exact Or.inr (Or.inr (Or.inr (Or.inl ⟨of_decide_eq_true hg, hi⟩)))
        · obtain ⟨hg, hi⟩ := mem_guardedRead _ _ _ _ _ h
          exact Or.inr (Or.inr (Or.inr (Or.inr ⟨of_decide_eq_true hg, hi⟩)))

/-- The arithmetic of `operator()` on an event inside a grid whose number of
cells is representable: nothing wraps around. -/
theorem index_in_grid (s : MaskIsolated) (ev : PixelEvent) (hx : ev.x < s.width)
    (hy : ev.y < s.height) (hfit : s.width * s.height < sizeMax) :
    s.index ev = ev.x + ev.y * s.width ∧ ev.y * s.width + s.width ≤ s.width * s.height ∧
    wrapSub s.width 1 = s.width - 1 ∧ wrapSub s.height 1 = s.height - 1 ∧
    s.width < sizeMax ∧ s.height < sizeMax := by
  have h1 : (ev.y + 1) * s.width ≤ s.height * s.width := Nat.mul_le_mul_right _ hy
  have h2 : ev.y * s.width + s.width ≤ s.width * s.height := by
    rw [Nat.mul_comm s.width]
    rw [Nat.add_mul, Nat.one_mul] at h1
    exact h1
  have hh : 1 * s.width ≤ s.height * s.width := Nat.mul_le_mul_right _ (by omega)
  have hw : s.width * 1 ≤ s.width * s.height := Nat.mul_le_mul_left _ (by omega)
  rw [Nat.one_mul, Nat.mul_comm] at hh
  rw [Nat.mul_one] at hw
  have hwl : s.width < sizeMax := by omega
  have hhl : s.height < sizeMax := by
    have : s.height * 1 ≤ s.height * s.width := Nat.mul_le_mul_left _ (by omega)
    rw [Nat.mul_one, Nat.mul_comm] at this
    omega
  have e1 : (1 : Nat) < sizeMax := by unfold sizeMax; norm_num
  refine ⟨?_, h2, ?_, ?_, hwl, hhl⟩
  · unfold MaskIsolated.index
    rw [wrapMul_of_lt _ _ (by omega), wrapAdd_of_lt _ _ (by omega)]
  · exact wrapSub_of_le _ _ (by omega) hwl
  · exact wrapSub_of_le _ _ (by omega) hhl

/-- C28: For every event with `0 <= x < width` and `0 <= y < height`, every
element of the timestamp grid that `MaskIsolated` writes or reads while it
handles the event (the cell `x + y * width`, and the neighbours `index - 1`,
`index + 1`, `index - width`, `index + width` whose guard holds) has an index
below `width * height`. -/
theorem maskIsolated_indices_in_grid (s : MaskIsolated) (ev : PixelEvent)
    (hx : ev.x < s.width) (hy : ev.y < s.height) (i : Nat) (hi : i ∈ s.accessed ev) :
    i < s.width * s.height := by
  by_cases hfit : s.width * s.height < sizeMax
  · obtain ⟨hidx, hrow, hw1, hh1, hwl, hhl⟩ := index_in_grid s ev hx hy hfit
    rcases mem_accessed s ev i hi with h | ⟨hg, h⟩ | ⟨hg, h⟩ | ⟨hg, h⟩ | ⟨hg, h⟩
    · rw [h, hidx]
      omega
    · rw [h, hidx, wrapSub_of_le _ _ (by omega) (by omega)]
      omega
    · rw [hw1] at hg
      rw [h, hidx, wrapAdd_of_lt _ _ (by omega)]
      omega
    · have hrow2 : 1 * s.width ≤ ev.y * s.width := Nat.mul_le_mul_right _ hg
      rw [Nat.one_mul] at hrow2
      rw [h, hidx, wrapSub_of_le _ _ (by omega) (by omega)]
      omega
    · rw [hh1] at hg
      have h2 : (ev.y + 2) * s.width ≤ s.height * s.width := Nat.mul_le_mul_right _ (by omega)
      rw [Nat.add_mul, Nat.mul_comm s.height] at h2
      rw [h, hidx, wrapAdd_of_lt _ _ (by omega)]
      omega
  · have hlt : i < sizeMax := by
      rcases mem_accessed s ev i hi with h | ⟨_, h⟩ | ⟨_, h⟩ | ⟨_, h⟩ | ⟨_, h⟩
      · rw [h]; exact wrapAdd_lt _ _
      · rw [h]; exact wrapSub_lt _ _
      · rw [h]; exact wrapAdd_lt _ _
      · rw [h]; exact wrapSub_lt _ _
      · rw [h]; exact wrapAdd_lt _ _
    omega

theorem maskIsolated_indices_in_grid_witness : 1 < 3 * 3 :=
  maskIsolated_indices_in_grid (MaskIsolated.construct 3 3 10) ⟨1, 1, 5⟩
    (by decide) (by decide) 1 (by decide)

/-! ## MaskIsolated: the events forwarded -/

theorem lastAt_append (history : List PixelEvent) (ev : PixelEvent) (x y : Nat) :
    lastAt (history ++ [ev]) x y
      = if ev.x = x ∧ ev.y = y then some ev else lastAt history x y := by
  unfold lastAt
  rw [List.filter_append]
  by_cases h : ev.x = x ∧ ev.y = y
  · rw [if_pos h]
    simp [List.filter_cons, h]
  · rw [if_neg h]
    simp [List.filter_cons, h]

theorem recentAt_eq (decay : Nat) (history : List PixelEvent) (x y t : Nat) :
    recentAt decay history x y t = decide (storedAt decay history x y > t) := by
  unfold recentAt storedAt
  cases lastAt history x y <;> simp

theorem cell_injective (w x y x2 y2 : Nat) (hx : x < w) (hx2 : x2 < w)
    (h : x + y * w = x2 + y2 * w) : x = x2 ∧ y = y2 := by
  have h1 : (x + y * w) % w = x := by
    rw [Nat.add_mul_mod_self_right, Nat.mod_eq_of_lt hx]
  have h2 : (x2 + y2 * w) % w = x2 := by
    rw [Nat.add_mul_mod_self_right, Nat.mod_eq_of_lt hx2]
  have hxx : x = x2 := by rw [← h1, ← h2, h]
  subst hxx
  have hw : 0 < w := by omega
  have h3 : y * w = y2 * w := by omega
  exact ⟨rfl, Nat.eq_of_mul_eq_mul_right hw h3⟩

theorem guardedRead_fst (timestamps : List Nat) (t : Nat) (guard : Bool) (i : Nat) :
    (guardedRead timestamps t guard i).1 = (guard && decide (timestamps.getD i 0 > t)) := by
  unfold guardedRead
  cases guard <;> simp

theorem shortCircuitOr_fst (a b : Bool × List Nat) :
    (shortCircuitOr a b).1 = (a.1 || b.1) := by
  unfold shortCircuitOr
  cases h : a.1 <;> simp [h]

theorem getD_set_ne (l : List Nat) (i j v : Nat) (h : i ≠ j) :
    (l.set i v).getD j 0 = l.getD j 0 := by
  simp only [List.getD_eq_getElem?_getD, List.getElem?_set_ne h]

theorem getD_set_self (l : List Nat) (i v : Nat) (h : i < l.length) :
    (l.set i v).getD i 0 = v := by
  simp [List.getD_eq_getElem?_getD, List.getElem?_set_self h]

theorem handle_gridHolds (s : MaskIsolated) (history : List PixelEvent) (ev : PixelEvent)
    (inv : GridHolds s history) (hx : ev.x < s.width) (hy : ev.y < s.height)
    (hfit : s.width * s.height < sizeMax) (ht : ev.timestamp + s.decay < sizeMax) :
    GridHolds (s.handle ev).1 (history ++ [ev]) := by
  obtain ⟨hidx, hrow, _, _, _, _⟩ := index_in_grid s ev hx hy hfit
  obtain ⟨hlen, hcells⟩ := inv
  have hin : s.index ev < s.timestamps.length := by
    rw [hlen, hidx]
    omega
  refine ⟨?_, ?_⟩
  · show (s.timestamps.set (s.index ev) (wrapAdd ev.timestamp s.decay)).length
      = s.width * s.height
    rw [List.length_set, hlen]
  · intro x y hxw hyh
    show (s.timestamps.set (s.index ev) (wrapAdd ev.timestamp s.decay)).getD
      (x + y * s.width) 0 = storedAt s.decay (history ++ [ev]) x y
    unfold storedAt
    rw [lastAt_append]
    by_cases h : ev.x = x ∧ ev.y = y
    · rw [if_pos h, ← h.1, ← h.2, ← hidx, getD_set_self _ _ _ hin, wrapAdd_of_lt _ _ ht]
    · rw [if_neg h, getD_set_ne]
      · exact hcells x y hxw hyh
      · rw [hidx]
        intro e
        exact h (cell_injective s.width ev.x ev.y x y hx hxw e)

/-- A read of the cell of a pixel other than the event's, after the write of
line 29. -/
theorem read_neighbour (s : MaskIsolated) (history : List PixelEvent) (ev : PixelEvent)
    (inv : GridHolds s history) (hx : ev.x < s.width) (hy : ev.y < s.height)
    (hfit : s.width * s.height < sizeMax) (nx ny : Nat) (hnx : nx < s.width)
    (hny : ny < s.height) (hne : ¬ (ev.x = nx ∧ ev.y = ny)) :
    (s.timestamps.set (s.index ev) (wrapAdd ev.timestamp s.decay)).getD (nx + ny * s.width) 0
      = storedAt s.decay history nx ny := by
  obtain ⟨hidx, _, _, _, _, _⟩ := index_in_grid s ev hx hy hfit
  rw [getD_set_ne]
  · exact inv.2 nx ny hnx hny
  · rw [hidx]
    intro e
    exact hne (cell_injective s.width ev.x ev.y nx ny hx hnx e)

theorem handle_forwards (s : MaskIsolated) (history : List PixelEvent) (ev : PixelEvent)
    (inv : GridHolds s history) (hx : ev.x < s.width) (hy : ev.y < s.height)
    (hfit : s.width * s.height < sizeMax) :
    (s.handle ev).2 = if supported s.width s.height s.decay history ev then [ev] else [] := by
  obtain ⟨hidx, hrow, hw1, hh1, hwl, hhl⟩ := index_in_grid s ev hx hy hfit
  have hleft : (decide (ev.x > 0) &&
      decide ((s.timestamps.set (s.index ev) (wrapAdd ev.timestamp s.decay)).getD
        (wrapSub (s.index ev) 1) 0 > ev.timestamp))
      = (decide (0 < ev.x) && recentAt s.decay history (ev.x - 1) ev.y ev.timestamp) := by
    by_cases hg : 0 < ev.x
    · have e : wrapSub (s.index ev) 1 = (ev.x - 1) + ev.y * s.width := by
        rw [hidx, wrapSub_of_le _ _ (by omega) (by omega)]
        omega
      rw [e, read_neighbour s history ev inv hx hy hfit (ev.x - 1) ev.y (by omega) hy
        (by omega), recentAt_eq]
    · simp [hg]
  have hright : (decide (ev.x < wrapSub s.width 1) &&
      decide ((s.timestamps.set (s.index ev) (wrapAdd ev.timestamp s.decay)).getD
        (wrapAdd (s.index ev) 1) 0 > ev.timestamp))
      = (decide (ev.x + 1 < s.width) && recentAt s.decay history (ev.x + 1) ev.y ev.timestamp) := by
    rw [hw1]
    by_cases hg : ev.x + 1 < s.width
    · have e : wrapAdd (s.index ev) 1 = (ev.x + 1) + ev.y * s.width := by
        rw [hidx, wrapAdd_of_lt _ _ (by omega)]
        omega
      have hg2 : ev.x < s.width - 1 := by omega
      rw [e, read_neighbour s history ev inv hx hy hfit (ev.x + 1) ev.y hg hy
        (by omega), recentAt_eq]
      simp [hg, hg2]
    · have hg2 : ¬ ev.x < s.width - 1 := by omega
      simp [hg, hg2]
  have hdown : (decide (ev.y > 0) &&
      decide ((s.timestamps.set (s.index ev) (wrapAdd ev.timestamp s.decay)).getD
        (wrapSub (s.index ev) s.width) 0 > ev.timestamp))
      = (decide (0 < ev.y) && recentAt s.decay history ev.x (ev.y - 1) ev.timestamp) := by
    by_cases hg : 0 < ev.y
    · have hm : (ev.y - 1) * s.width + s.width = ev.y * s.width := by
        have : ev.y = (ev.y - 1) + 1 := by omega
        conv_rhs => rw [this, Nat.add_mul, Nat.one_mul]
      have e : wrapSub (s.index ev) s.width = ev.x + (ev.y - 1) * s.width := by
        rw [hidx, wrapSub_of_le _ _ (by omega) (by omega)]
        omega
      rw [e, read_neighbour s history ev inv hx hy hfit ev.x (ev.y - 1) hx (by omega)
        (by omega), recentAt_eq]
    · simp [hg]
  have hup : (decide (ev.y < wrapSub s.height 1) &&
      decide ((s.timestamps.set (s.index ev) (wrapAdd ev.timestamp s.decay)).getD
        (wrapAdd (s.index ev) s.width) 0 > ev.timestamp))
      = (decide (ev.y + 1 < s.height) && recentAt s.decay history ev.x (ev.y + 1) ev.timestamp) := by
    rw [hh1]
    by_cases hg : ev.y + 1 < s.height
    · have hm : (ev.y + 1) * s.width = ev.y * s.width + s.width := by
        rw [Nat.add_mul, Nat.one_mul]
      have h2 : (ev.y + 2) * s.width ≤ s.height * s.width := Nat.mul_le_mul_right _ (by omega)
      rw [Nat.add_mul, Nat.mul_comm s.height] at h2
      have e : wrapAdd (s.index ev) s.width = ev.x + (ev.y + 1) * s.width := by
        rw [hidx, wrapAdd_of_lt _ _ (by omega)]
        omega
      have hg2 : ev.y < s.height - 1 := by omega
      rw [e, read_neighbour s history ev inv hx hy hfit ev.x (ev.y + 1) hx hg
        (by omega), recentAt_eq]
      simp [hg, hg2]
    · have hg2 : ¬ ev.y < s.height - 1 := by omega
      simp [hg, hg2]
  have htest : (s.test (s.timestamps.set (s.index ev) (wrapAdd ev.timestamp s.decay)) ev).1
      = supported s.width s.height s.decay history ev := by
    unfold MaskIsolated.test supported
    simp only [shortCircuitOr_fst, guardedRead_fst, hleft, hright, hdown, hup, Bool.or_assoc]
  show (if (s.test (s.timestamps.set (s.index ev) (wrapAdd ev.timestamp s.decay)) ev).1 = true
    then [ev] else []) = _
  rw [htest]

theorem run_gridHolds (evs : List PixelEvent) : ∀ (s : MaskIsolated)
    (history : List PixelEvent), GridHolds s history →
    s.width * s.height < sizeMax → (∀ e ∈ evs, e.x < s.width ∧ e.y < s.height) →
    (∀ e ∈ evs, e.timestamp + s.decay < sizeMax) →
    s.run evs = forwardedAfter s.width s.height s.decay history evs := by
  induction evs with
  | nil => intro s history _ _ _ _; rfl
  | cons ev rest ih =>
    intro s history inv hfit hgrid hts
    obtain ⟨hx, hy⟩ := hgrid ev (List.mem_cons_self _ _)
    have hstep := handle_gridHolds s history ev inv hx hy hfit (hts ev (List.mem_cons_self _ _))
    have hrec := ih (s.handle ev).1 (history ++ [ev]) hstep hfit
      (fun e he => hgrid e (List.mem_cons_of_mem _ he))
      (fun e he => hts e (List.mem_cons_of_mem _ he))
    unfold MaskIsolated.run forwardedAfter
    rw [hrec, handle_forwards s history ev inv hx hy hfit]
    rfl

theorem construct_gridHolds (width height decay : Nat) (hfit : width * height < sizeMax) :
    GridHolds (MaskIsolated.construct width height decay) [] := by
  unfold GridHolds MaskIsolated.construct
  simp only [wrapMul_of_lt _ _ hfit, List.length_replicate, true_and]
  intro x y _ _
  simp only [List.getD_eq_getElem?_getD, List.getElem?_replicate, storedAt, lastAt,
    List.filter_nil, List.getLast?_nil]
  split_ifs <;> rfl

/-- C21: For a grid whose number of cells is representable and every sequence
of events inside it whose timestamps plus `decay` are representable,
`MaskIsolated` forwards an event to its handler, unchanged and once, exactly
when one of its 4-neighbour pixels inside the grid has received an event
before, the most recent one with a timestamp `t'` such that
`t' + decay > event.timestamp`; otherwise it forwards nothing. -/
theorem maskIsolated_forwards_supported (width height decay : Nat) (evs : List PixelEvent)
    (hfit : width * height < sizeMax) (hgrid : ∀ e ∈ evs, e.x < width ∧ e.y < height)
    (hts : ∀ e ∈ evs, e.timestamp + decay < sizeMax) :
    (MaskIsolated.construct width height decay).run evs
      = forwardedAfter width height decay [] evs :=
  run_gridHolds evs (MaskIsolated.construct width height decay) []
    (construct_gridHolds width height decay hfit) hfit hgrid hts

theorem maskIsolated_forwards_supported_witness :
    (MaskIsolated.construct 304 240 10).run maskIsolatedTestEvents = [⟨100, 101, 41⟩] :=
  (maskIsolated_forwards_supported 304 240 10 maskIsolatedTestEvents
    (by unfold sizeMax; norm_num) (by decide) (by decide)).trans (by decide)

/-! ## The ids the correction pass uses as indices -/

/-- C24: In the third call of the example engine (one seed blob, a correction
pass at every third call) the correction pass runs on a population that
holds the spawned entries with ids 1 and 2: neither is smaller than the
number of seed blobs, 1, so `_initialBlobs[data.id]` is read out of bounds. -/
theorem spawned_id_out_of_bounds :
    (afterTwo (⟨Real.exp, Real.sqrt, Real.pi⟩ : Libm ℝ)).skippedEvents
      ≥ (afterTwo (⟨Real.exp, Real.sqrt, Real.pi⟩ : Libm ℝ)).pairwiseCalculationsToSkip ∧
    (lifecycle (⟨Real.exp, Real.sqrt, Real.pi⟩ : Libm ℝ)
      (afterTwo (⟨Real.exp, Real.sqrt, Real.pi⟩ : Libm ℝ)) eventNorth).1.initialBlobs.length = 1 ∧
    (lifecycle (⟨Real.exp, Real.sqrt, Real.pi⟩ : Libm ℝ)
      (afterTwo (⟨Real.exp, Real.sqrt, Real.pi⟩ : Libm ℝ)) eventNorth).1.datum.map Data.id
        = [0, 0, 1, 2] ∧
    ¬ ∀ d ∈ (lifecycle (⟨Real.exp, Real.sqrt, Real.pi⟩ : Libm ℝ)
        (afterTwo (⟨Real.exp, Real.sqrt, Real.pi⟩ : Libm ℝ)) eventNorth).1.datum,
      d.id < (lifecycle (⟨Real.exp, Real.sqrt, Real.pi⟩ : Libm ℝ)
        (afterTwo (⟨Real.exp, Real.sqrt, Real.pi⟩ : Libm ℝ)) eventNorth).1.initialBlobs.length := by
  rw [lifecycle_north_afterTwo, afterTwo_eq]
  refine ⟨le_refl _, rfl, rfl, ?_⟩
  intro h
  have := h ⟨1, blobB, Real.exp (-2) / (2 * Real.pi), Status.promoted⟩ (by simp [track])
  simp [track] at this

/-! ## The covariance after an update -/

theorem updateBlob_determinant (s : TrackBlobs α) (ev : Event α) (b : Blob α) :
    determinant (updateBlob s ev b) =
      s.covarianceInertia ^ 2 * determinant b
      + s.covarianceInertia * (1 - s.covarianceInertia)
        * (b.squaredSigmaX * (ev.y - (updateBlob s ev b).y) ^ 2
          + b.squaredSigmaY * (ev.x - (updateBlob s ev b).x) ^ 2
          - 2 * b.sigmaXY * (ev.x - (updateBlob s ev b).x) * (ev.y - (updateBlob s ev b).y)) := by
  unfold determinant updateBlob
  simp only
  ring

theorem adjugate_form_nonneg (a b c u v : α) (ha : 0 < a) (hdet : 0 < a * c - b ^ 2) :
    0 ≤ a * v ^ 2 + c * u ^ 2 - 2 * b * u * v := by
  have h : 0 ≤ a * (a * v ^ 2 + c * u ^ 2 - 2 * b * u * v) := by
    have e : a * (a * v ^ 2 + c * u ^ 2 - 2 * b * u * v)
        = (a * v - b * u) ^ 2 + (a * c - b ^ 2) * u ^ 2 := by ring
    rw [e]
    exact add_nonneg (sq_nonneg _) (mul_nonneg (le_of_lt hdet) (sq_nonneg _))
  exact (mul_nonneg_iff_of_pos_left ha).mp h

/-- Over exact arithmetic: for every covariance inertia strictly between 0
and 1, every event and every entry whose covariance is positive-definite
(`squaredSigmaX > 0` and `squaredSigmaX * squaredSigmaY - sigmaXY ^ 2 > 0`),
the covariance of the entry after the update step is positive-definite
again: `squaredSigmaX` and the determinant are strictly positive.  The
rounding of `double` is not part of this statement: the determinant of the
rounded covariance can be 0. -/
theorem covariance_update_positive_definite (s : TrackBlobs α) (ev : Event α)
    (probability decay : α) (atWinner : Bool) (d : Data α)
    (hu : updates s probability atWinner = true)
    (h0 : 0 < s.covarianceInertia) (h1 : s.covarianceInertia < 1)
    (hx : 0 < d.blob.squaredSigmaX) (hdet : 0 < determinant d.blob) :
    (decayUpdate s ev probability decay atWinner d).blob = updateBlob s ev d.blob ∧
    0 < (decayUpdate s ev probability decay atWinner d).blob.squaredSigmaX ∧
    0 < determinant (decayUpdate s ev probability decay atWinner d).blob := by
  have hb : (decayUpdate s ev probability decay atWinner d).blob = updateBlob s ev d.blob := by
    unfold decayUpdate
    rw [if_pos hu]
  have h1c : 0 < 1 - s.covarianceInertia := by linarith
  refine ⟨hb, ?_, ?_⟩
  · rw [hb]
    unfold updateBlob
    simp only
    exact add_pos_of_pos_of_nonneg (mul_pos h0 hx) (mul_nonneg (le_of_lt h1c) (sq_nonneg _))
  · rw [hb, updateBlob_determinant]
    have hq := adjugate_form_nonneg d.blob.squaredSigmaX d.blob.sigmaXY d.blob.squaredSigmaY
      (ev.x - (updateBlob s ev d.blob).x) (ev.y - (updateBlob s ev d.blob).y) hx hdet
    exact add_pos_of_pos_of_nonneg (mul_pos (pow_pos h0 2) hdet)
      (mul_nonneg (mul_nonneg (le_of_lt h0) (le_of_lt h1c)) hq)

/-- The same at an instance, over the rationals: the seed of the example
engine updated towards `eventEast`. -/
theorem covariance_update_positive_definite_witness :
    (decayUpdate (track 10 0 0 [seedSlot] 0 : TrackBlobs ℚ) eventEast 1 1 true seedSlot).blob
      = updateBlob (track 10 0 0 [seedSlot] 0) eventEast (seedSlot : Data ℚ).blob ∧
    0 < (decayUpdate (track 10 0 0 [seedSlot] 0 : TrackBlobs ℚ) eventEast 1 1 true
      seedSlot).blob.squaredSigmaX ∧
    0 < determinant (decayUpdate (track 10 0 0 [seedSlot] 0 : TrackBlobs ℚ) eventEast 1 1 true
      seedSlot).blob :=
  covariance_update_positive_definite (track 10 0 0 [seedSlot] 0 : TrackBlobs ℚ) eventEast 1 1
    true seedSlot (by simp [updates, track]) (by norm_num [track]) (by norm_num [track])
    (by norm_num [seedSlot, seedBlob]) (by norm_num [determinant, seedSlot, seedBlob])

/-! ## Status and activity after the lifecycle block -/

theorem transition_status_activity (s : TrackBlobs α) (off : Nat) (d : Data α) :
    ∀ e, ((transition s off d).kept = some e ∨ (transition s off d).spawned = some e) →
      (e.status = Status.promoted → e.activity > s.promotionActivity) ∧
      (e.status = Status.demoted →
        s.deletionActivity < e.activity ∧ e.activity ≤ s.promotionActivity) ∧
      (0 ≤ s.promotionActivity → e.status = Status.hidden →
        e.activity ≤ s.promotionActivity) := by
  intro e he
  unfold transition at he
  rcases he with he | he <;> cases hst : d.status <;> simp only [hst] at he <;>
    split_ifs at he <;> cases he <;> refine ⟨?_, ?_, ?_⟩ <;>
    simp_all [not_le]

theorem lifecycleLoop_status_activity (s : TrackBlobs α) (ev : Event α) (p decay : α)
    (winner : Nat) (l : List (Data α)) : ∀ (pos off : Nat),
    ∀ e, (e ∈ (lifecycleLoop s ev p decay winner pos off l).datum ∨
        e ∈ (lifecycleLoop s ev p decay winner pos off l).datumToAdd) →
      (e.status = Status.promoted → e.activity > s.promotionActivity) ∧
      (e.status = Status.demoted →
        s.deletionActivity < e.activity ∧ e.activity ≤ s.promotionActivity) ∧
      (0 ≤ s.promotionActivity → e.status = Status.hidden →
        e.activity ≤ s.promotionActivity) := by
  induction l with
  | nil =>
    intro pos off e he
    simp [lifecycleLoop] at he
  | cons d rest ih =>
    intro pos off e he
    simp only [lifecycleLoop, List.mem_append] at he
    have key := transition_status_activity s off
      (decayUpdate s ev p decay (decide (pos = winner)) d) e
    rcases he with (he | he) | (he | he)
    · exact key (Or.inl (by simpa [Option.mem_toList] using he))
    · exact ih _ _ e (Or.inl he)
    · exact key (Or.inr (by simpa [Option.mem_toList] using he))
    · exact ih _ _ e (Or.inr he)

/-- Over exact arithmetic, where every activity is comparable with the
thresholds: immediately after the lifecycle block of a call of `operator()`
(before any pairwise correction), for every entry of the population: a
promoted entry has an activity above `promotionActivity`, a demoted entry has
an activity above `deletionActivity` and at most `promotionActivity`, and,
when `promotionActivity >= 0`, a hidden seed has an activity of at most
`promotionActivity`.  An activity that is NaN in `double` fails every test of
the switch and is not covered. -/
theorem status_matches_activity (m : Libm α) (s : TrackBlobs α) (ev : Event α) (e : Data α)
    (he : e ∈ (lifecycle m s ev).1.datum) :
    (e.status = Status.promoted → e.activity > s.promotionActivity) ∧
    (e.status = Status.demoted →
      s.deletionActivity < e.activity ∧ e.activity ≤ s.promotionActivity) ∧
    (0 ≤ s.promotionActivity → e.status = Status.hidden →
      e.activity ≤ s.promotionActivity) := by
  have hdatum : (lifecycle m s ev).1.datum = (lifecyclePass m s ev).datum
      ++ (lifecyclePass m s ev).datumToAdd := rfl
  rw [hdatum] at he
  exact lifecycleLoop_status_activity s ev _ _ _ s.datum 0 s.idOffset e (List.mem_append.mp he)

/-- The same at an instance: the entry spawned by the third event of the
example run. -/
theorem status_matches_activity_witness :
    ((⟨2, blobC, Real.exp (-2) / (2 * Real.pi), Status.promoted⟩ : Data ℝ).status
        = Status.promoted →
      (⟨2, blobC, Real.exp (-2) / (2 * Real.pi), Status.promoted⟩ : Data ℝ).activity
        > (afterTwo (⟨Real.exp, Real.sqrt, Real.pi⟩ : Libm ℝ)).promotionActivity) ∧
    ((⟨2, blobC, Real.exp (-2) / (2 * Real.pi), Status.promoted⟩ : Data ℝ).status
        = Status.demoted →
      (afterTwo (⟨Real.exp, Real.sqrt, Real.pi⟩ : Libm ℝ)).deletionActivity
        < (⟨2, blobC, Real.exp (-2) / (2 * Real.pi), Status.promoted⟩ : Data ℝ).activity ∧
      (⟨2, blobC, Real.exp (-2) / (2 * Real.pi), Status.promoted⟩ : Data ℝ).activity
        ≤ (afterTwo (⟨Real.exp, Real.sqrt, Real.pi⟩ : Libm ℝ)).promotionActivity) ∧
    (0 ≤ (afterTwo (⟨Real.exp, Real.sqrt, Real.pi⟩ : Libm ℝ)).promotionActivity →
      (⟨2, blobC, Real.exp (-2) / (2 * Real.pi), Status.promoted⟩ : Data ℝ).status
        = Status.hidden →
      (⟨2, blobC, Real.exp (-2) / (2 * Real.pi), Status.promoted⟩ : Data ℝ).activity
        ≤ (afterTwo (⟨Real.exp, Real.sqrt, Real.pi⟩ : Libm ℝ)).promotionActivity) :=
  status_matches_activity (⟨Real.exp, Real.sqrt, Real.pi⟩ : Libm ℝ)
    (afterTwo (⟨Real.exp, Real.sqrt, Real.pi⟩ : Libm ℝ)) eventNorth
    ⟨2, blobC, Real.exp (-2) / (2 * Real.pi), Status.promoted⟩
    (by
      rw [lifecycle_north_afterTwo]
      simp [track])

/-! ## ComputeActivity -/

theorem decayedSum_append_self (m : Libm α) (hzero : m.exp 0 = 1) (L : Nat)
    (history : List PixelEvent) (ev : PixelEvent) :
    decayedSum m L (history ++ [ev]) ev.timestamp = decayedSum m L history ev.timestamp + 1 := by
  unfold decayedSum
  simp [hzero]

/-- The decay of one step carries the sum from the previous timestamp to the
next one. -/
theorem decayedSum_step (m : Libm α) (hadd : ∀ a b : α, m.exp (a + b) = m.exp a * m.exp b)
    (L : Nat) (history : List PixelEvent) (last t : Nat) (hlast : last ≤ t)
    (hh : ∀ e ∈ history, e.timestamp ≤ last) :
    decayedSum m L history last * m.exp (-((t - last : Nat) : α) / (L : α))
      = decayedSum m L history t := by
  unfold decayedSum
  rw [← List.sum_map_mul_right]
  congr 1
  apply List.map_congr_left
  intro e he
  have h1 := hh e he
  rw [← hadd]
  congr 1
  have e2 : t - e.timestamp = (last - e.timestamp) + (t - last) := by omega
  rw [e2, Nat.cast_add]
  ring

theorem computeActivity_run_eq (m : Libm α)
    (hadd : ∀ a b : α, m.exp (a + b) = m.exp a * m.exp b) (hzero : m.exp 0 = 1)
    (evs : List PixelEvent) : ∀ (s : ComputeActivity α) (history : List PixelEvent),
    s.activity = decayedSum m s.lifespan history s.lastTimeStamp →
    (∀ e ∈ history, e.timestamp ≤ s.lastTimeStamp) →
    (∀ e ∈ evs, s.lastTimeStamp ≤ e.timestamp) →
    evs.Pairwise (fun a b => a.timestamp ≤ b.timestamp) →
    (∀ e ∈ evs, e.timestamp < sizeMax) →
    ComputeActivity.run m s evs = activitiesAfter m s.lifespan history evs := by
  induction evs with
  | nil => intro s history _ _ _ _ _; rfl
  | cons ev rest ih =>
    intro s history hact hhist hlast hsorted hfit
    have hle : s.lastTimeStamp ≤ ev.timestamp := hlast ev (List.mem_cons_self _ _)
    have hlt : ev.timestamp < sizeMax := hfit ev (List.mem_cons_self _ _)
    have hsub : wrapSub ev.timestamp s.lastTimeStamp = ev.timestamp - s.lastTimeStamp :=
      wrapSub_of_le _ _ hle hlt
    have hnew : s.activity
        * m.exp (-((wrapSub ev.timestamp s.lastTimeStamp : Nat) : α) / (s.lifespan : α)) + 1
        = decayedSum m s.lifespan (history ++ [ev]) ev.timestamp := by
      rw [hsub, hact, decayedSum_step m hadd _ _ _ _ hle hhist,
        decayedSum_append_self m hzero]
    obtain ⟨hhead, htail⟩ := List.pairwise_cons.mp hsorted
    have hrec := ih (s.handle m ev).1 (history ++ [ev])
      (by
        show s.activity * m.exp (-((wrapSub ev.timestamp s.lastTimeStamp : Nat) : α)
          / (s.lifespan : α)) + 1 = decayedSum m s.lifespan (history ++ [ev]) ev.timestamp
        exact hnew)
      (by
        intro e he
        show e.timestamp ≤ ev.timestamp
        rcases List.mem_append.mp he with he | he
        · exact le_trans (hhist e he) hle
        · rw [List.mem_singleton.mp he])
      (fun e he => hhead e he) htail
      (fun e he => hfit e (List.mem_cons_of_mem _ he))
    unfold ComputeActivity.run activitiesAfter
    rw [hrec]
    simp only [ComputeActivity.handle, hnew, List.singleton_append]

theorem activitiesAfter_ge_one (m : Libm α) (hzero : m.exp 0 = 1)
    (hpos : ∀ z : α, 0 ≤ m.exp z) (L : Nat) (evs : List PixelEvent) :
    ∀ (history : List PixelEvent), ∀ o ∈ activitiesAfter m L history evs, 1 ≤ o.2 := by
  induction evs with
  | nil => intro history o ho; simp [activitiesAfter] at ho
  | cons ev rest ih =>
    intro history o ho
    unfold activitiesAfter at ho
    rcases List.mem_cons.mp ho with ho | ho
    · rw [ho, decayedSum_append_self m hzero]
      have : 0 ≤ decayedSum m L history ev.timestamp := by
        unfold decayedSum
        apply List.sum_nonneg
        intro x hx
        obtain ⟨e, _, he⟩ := List.mem_map.mp hx
        rw [← he]
        exact hpos _
      simpa using this
    · exact ih _ o ho

/-- C29: For every sequence of events with non-decreasing timestamps fed to a
fresh `ComputeActivity` with lifespan `L > 0`, the handler is called exactly
once per event, in order, and the activity passed with the `n`-th event is the
sum over `i = 1..n` of `exp(-(t_n - t_i) / L)`; it is 1 for the first event
and at least 1 for every event. -/
theorem computeActivity_sum (m : Libm α)
    (hadd : ∀ a b : α, m.exp (a + b) = m.exp a * m.exp b) (hzero : m.exp 0 = 1)
    (hpos : ∀ z : α, 0 ≤ m.exp z) (L : Nat) (hL : 0 < L) (evs : List PixelEvent)
    (hsorted : evs.Pairwise (fun a b => a.timestamp ≤ b.timestamp))
    (hfit : ∀ e ∈ evs, e.timestamp < sizeMax) :
    ComputeActivity.run m (ComputeActivity.construct L) evs = activitiesAfter m L [] evs ∧
    (ComputeActivity.run m (ComputeActivity.construct L) evs).map Prod.fst = evs ∧
    (∀ ev rest, evs = ev :: rest →
      (ComputeActivity.run m (ComputeActivity.construct L) evs).head? = some (ev, 1)) ∧
    ∀ o ∈ ComputeActivity.run m (ComputeActivity.construct L) evs, 1 ≤ o.2 := by
  have hrun := computeActivity_run_eq m hadd hzero evs (ComputeActivity.construct L) []
    (by simp [ComputeActivity.construct, decayedSum])
    (by intro e he; cases he)
    (by intro e _; exact Nat.zero_le _) hsorted hfit
  have hL2 : (ComputeActivity.construct L : ComputeActivity α).lifespan = L := rfl
  rw [hL2] at hrun
  rw [hrun]
  refine ⟨rfl, ?_, ?_, activitiesAfter_ge_one m hzero hpos L evs []⟩
  · have key : ∀ (l history : List PixelEvent),
        (activitiesAfter m L history l).map Prod.fst = l := by
      intro l
      induction l with
      | nil => intro history; rfl
      | cons a t ih => intro history; simp [activitiesAfter, ih]
    exact key evs []
  · intro ev rest he
    rw [he]
    simp [activitiesAfter, decayedSum, hzero]

/-! ## One spawn per call, from the winning seed -/

theorem updates_false_of (s : TrackBlobs α) (p : α) (w : Bool)
    (h : w = false ∨ updates s p true = false) : updates s p w = false := by
  rcases h with h | h
  · rw [h]
    rfl
  · cases w
    · rfl
    · exact h

/-- A seed that is not updated, with an activity between 0 and
`promotionActivity`, stays as it is after a decay by a factor in [0, 1]. -/
theorem transition_seed_decayed (s : TrackBlobs α) (ev : Event α) (p decay : α) (w : Bool)
    (off : Nat) (d : Data α) (hu : updates s p w = false) (hs : d.status = Status.hidden)
    (h0 : 0 ≤ d.activity) (hle : d.activity ≤ s.promotionActivity) (hd1 : decay ≤ 1) :
    transition s off (decayUpdate s ev p decay w d)
      = { kept := some (decayUpdate s ev p decay w d), spawned := none, notes := [] } := by
  apply transition_hidden_stay
  · rw [decayUpdate_status, hs]
  · rw [decayUpdate_of_not_updates _ _ _ _ _ _ hu]
    show ¬ d.activity * decay > s.promotionActivity
    have := mul_le_of_le_one_right h0 hd1
    exact not_lt.mpr (le_trans this hle)

/-- The seeds the iterator passes away from `winner` spawn nothing. -/
theorem seeds_spawn_nothing (s : TrackBlobs α) (ev : Event α) (p decay : α) (winner : Nat)
    (hd1 : decay ≤ 1) (l : List (Data α)) : ∀ (pos off : Nat),
    (∀ d ∈ l, d.status = Status.hidden ∧ 0 ≤ d.activity ∧ d.activity ≤ s.promotionActivity) →
    (winner < pos ∨ pos + l.length ≤ winner ∨ updates s p true = false) →
    (lifecycleLoop s ev p decay winner pos off l).datumToAdd = [] := by
  induction l with
  | nil => intro pos off _ _; rfl
  | cons d rest ih =>
    intro pos off hl hw
    obtain ⟨hs, h0, hle⟩ := hl d (List.mem_cons_self _ _)
    have hu : updates s p (decide (pos = winner)) = false := by
      apply updates_false_of
      rcases hw with h | h | h
      · exact Or.inl (decide_eq_false (by omega))
      · simp only [List.length_cons] at h
        exact Or.inl (decide_eq_false (by omega))
      · exact Or.inr h
    have ht := transition_seed_decayed s ev p decay _ off d hu hs h0 hle hd1
    have hrec := ih (pos + 1) off (fun e he => hl e (List.mem_cons_of_mem _ he))
      (by
        rcases hw with h | h | h
        · exact Or.inl (by omega)
        · simp only [List.length_cons] at h
          exact Or.inr (Or.inl (by omega))
        · exact Or.inr (Or.inr h))
    simp only [lifecycleLoop, ht, Option.isSome_some, if_true, Option.isSome_none,
      Bool.false_eq_true, if_false, Option.toList, List.nil_append, hrec]

/-- Over the seed slots, the loop spawns nothing, or one entry from the seed
at position `winner`, after its update. -/
theorem seeds_spawn_at_winner (s : TrackBlobs α) (ev : Event α) (p decay : α) (winner : Nat)
    (hd1 : decay ≤ 1) (l : List (Data α)) : ∀ (pos off : Nat),
    (∀ d ∈ l, d.status = Status.hidden ∧ 0 ≤ d.activity ∧ d.activity ≤ s.promotionActivity) →
    (lifecycleLoop s ev p decay winner pos off l).datumToAdd = [] ∨
    ∃ d, pos ≤ winner ∧ l[winner - pos]? = some d ∧
      (lifecycleLoop s ev p decay winner pos off l).datumToAdd
        = [⟨off, updateBlob s ev d.blob, d.activity * decay + p, Status.promoted⟩] := by
  induction l with
  | nil => intro pos off _; exact Or.inl rfl
  | cons d rest ih =>
    intro pos off hl
    obtain ⟨hs, h0, hle⟩ := hl d (List.mem_cons_self _ _)
    have hrest : ∀ e ∈ rest, e.status = Status.hidden ∧ 0 ≤ e.activity ∧
        e.activity ≤ s.promotionActivity := fun e he => hl e (List.mem_cons_of_mem _ he)
    by_cases hu : updates s p (decide (pos = winner)) = true
    · have hpw : pos = winner := by
        unfold updates at hu
        simp only [Bool.and_eq_true, decide_eq_true_eq] at hu
        exact hu.1
      have hd := decayUpdate_of_updates s ev p decay _ d hu
      by_cases hp : d.activity * decay + p > s.promotionActivity
      · right
        refine ⟨d, by omega, by rw [hpw, Nat.sub_self]; simp, ?_⟩
        have ht := transition_hidden_promote s off
          ({ d with activity := d.activity * decay + p, blob := updateBlob s ev d.blob })
          hs hp
        have hrec := seeds_spawn_nothing s ev p decay winner hd1 rest (pos + 1)
          ((off + 1) % sizeMax) hrest (Or.inl (by omega))
        simp only [lifecycleLoop, hd, ht, Option.isSome_some, if_true, Option.toList, hrec,
          List.singleton_append]
      · left
        have ht := transition_hidden_stay s off
          ({ d with activity := d.activity * decay + p, blob := updateBlob s ev d.blob })
          hs hp
        have hrec := seeds_spawn_nothing s ev p decay winner hd1 rest (pos + 1) off hrest
          (Or.inl (by omega))
        simp only [lifecycleLoop, hd, ht, Option.isSome_some, if_true, Option.isSome_none,
          Bool.false_eq_true, if_false, Option.toList, List.nil_append, hrec]
    · have hu2 : updates s p (decide (pos = winner)) = false := by
        cases h : updates s p (decide (pos = winner))
        · rfl
        · exact absurd h hu
      have ht := transition_seed_decayed s ev p decay _ off d hu2 hs h0 hle hd1
      have hloop : (lifecycleLoop s ev p decay winner pos off (d :: rest)).datumToAdd
          = (lifecycleLoop s ev p decay winner (pos + 1) off rest).datumToAdd := by
        simp only [lifecycleLoop, ht, Option.isSome_some, if_true, Option.isSome_none,
          Bool.false_eq_true, if_false, Option.toList, List.nil_append]
      rw [hloop]
      rcases ih (pos + 1) off hrest with h | ⟨e, hle2, hget, hadd⟩
      · exact Or.inl h
      · right
        refine ⟨e, by omega, ?_, hadd⟩
        have e2 : winner - pos = (winner - (pos + 1)) + 1 := by omega
        rw [e2, List.getElem?_cons_succ]
        exact hget

theorem exponentialDecay_le_one (m : Libm α) (hexp1 : ∀ z : α, z ≤ 0 → m.exp z ≤ 1)
    (s : TrackBlobs α) (ev : Event α) (hdecay : 0 < s.activityDecay)
    (ht : s.previousTimestamp ≤ ev.timestamp) : exponentialDecay m s ev ≤ 1 := by
  unfold exponentialDecay
  apply hexp1
  apply div_nonpos_of_nonpos_of_nonneg _ (le_of_lt hdecay)
  have : (-(ev.timestamp - s.previousTimestamp) : Int) ≤ 0 := by omega
  exact_mod_cast this

/-- One call on a settled engine, with a timestamp not before the previous
one: the lifecycle block spawns nothing, or one entry from the seed that won
the association, after its update. -/
theorem settled_spawn (m : Libm α) (hexp1 : ∀ z : α, z ≤ 0 → m.exp z ≤ 1) (n : Nat)
    (s : TrackBlobs α) (ev : Event α) (hs : Settled n s)
    (ht : s.previousTimestamp ≤ ev.timestamp) :
    (lifecyclePass m s ev).datumToAdd = [] ∨
    ∃ d, (associate m ev s.datum).2 < n ∧ s.datum[(associate m ev s.datum).2]? = some d ∧
      d.status = Status.hidden ∧
      (lifecyclePass m s ev).datumToAdd
        = [⟨s.idOffset, updateBlob s ev d.blob,
            d.activity * exponentialDecay m s ev + (associate m ev s.datum).1,
            Status.promoted⟩] := by
  obtain ⟨hseed, htail, hnn, hhid, hpromo, hdecay⟩ := hs
  have hn := seedsInFront_le_length n s.datum hseed
  have hd1 := exponentialDecay_le_one m hexp1 s ev hdecay ht
  have hpass : lifecyclePass m s ev =
      lifecycleLoop s ev (associate m ev s.datum).1 (exponentialDecay m s ev)
        (associate m ev s.datum).2 0 s.idOffset (s.datum.take n ++ s.datum.drop n) := by
    rw [List.take_append_drop]
    rfl
  rw [lifecycleLoop_append] at hpass
  have htr := (lifecycleLoop_tracked s ev (associate m ev s.datum).1
    (exponentialDecay m s ev) (associate m ev s.datum).2 (s.datum.drop n) htail
    (0 + (lifecycleLoop s ev (associate m ev s.datum).1 (exponentialDecay m s ev)
      (associate m ev s.datum).2 0 s.idOffset (s.datum.take n)).datum.length)
    (lifecycleLoop s ev (associate m ev s.datum).1 (exponentialDecay m s ev)
      (associate m ev s.datum).2 0 s.idOffset (s.datum.take n)).idOffset).1
  have hadd : (lifecyclePass m s ev).datumToAdd
      = (lifecycleLoop s ev (associate m ev s.datum).1 (exponentialDecay m s ev)
        (associate m ev s.datum).2 0 s.idOffset (s.datum.take n)).datumToAdd := by
    rw [hpass]
    simp only [Pass.append, htr, List.append_nil]
  have hseeds : ∀ d ∈ s.datum.take n, d.status = Status.hidden ∧ 0 ≤ d.activity ∧
      d.activity ≤ s.promotionActivity := by
    intro d hd
    have hst := seedsInFront_take_hidden n s.datum hseed n (le_refl n) d hd
    have hmem := List.mem_of_mem_take hd
    exact ⟨hst, hnn d hmem, hhid d hmem hst⟩
  rw [hadd]
  rcases seeds_spawn_at_winner s ev (associate m ev s.datum).1 (exponentialDecay m s ev)
    (associate m ev s.datum).2 hd1 (s.datum.take n) 0 s.idOffset hseeds with h | ⟨d, _, hget, h⟩
  · exact Or.inl h
  · right
    rw [Nat.sub_zero] at hget
    have hlt : (associate m ev s.datum).2 < n := by
      have := (List.getElem?_eq_some_iff.mp hget).1
      rw [List.length_take] at this
      omega
    rw [List.getElem?_take_of_lt hlt] at hget
    exact ⟨d, hlt, hget, (hseeds d (by
      rw [← List.getElem?_take_of_lt hlt] at hget
      exact List.getElem?_mem hget)).1, h⟩

theorem correct_map_status_activity (m : Libm α) (s : TrackBlobs α) :
    (correct m s).map (fun d => (d.status, d.activity)) = s.datum.map (fun d =>
      (d.status, if d.blob.x ^ 2 + d.blob.y ^ 2 > s.attractionResetDistanceSquared
        then d.activity else 0)) := by
  unfold correct
  simp only
  rw [applyDeltas_map (fun d => (d.status, d.activity)) (fun _ _ => rfl), attract_fst,
    List.map_map]
  apply List.map_congr_left
  intro d _
  simp only [Function.comp]
  split_ifs <;> rfl

theorem pairwise_hidden_bound (m : Libm α) (s : TrackBlobs α) (c : α) (hc : 0 ≤ c)
    (h : ∀ d ∈ s.datum, d.status = Status.hidden → d.activity ≤ c) :
    ∀ d ∈ (pairwise m s).datum, d.status = Status.hidden → d.activity ≤ c := by
  unfold pairwise
  split_ifs
  · intro e he hst
    have hm : (e.status, e.activity) ∈ (correct m s).map (fun d => (d.status, d.activity)) :=
      List.mem_map_of_mem _ he
    rw [correct_map_status_activity] at hm
    obtain ⟨d, hd, hda⟩ := List.mem_map.mp hm
    have h1 : d.status = e.status := congrArg Prod.fst hda
    have h2 : (if d.blob.x ^ 2 + d.blob.y ^ 2 > s.attractionResetDistanceSquared
        then d.activity else 0) = e.activity := congrArg Prod.snd hda
    rw [← h2]
    split_ifs
    · exact h d hd (by rw [h1, hst])
    · exact hc
  · exact h

theorem process_thresholds (m : Libm α) (s : TrackBlobs α) (ev : Event α) :
    (process m s ev).1.promotionActivity = s.promotionActivity ∧
    (process m s ev).1.activityDecay = s.activityDecay := by
  unfold process pairwise
  simp only
  split_ifs <;> exact ⟨rfl, rfl⟩

theorem process_settled (m : Libm α) (hexp0 : ∀ z : α, 0 ≤ m.exp z) (hpi : 0 ≤ m.pi) (n : Nat)
    (s : TrackBlobs α) (ev : Event α) (hs : Settled n s) : Settled n (process m s ev).1 := by
  obtain ⟨hseed, htail, hnn, hhid, hpromo, hdecay⟩ := hs
  obtain ⟨hp, hd⟩ := process_thresholds m s ev
  refine ⟨process_seedsInFront m s ev n hseed, (process_tail m s ev n hseed htail).1,
    process_activity m hexp0 hpi s ev hnn, ?_, by rw [hp]; exact hpromo,
    by rw [hd]; exact hdecay⟩
  rw [hp]
  have hproc : (process m s ev).1.datum = (pairwise m (lifecycle m s ev).1).datum := rfl
  rw [hproc]
  apply pairwise_hidden_bound m _ _ hpromo
  intro e he hst
  have hdatum : (lifecycle m s ev).1.datum = (lifecyclePass m s ev).datum
      ++ (lifecyclePass m s ev).datumToAdd := rfl
  rw [hdatum] at he
  exact (lifecycleLoop_status_activity s ev _ _ _ s.datum 0 s.idOffset e
    (List.mem_append.mp he)).2.2 hpromo hst

theorem construct_settled (initialBlobs : List (Blob α)) (initialTimestamp : Int)
    (activityDecay minimumProbability promotionActivity deletionActivity meanInertia
      covarianceInertia repulsionStrength repulsionLength attractionStrength
      attractionResetDistance : α)
    (pairwiseCalculationsToSkip : Nat) (garbageStrength : α) (garbageSkipped : Nat)
    (hdecay : 0 < activityDecay) (hpromo : 0 ≤ promotionActivity) :
    Settled initialBlobs.length
      (construct initialBlobs initialTimestamp activityDecay minimumProbability
        promotionActivity deletionActivity meanInertia covarianceInertia repulsionStrength
        repulsionLength attractionStrength attractionResetDistance pairwiseCalculationsToSkip
        garbageStrength garbageSkipped) := by
  have hact : ∀ d ∈ (construct initialBlobs initialTimestamp activityDecay minimumProbability
      promotionActivity deletionActivity meanInertia covarianceInertia repulsionStrength
      repulsionLength attractionStrength attractionResetDistance pairwiseCalculationsToSkip
      garbageStrength garbageSkipped).datum, d.activity = 0 := by
    intro d hd
    simp only [construct, List.mem_map] at hd
    obtain ⟨i, _, hi⟩ := hd
    rw [← hi]
  refine ⟨construct_seedsInFront _ _ _ _ _ _ _ _ _ _ _ _ _ _ _, ?_, ?_, ?_, hpromo, hdecay⟩
  · rw [construct_tail]
    intro d hd
    cases hd
  · intro d hd
    rw [hact d hd]
  · intro d hd _
    rw [hact d hd]
    exact hpromo

/-- Over a run with non-decreasing timestamps the engine stays settled, and
its previous timestamp is not after the next event's. -/
theorem run_settled (m : Libm α) (hexp0 : ∀ z : α, 0 ≤ m.exp z) (hpi : 0 ≤ m.pi) (n : Nat)
    (ev : Event α) (pre : List (Event α)) : ∀ (s : TrackBlobs α), Settled n s →
    List.Chain (fun a b => a ≤ b) s.previousTimestamp ((pre ++ [ev]).map Event.timestamp) →
    Settled n (run m s pre).1 ∧ (run m s pre).1.previousTimestamp ≤ ev.timestamp := by
  induction pre with
  | nil =>
    intro s hs hc
    simp only [List.nil_append, List.map_cons, List.map_nil, List.chain_cons] at hc
    exact ⟨hs, hc.1⟩
  | cons e rest ih =>
    intro s hs hc
    simp only [List.cons_append, List.map_cons, List.chain_cons] at hc
    exact ih (process m s e).1 (process_settled m hexp0 hpi n s e hs) hc.2

/-- For an `Event` with a signed timestamp, over exact arithmetic: for an
engine constructed with `activityDecay > 0` and `promotionActivity >= 0` and
fed events with non-decreasing timestamps, the first one not before
`initialTimestamp`, every call of `operator()` (for the event `ev`, after the
events `pre`) spawns no entry, or exactly one entry: the copy of the seed
that won the association of that call, after its update.  The factor of
line 111 is then at most 1; with an unsigned timestamp it is not. -/
theorem one_spawn_from_winning_seed (m : Libm α) (hexp0 : ∀ z : α, 0 ≤ m.exp z)
    (hexp1 : ∀ z : α, z ≤ 0 → m.exp z ≤ 1) (hpi : 0 ≤ m.pi)
    (initialBlobs : List (Blob α)) (initialTimestamp : Int)
    (activityDecay minimumProbability promotionActivity deletionActivity meanInertia
      covarianceInertia repulsionStrength repulsionLength attractionStrength
      attractionResetDistance : α)
    (pairwiseCalculationsToSkip : Nat) (garbageStrength : α) (garbageSkipped : Nat)
    (hdecay : 0 < activityDecay) (hpromo : 0 ≤ promotionActivity)
    (pre : List (Event α)) (ev : Event α) (s : TrackBlobs α)
    (hrun : s = (run m (construct initialBlobs initialTimestamp activityDecay minimumProbability
        promotionActivity deletionActivity meanInertia covarianceInertia repulsionStrength
        repulsionLength attractionStrength attractionResetDistance pairwiseCalculationsToSkip
        garbageStrength garbageSkipped) pre).1)
    (hsorted : List.Chain (fun a b => a ≤ b) initialTimestamp
      ((pre ++ [ev]).map Event.timestamp)) :
    (lifecyclePass m s ev).datumToAdd = [] ∨
    ∃ d, (associate m ev s.datum).2 < initialBlobs.length ∧
      s.datum[(associate m ev s.datum).2]? = some d ∧ d.status = Status.hidden ∧
      (lifecyclePass m s ev).datumToAdd
        = [⟨s.idOffset, updateBlob s ev d.blob,
            d.activity * exponentialDecay m s ev + (associate m ev s.datum).1,
            Status.promoted⟩] := by
  obtain ⟨hs, ht⟩ := run_settled m hexp0 hpi initialBlobs.length ev pre _
    (construct_settled initialBlobs initialTimestamp activityDecay minimumProbability
      promotionActivity deletionActivity meanInertia covarianceInertia repulsionStrength
      repulsionLength attractionStrength attractionResetDistance pairwiseCalculationsToSkip
      garbageStrength garbageSkipped hdecay hpromo) hsorted
  rw [← hrun] at hs ht
  exact settled_spawn m hexp1 initialBlobs.length s ev hs ht

/-- The same at an instance: the second event of the example run, with its
signed timestamp. -/
theorem one_spawn_from_winning_seed_witness :
    (lifecyclePass (⟨Real.exp, Real.sqrt, Real.pi⟩ : Libm ℝ)
        (run (⟨Real.exp, Real.sqrt, Real.pi⟩ : Libm ℝ) (exampleEngine 2) [eventOrigin]).1
        eventEast).datumToAdd = [] ∨
    ∃ d, (associate (⟨Real.exp, Real.sqrt, Real.pi⟩ : Libm ℝ) eventEast
        (run (⟨Real.exp, Real.sqrt, Real.pi⟩ : Libm ℝ) (exampleEngine 2)
          [eventOrigin]).1.datum).2 < [(seedBlob : Blob ℝ)].length ∧
      (run (⟨Real.exp, Real.sqrt, Real.pi⟩ : Libm ℝ) (exampleEngine 2) [eventOrigin]).1.datum[
        (associate (⟨Real.exp, Real.sqrt, Real.pi⟩ : Libm ℝ) eventEast
          (run (⟨Real.exp, Real.sqrt, Real.pi⟩ : Libm ℝ) (exampleEngine 2)
            [eventOrigin]).1.datum).2]? = some d ∧
      d.status = Status.hidden ∧
      (lifecyclePass (⟨Real.exp, Real.sqrt, Real.pi⟩ : Libm ℝ)
        (run (⟨Real.exp, Real.sqrt, Real.pi⟩ : Libm ℝ) (exampleEngine 2) [eventOrigin]).1
        eventEast).datumToAdd
        = [⟨(run (⟨Real.exp, Real.sqrt, Real.pi⟩ : Libm ℝ) (exampleEngine 2)
              [eventOrigin]).1.idOffset,
            updateBlob (run (⟨Real.exp, Real.sqrt, Real.pi⟩ : Libm ℝ) (exampleEngine 2)
              [eventOrigin]).1 eventEast d.blob,
            d.activity * exponentialDecay (⟨Real.exp, Real.sqrt, Real.pi⟩ : Libm ℝ)
                (run (⟨Real.exp, Real.sqrt, Real.pi⟩ : Libm ℝ) (exampleEngine 2)
                  [eventOrigin]).1 eventEast
              + (associate (⟨Real.exp, Real.sqrt, Real.pi⟩ : Libm ℝ) eventEast
                (run (⟨Real.exp, Real.sqrt, Real.pi⟩ : Libm ℝ) (exampleEngine 2)
                  [eventOrigin]).1.datum).1,
            Status.promoted⟩] :=
  one_spawn_from_winning_seed (⟨Real.exp, Real.sqrt, Real.pi⟩ : Libm ℝ)
    (fun z => le_of_lt (Real.exp_pos z))
    (fun z hz => by
      have h := Real.exp_le_exp.mpr hz
      rw [Real.exp_zero] at h
      exact h)
    (le_of_lt Real.pi_pos)
    [seedBlob] 0 1 0 (1 / 100) (1 / 200) (1 / 2) (1 / 4) 1 1 1 (1 / 2) 2 0 0
    one_pos (by norm_num) [eventOrigin] eventEast _ rfl
    (by simp [eventOrigin, eventEast])

theorem computeActivity_sum_witness :
    ComputeActivity.run (⟨Real.exp, Real.sqrt, Real.pi⟩ : Libm ℝ) (ComputeActivity.construct 2)
        [⟨0, 0, 5⟩, ⟨1, 1, 7⟩]
      = activitiesAfter (⟨Real.exp, Real.sqrt, Real.pi⟩ : Libm ℝ) 2 [] [⟨0, 0, 5⟩, ⟨1, 1, 7⟩] ∧
    (ComputeActivity.run (⟨Real.exp, Real.sqrt, Real.pi⟩ : Libm ℝ) (ComputeActivity.construct 2)
        [⟨0, 0, 5⟩, ⟨1, 1, 7⟩]).map Prod.fst = [⟨0, 0, 5⟩, ⟨1, 1, 7⟩] ∧
    (∀ ev rest, ([⟨0, 0, 5⟩, ⟨1, 1, 7⟩] : List PixelEvent) = ev :: rest →
      (ComputeActivity.run (⟨Real.exp, Real.sqrt, Real.pi⟩ : Libm ℝ)
        (ComputeActivity.construct 2) [⟨0, 0, 5⟩, ⟨1, 1, 7⟩]).head? = some (ev, 1)) ∧
    ∀ o ∈ ComputeActivity.run (⟨Real.exp, Real.sqrt, Real.pi⟩ : Libm ℝ)
        (ComputeActivity.construct 2) [⟨0, 0, 5⟩, ⟨1, 1, 7⟩], 1 ≤ o.2 :=
  computeActivity_sum (⟨Real.exp, Real.sqrt, Real.pi⟩ : Libm ℝ) Real.exp_add Real.exp_zero
    (fun z => le_of_lt (Real.exp_pos z)) 2 (by decide) [⟨0, 0, 5⟩, ⟨1, 1, 7⟩]
    (by decide) (by decide)

/-! ## Association when every exponential underflows -/

theorem candidate_far_seed :
    probabilityCandidate (Libm.underflowing (⟨Real.exp, Real.sqrt, Real.pi⟩ : Libm ℝ))
      eventFar seedBlob = 0 := by
  have h : (-((100 - 0 : ℝ) ^ 2 * 1 + (0 - 0) ^ 2 * 1 - 2 * (100 - 0) * (0 - 0) * 0)
      / (2 * (1 * 1 - 0 ^ 2))) < -746 := by norm_num
  simp only [probabilityCandidate, determinant, eventFar, seedBlob, Libm.underflowing, if_pos h,
    zero_div]

/-- C1, a counterexample: the population of the example engine as constructed
is the one seed slot, with covariance determinant 1, and the event
`eventFar` lies a hundred pixels from it.  The exponent of line 96 is -5000,
where `std::exp` has underflowed to 0: the candidate is 0, the test
`probabilityCandidate > probability` of line 104 fails, and the association
returns `winner = _datum.end()` (position 1 of a population of one entry) with
`probability = 0`.  No entry is selected, although the seed slot has the
largest density of the population. -/
theorem association_selects_nothing_on_underflow :
    (exampleEngine 10 : TrackBlobs ℝ).datum = [seedSlot] ∧
    (∀ d ∈ (exampleEngine 10 : TrackBlobs ℝ).datum, 0 < determinant d.blob) ∧
    associate (Libm.underflowing (⟨Real.exp, Real.sqrt, Real.pi⟩ : Libm ℝ)) eventFar
      (exampleEngine 10 : TrackBlobs ℝ).datum = (0, 1) ∧
    (exampleEngine 10 : TrackBlobs ℝ).datum[(associate
      (Libm.underflowing (⟨Real.exp, Real.sqrt, Real.pi⟩ : Libm ℝ)) eventFar
      (exampleEngine 10 : TrackBlobs ℝ).datum).2]? = none := by
  have hd : (exampleEngine 10 : TrackBlobs ℝ).datum = [seedSlot] := by
    rw [exampleEngine_eq]
    rfl
  have ha : associate (Libm.underflowing (⟨Real.exp, Real.sqrt, Real.pi⟩ : Libm ℝ)) eventFar
      [(seedSlot : Data ℝ)] = (0, 1) := by
    simp only [associate, associateLoop, show (seedSlot : Data ℝ).blob = seedBlob from rfl,
      candidate_far_seed, gt_iff_lt, lt_irrefl, if_false, zero_div, List.length_singleton]
  rw [hd, ha]
  refine ⟨rfl, ?_, rfl, rfl⟩
  intro d hd
  simp only [List.mem_singleton] at hd
  subst hd
  rw [show (seedSlot : Data ℝ).blob = seedBlob from rfl, determinant_seedBlob]
  norm_num

/-! ## The handler with unsigned timestamps -/

/-- Where the two decay factors agree, the two handlers do. -/
theorem processUnsigned_eq_process (m : Libm α) (s : TrackBlobs α) (ev : Event α)
    (h : exponentialDecayUnsigned m s ev = exponentialDecay m s ev) :
    processUnsigned m s ev = process m s ev := by
  simp only [processUnsigned, process, lifecycleUnsigned, lifecycle, lifecyclePassUnsigned,
    lifecyclePass, h]

theorem exponentialDecayUnsigned_same (s : TrackBlobs ℝ) (ev : Event ℝ)
    (hs : s.previousTimestamp = 0) (he : ev.timestamp = 0) :
    exponentialDecayUnsigned (⟨Real.exp, Real.sqrt, Real.pi⟩ : Libm ℝ) s ev = 1 := by
  simp [exponentialDecayUnsigned, hs, he, wrapSub, sizeMax]

theorem exponentialDecayUnsigned_three (s : TrackBlobs ℝ) (ev : Event ℝ)
    (hs : s.previousTimestamp = 0) (he : ev.timestamp = 3) (hd : s.activityDecay = 1) :
    exponentialDecayUnsigned (⟨Real.exp, Real.sqrt, Real.pi⟩ : Libm ℝ) s ev
      = Real.exp 18446744073709551613 := by
  simp [exponentialDecayUnsigned, hs, he, hd, wrapSub, sizeMax]

theorem twoSeedEngine_eq :
    (twoSeedEngine : TrackBlobs α)
      = twoSeedTrack 0 0 [seedSlot, ⟨1, seedFar, 0, Status.hidden⟩] 0 := by
  simp [twoSeedEngine, construct, twoSeedTrack, seedSlot, seedBlob, seedFar, List.range_succ]

theorem processUnsigned_twoSeedTrack (m : Libm α) (sk : Nat) (t : Int) (datum : List (Data α))
    (off : Nat) (ev : Event α) (h : sk < 10) :
    processUnsigned m (twoSeedTrack sk t datum off) ev =
      (twoSeedTrack (sk + 1) ev.timestamp
        ((lifecyclePassUnsigned m (twoSeedTrack sk t datum off) ev).datum
          ++ (lifecyclePassUnsigned m (twoSeedTrack sk t datum off) ev).datumToAdd)
        (lifecyclePassUnsigned m (twoSeedTrack sk t datum off) ev).idOffset,
       (lifecyclePassUnsigned m (twoSeedTrack sk t datum off) ev).notes) := by
  have h' : ¬ (lifecycleUnsigned m (twoSeedTrack sk t datum off) ev).1.skippedEvents
      ≥ (lifecycleUnsigned m (twoSeedTrack sk t datum off) ev).1.pairwiseCalculationsToSkip := by
    simp only [lifecycleUnsigned, twoSeedTrack]; omega
  simp only [processUnsigned, pairwise, if_neg h']
  simp [lifecycleUnsigned, twoSeedTrack]

theorem determinant_seedFar : determinant (seedFar : Blob ℝ) = 1 := by
  norm_num [determinant, seedFar]

theorem candidate_origin_far :
    probabilityCandidate (⟨Real.exp, Real.sqrt, Real.pi⟩ : Libm ℝ) eventOrigin seedFar
      = Real.exp (-1250) := by
  rw [candidate_real, determinant_seedFar, Real.sqrt_one, div_one]
  congr 1
  norm_num [eventOrigin, seedFar]

theorem candidate_onFar_A :
    probabilityCandidate (⟨Real.exp, Real.sqrt, Real.pi⟩ : Libm ℝ) eventOnFar blobA
      = Real.exp (-5000) / (1 / 4) := by
  rw [candidate_real, determinant_blobA, sqrt_sixteenth]
  congr 2
  norm_num [eventOnFar, blobA]

theorem candidate_onFar_far :
    probabilityCandidate (⟨Real.exp, Real.sqrt, Real.pi⟩ : Libm ℝ) eventOnFar seedFar = 1 := by
  simp [probabilityCandidate, determinant, eventOnFar, seedFar]

theorem exp_neg_lt_quarter (z : ℝ) (hz : 4 ≤ z) : Real.exp (-z) < 1 / 4 := by
  rw [Real.exp_neg, inv_eq_one_div, div_lt_div_iff₀ (Real.exp_pos _) (by norm_num)]
  have := Real.add_one_le_exp z
  linarith

theorem associate_twoSeed_origin :
    associate (⟨Real.exp, Real.sqrt, Real.pi⟩ : Libm ℝ) eventOrigin
      [seedSlot, ⟨1, seedFar, 0, Status.hidden⟩] = (1 / (2 * Real.pi), 0) := by
  have h0 : probabilityCandidate (⟨Real.exp, Real.sqrt, Real.pi⟩ : Libm ℝ) eventOrigin
      (seedSlot : Data ℝ).blob > 0 := by
    rw [show (seedSlot : Data ℝ).blob = seedBlob from rfl, candidate_seed_origin]
    norm_num
  have h1 : ¬ probabilityCandidate (⟨Real.exp, Real.sqrt, Real.pi⟩ : Libm ℝ) eventOrigin
      (seedFar : Blob ℝ) > probabilityCandidate (⟨Real.exp, Real.sqrt, Real.pi⟩ : Libm ℝ)
        eventOrigin (seedSlot : Data ℝ).blob := by
    rw [show (seedSlot : Data ℝ).blob = seedBlob from rfl, candidate_seed_origin,
      candidate_origin_far]
    have := exp_neg_lt_quarter 1250 (by norm_num)
    exact not_lt.mpr (by linarith)
  simp only [associate, associateLoop, if_pos h0, if_neg h1]
  rw [show (seedSlot : Data ℝ).blob = seedBlob from rfl, candidate_seed_origin]

theorem associate_twoSeed_onFar (a : ℝ) :
    associate (⟨Real.exp, Real.sqrt, Real.pi⟩ : Libm ℝ) eventOnFar
      [⟨0, blobA, a, Status.hidden⟩, ⟨1, seedFar, 0, Status.hidden⟩]
      = (1 / (2 * Real.pi), 1) := by
  have h0 : probabilityCandidate (⟨Real.exp, Real.sqrt, Real.pi⟩ : Libm ℝ) eventOnFar
      (blobA : Blob ℝ) > 0 := by
    rw [candidate_onFar_A]
    have := Real.exp_pos (-5000)
    positivity
  have h1 : probabilityCandidate (⟨Real.exp, Real.sqrt, Real.pi⟩ : Libm ℝ) eventOnFar
      (seedFar : Blob ℝ) > probabilityCandidate (⟨Real.exp, Real.sqrt, Real.pi⟩ : Libm ℝ)
        eventOnFar (blobA : Blob ℝ) := by
    rw [candidate_onFar_far, candidate_onFar_A]
    have := exp_neg_lt_quarter 5000 (by norm_num)
    rw [gt_iff_lt, div_lt_iff₀ (by norm_num)]
    linarith
  simp only [associate, associateLoop, if_pos h0, if_pos h1]
  rw [candidate_onFar_far]

theorem density_origin_le_half : ¬ (1 / (2 * Real.pi) : ℝ) > 1 / 2 := by
  have h3 := Real.pi_gt_three
  rw [gt_iff_lt, not_lt, div_le_div_iff₀ (by positivity) (by norm_num)]
  linarith

theorem wrapped_activity_gt_half :
    (1 / (2 * Real.pi) : ℝ) * Real.exp 18446744073709551613 > 1 / 2 := by
  have h4 := Real.pi_le_four
  have h3 := Real.pi_pos
  have he := Real.add_one_le_exp (18446744073709551613 : ℝ)
  have h8 : (1 / 8 : ℝ) ≤ 1 / (2 * Real.pi) := by
    rw [div_le_div_iff₀ (by norm_num) (by positivity)]
    linarith
  have hpos : (0 : ℝ) ≤ Real.exp 18446744073709551613 := (Real.exp_pos _).le
  nlinarith

theorem pass_twoSeed_origin :
    lifecyclePassUnsigned (⟨Real.exp, Real.sqrt, Real.pi⟩ : Libm ℝ)
      (twoSeedTrack 0 0 [seedSlot, ⟨1, seedFar, 0, Status.hidden⟩] 0) eventOrigin =
      { datum := [⟨0, blobA, 1 / (2 * Real.pi), Status.hidden⟩, ⟨1, seedFar, 0, Status.hidden⟩]
        datumToAdd := []
        idOffset := 0
        notes := [] } := by
  have hp0 : (0 : ℝ) < 1 / (2 * Real.pi) := by
    have := Real.pi_pos
    positivity
  have hdecay := exponentialDecayUnsigned_same
    (twoSeedTrack 0 0 [seedSlot, ⟨1, seedFar, 0, Status.hidden⟩] 0) eventOrigin rfl rfl
  have hu : updates (twoSeedTrack 0 0 [seedSlot, ⟨1, seedFar, 0, Status.hidden⟩] 0 : TrackBlobs ℝ)
      (1 / (2 * Real.pi)) true = true := by
    simp only [updates, twoSeedTrack, Bool.true_and, decide_eq_true_eq]
    exact hp0
  have hn : updates (twoSeedTrack 0 0 [seedSlot, ⟨1, seedFar, 0, Status.hidden⟩] 0 : TrackBlobs ℝ)
      (1 / (2 * Real.pi)) false = false := rfl
  have hd0 : decayUpdate (twoSeedTrack 0 0 [seedSlot, ⟨1, seedFar, 0, Status.hidden⟩] 0
      : TrackBlobs ℝ) eventOrigin (1 / (2 * Real.pi)) 1 true seedSlot
      = ⟨0, blobA, 1 / (2 * Real.pi), Status.hidden⟩ := by
    rw [decayUpdate_of_updates _ _ _ _ _ _ hu]
    simp only [updateBlob, twoSeedTrack, eventOrigin, seedSlot, seedBlob, blobA]
    norm_num
  have ht0 := transition_hidden_stay
    (twoSeedTrack 0 0 [seedSlot, ⟨1, seedFar, 0, Status.hidden⟩] 0 : TrackBlobs ℝ) 0
    ⟨0, blobA, 1 / (2 * Real.pi), Status.hidden⟩ rfl density_origin_le_half
  have hd1 : decayUpdate (twoSeedTrack 0 0 [seedSlot, ⟨1, seedFar, 0, Status.hidden⟩] 0
      : TrackBlobs ℝ) eventOrigin (1 / (2 * Real.pi)) 1 false ⟨1, seedFar, 0, Status.hidden⟩
      = ⟨1, seedFar, 0, Status.hidden⟩ := by
    rw [decayUpdate_of_not_updates _ _ _ _ _ _ hn]
    simp
  have ht1 := transition_hidden_stay
    (twoSeedTrack 0 0 [seedSlot, ⟨1, seedFar, 0, Status.hidden⟩] 0 : TrackBlobs ℝ) 0
    ⟨1, seedFar, 0, Status.hidden⟩ rfl (by simp [twoSeedTrack])
  unfold lifecyclePassUnsigned
  rw [show (twoSeedTrack 0 0 [seedSlot, ⟨1, seedFar, 0, Status.hidden⟩] 0 : TrackBlobs ℝ).datum
    = [seedSlot, ⟨1, seedFar, 0, Status.hidden⟩] from rfl, associate_twoSeed_origin, hdecay]
  simp only [lifecycleLoop, decide_True, hd0, ht0, Option.isSome_some, if_true, Nat.zero_add,
    Nat.reduceEqDiff, decide_False, hd1, ht1, updateNotes, hu, hn,
    show (twoSeedTrack 0 0 [seedSlot, ⟨1, seedFar, 0, Status.hidden⟩] 0 : TrackBlobs ℝ).idOffset
      = 0 from rfl]
  simp [ht1]

/-- The second pass, over the reals.  The winning seed gets the activity
`0 * exp(2^64 - 3) + 1/(2π)` of lines 114 and 116, which in the field is
`1/(2π)`; in `double` the factor is `inf` and the activity NaN.  Either way
the seed stays hidden, and the other seed spawns. -/
theorem pass_twoSeed_onFar :
    lifecyclePassUnsigned (⟨Real.exp, Real.sqrt, Real.pi⟩ : Libm ℝ)
      (twoSeedTrack 1 0 [⟨0, blobA, 1 / (2 * Real.pi), Status.hidden⟩,
        ⟨1, seedFar, 0, Status.hidden⟩] 0) eventOnFar =
      { datum := [seedSlot,
          ⟨1, blobFarUpdated, 0 * Real.exp 18446744073709551613 + 1 / (2 * Real.pi),
            Status.hidden⟩]
        datumToAdd := [⟨0, blobA, 1 / (2 * Real.pi) * Real.exp 18446744073709551613,
          Status.promoted⟩]
        idOffset := 1
        notes := [Notification.promoted 0 blobA] } := by
  have hp0 : (0 : ℝ) < 1 / (2 * Real.pi) := by
    have := Real.pi_pos
    positivity
  have hdecay := exponentialDecayUnsigned_three
    (twoSeedTrack 1 0 [⟨0, blobA, 1 / (2 * Real.pi), Status.hidden⟩,
      ⟨1, seedFar, 0, Status.hidden⟩] 0) eventOnFar rfl rfl rfl
  have hu : updates (twoSeedTrack 1 0 [⟨0, blobA, 1 / (2 * Real.pi), Status.hidden⟩,
      ⟨1, seedFar, 0, Status.hidden⟩] 0 : TrackBlobs ℝ) (1 / (2 * Real.pi)) true = true := by
    simp only [updates, twoSeedTrack, Bool.true_and, decide_eq_true_eq]
    exact hp0
  have hn : updates (twoSeedTrack 1 0 [⟨0, blobA, 1 / (2 * Real.pi), Status.hidden⟩,
      ⟨1, seedFar, 0, Status.hidden⟩] 0 : TrackBlobs ℝ) (1 / (2 * Real.pi)) false = false := rfl
  have hd0 : decayUpdate (twoSeedTrack 1 0 [⟨0, blobA, 1 / (2 * Real.pi), Status.hidden⟩,
      ⟨1, seedFar, 0, Status.hidden⟩] 0 : TrackBlobs ℝ) eventOnFar (1 / (2 * Real.pi))
      (Real.exp 18446744073709551613) false ⟨0, blobA, 1 / (2 * Real.pi), Status.hidden⟩
      = ⟨0, blobA, 1 / (2 * Real.pi) * Real.exp 18446744073709551613, Status.hidden⟩ := by
    rw [decayUpdate_of_not_updates _ _ _ _ _ _ hn]
  have ht0 := transition_hidden_promote
    (twoSeedTrack 1 0 [⟨0, blobA, 1 / (2 * Real.pi), Status.hidden⟩,
      ⟨1, seedFar, 0, Status.hidden⟩] 0 : TrackBlobs ℝ) 0
    ⟨0, blobA, 1 / (2 * Real.pi) * Real.exp 18446744073709551613, Status.hidden⟩ rfl
    wrapped_activity_gt_half
  have hd1 : decayUpdate (twoSeedTrack 1 0 [⟨0, blobA, 1 / (2 * Real.pi), Status.hidden⟩,
      ⟨1, seedFar, 0, Status.hidden⟩] 0 : TrackBlobs ℝ) eventOnFar (1 / (2 * Real.pi))
      (Real.exp 18446744073709551613) true ⟨1, seedFar, 0, Status.hidden⟩
      = ⟨1, blobFarUpdated, 0 * Real.exp 18446744073709551613 + 1 / (2 * Real.pi),
          Status.hidden⟩ := by
    rw [decayUpdate_of_updates _ _ _ _ _ _ hu]
    simp only [updateBlob, twoSeedTrack, eventOnFar, seedFar, blobFarUpdated]
    norm_num
  have ht1 := transition_hidden_stay
    (twoSeedTrack 1 0 [⟨0, blobA, 1 / (2 * Real.pi), Status.hidden⟩,
      ⟨1, seedFar, 0, Status.hidden⟩] 0 : TrackBlobs ℝ) 1
    ⟨1, blobFarUpdated, 0 * Real.exp 18446744073709551613 + 1 / (2 * Real.pi), Status.hidden⟩ rfl
    (by
      show ¬ (0 * Real.exp 18446744073709551613 + 1 / (2 * Real.pi) : ℝ) > 1 / 2
      rw [zero_mul, zero_add]
      exact density_origin_le_half)
  unfold lifecyclePassUnsigned
  rw [show (twoSeedTrack 1 0 [⟨0, blobA, 1 / (2 * Real.pi), Status.hidden⟩,
      ⟨1, seedFar, 0, Status.hidden⟩] 0 : TrackBlobs ℝ).datum
    = [⟨0, blobA, 1 / (2 * Real.pi), Status.hidden⟩, ⟨1, seedFar, 0, Status.hidden⟩] from rfl,
    associate_twoSeed_onFar, hdecay]
  simp only [lifecycleLoop, hd0, ht0, Option.isSome_some, if_true, Nat.zero_add,
    Nat.reduceEqDiff, decide_False, decide_True, hd1, ht1, updateNotes, hu, hn, sizeMax,
    Nat.reducePow, Nat.reduceMod, Nat.reduceAdd,
    show (twoSeedTrack 1 0 [⟨0, blobA, 1 / (2 * Real.pi), Status.hidden⟩,
      ⟨1, seedFar, 0, Status.hidden⟩] 0 : TrackBlobs ℝ).idOffset = 0 from rfl]
  simp [ht1, seedSlot, seedBlob, twoSeedTrack]

/-! ## The claims that line 111 breaks for unsigned timestamps -/

theorem wrapped_eq : (18446744073709551613 : ℝ) = 2 ^ 64 - 3 := by norm_num

theorem processUnsigned_twoSeed_origin :
    processUnsigned (⟨Real.exp, Real.sqrt, Real.pi⟩ : Libm ℝ)
      (twoSeedTrack 0 0 [seedSlot, ⟨1, seedFar, 0, Status.hidden⟩] 0) eventOrigin =
      (twoSeedTrack 1 0 [⟨0, blobA, 1 / (2 * Real.pi), Status.hidden⟩,
          ⟨1, seedFar, 0, Status.hidden⟩] 0, []) := by
  rw [processUnsigned_twoSeedTrack _ _ _ _ _ _ (by omega), pass_twoSeed_origin]
  rfl

theorem processUnsigned_twoSeed_onFar :
    processUnsigned (⟨Real.exp, Real.sqrt, Real.pi⟩ : Libm ℝ)
      (twoSeedTrack 1 0 [⟨0, blobA, 1 / (2 * Real.pi), Status.hidden⟩,
          ⟨1, seedFar, 0, Status.hidden⟩] 0) eventOnFar =
      (twoSeedTrack 2 3 [seedSlot,
          ⟨1, blobFarUpdated, 0 * Real.exp (2 ^ 64 - 3) + 1 / (2 * Real.pi), Status.hidden⟩,
          ⟨0, blobA, 1 / (2 * Real.pi) * Real.exp (2 ^ 64 - 3), Status.promoted⟩] 1,
        [Notification.promoted 0 blobA]) := by
  rw [processUnsigned_twoSeedTrack _ _ _ _ _ _ (by omega), pass_twoSeed_onFar, wrapped_eq]
  rfl

theorem run_twoSeed_origin :
    (runUnsigned (⟨Real.exp, Real.sqrt, Real.pi⟩ : Libm ℝ) twoSeedEngine [eventOrigin]).1
      = twoSeedTrack 1 0 [⟨0, blobA, 1 / (2 * Real.pi), Status.hidden⟩,
          ⟨1, seedFar, 0, Status.hidden⟩] 0 := by
  rw [twoSeedEngine_eq]
  simp only [runUnsigned, processUnsigned_twoSeed_origin]

theorem run_twoSeed_onFar :
    runUnsigned (⟨Real.exp, Real.sqrt, Real.pi⟩ : Libm ℝ) twoSeedEngine
        [eventOrigin, eventOnFar]
      = (twoSeedTrack 2 3 [seedSlot,
          ⟨1, blobFarUpdated, 0 * Real.exp (2 ^ 64 - 3) + 1 / (2 * Real.pi), Status.hidden⟩,
          ⟨0, blobA, 1 / (2 * Real.pi) * Real.exp (2 ^ 64 - 3), Status.promoted⟩] 1,
        [Notification.promoted 0 blobA]) := by
  rw [twoSeedEngine_eq]
  simp only [runUnsigned, processUnsigned_twoSeed_origin, processUnsigned_twoSeed_onFar]
  rfl

/-- C27, at the failing input: the engine `twoSeedEngine` (two seeds fifty
pixels apart, `activityDecay = 1`, `promotionActivity = 1/2`) is fed the
in-order events `eventOrigin` (timestamp 0) and `eventOnFar` (timestamp 3) of
an `Event` type with a `uint_fast64_t` timestamp.  After the first call the
seed at the origin is hidden with activity `1/(2π)`, below the threshold.  In
the second call the association selects the other seed (position 1); line 111
negates the unsigned difference 3 and computes the factor `exp(2^64 - 3)`; the
seed at position 0, which did not win, is multiplied by it, exceeds
`promotionActivity` and spawns the one new entry of the call. -/
theorem spawn_from_seed_that_lost :
    (runUnsigned (⟨Real.exp, Real.sqrt, Real.pi⟩ : Libm ℝ) twoSeedEngine [eventOrigin]).1
      = twoSeedTrack 1 0 [⟨0, blobA, 1 / (2 * Real.pi), Status.hidden⟩,
          ⟨1, seedFar, 0, Status.hidden⟩] 0 ∧
    (associate (⟨Real.exp, Real.sqrt, Real.pi⟩ : Libm ℝ) eventOnFar
      (runUnsigned (⟨Real.exp, Real.sqrt, Real.pi⟩ : Libm ℝ) twoSeedEngine
        [eventOrigin]).1.datum).2 = 1 ∧
    (lifecyclePassUnsigned (⟨Real.exp, Real.sqrt, Real.pi⟩ : Libm ℝ)
      (runUnsigned (⟨Real.exp, Real.sqrt, Real.pi⟩ : Libm ℝ) twoSeedEngine [eventOrigin]).1
      eventOnFar).datumToAdd
      = [⟨0, blobA, 1 / (2 * Real.pi) * Real.exp (2 ^ 64 - 3), Status.promoted⟩] ∧
    (runUnsigned (⟨Real.exp, Real.sqrt, Real.pi⟩ : Libm ℝ) twoSeedEngine
      [eventOrigin, eventOnFar]).2 = [Notification.promoted 0 blobA] := by
  rw [run_twoSeed_origin, run_twoSeed_onFar, pass_twoSeed_onFar, wrapped_eq]
  refine ⟨rfl, ?_, rfl, rfl⟩
  rw [show (twoSeedTrack 1 0 [⟨0, blobA, 1 / (2 * Real.pi), Status.hidden⟩,
      ⟨1, seedFar, 0, Status.hidden⟩] 0 : TrackBlobs ℝ).datum
    = [⟨0, blobA, 1 / (2 * Real.pi), Status.hidden⟩, ⟨1, seedFar, 0, Status.hidden⟩] from rfl,
    associate_twoSeed_onFar]

/-- The body of the inner loop adds to the slot of each entry of the pair the
repulsion term of that entry by the other one, with the share of the computed
squares. -/
theorem repulsePairWith_eq (sq : α → α) (m : Libm α) (s : TrackBlobs α) (i j : Nat)
    (a b : Data α) (ds : Deltas α) :
    repulsePairWith sq m s i j a b ds =
      { x := addAt (addAt ds.x i (repulsionTermWith sq m s a b).1) j
          (repulsionTermWith sq m s b a).1
        y := addAt (addAt ds.y i (repulsionTermWith sq m s a b).2) j
          (repulsionTermWith sq m s b a).2 } := by
  have hdist : m.sqrt ((b.blob.x - a.blob.x) ^ 2 + (b.blob.y - a.blob.y) ^ 2)
      = m.sqrt ((a.blob.x - b.blob.x) ^ 2 + (a.blob.y - b.blob.y) ^ 2) := by
    congr 1
    ring
  have hba : shareWith sq b a = (if sq a.activity + sq b.activity = 0 then 0
      else sq a.activity / (sq a.activity + sq b.activity)) := by
    unfold shareWith
    rw [add_comm (sq b.activity)]
  unfold repulsePairWith repulsionTermWith hypot
  simp only [hdist, hba]
  unfold shareWith
  have hneg : ∀ c u v : α, -(c * (u - v)) = c * (v - u) := fun c u v => by ring
  simp only [hneg]

/-- The inner loop for the entry `a` at position `i` over the entries `rest`
standing from position `j` on. -/
theorem repulseInnerWith_getD (sq : α → α) (m : Libm α) (s : TrackBlobs α) (i : Nat)
    (a : Data α) (n : Nat) (hi : i < n) (rest : List (Data α)) : ∀ (j : Nat) (ds : Deltas α),
    ds.x.length = n → ds.y.length = n → j + rest.length ≤ n →
    (repulseInnerWith sq m s i a j rest ds).x.length = n ∧
    (repulseInnerWith sq m s i a j rest ds).y.length = n ∧
    ∀ p, (repulseInnerWith sq m s i a j rest ds).x.getD p 0 = ds.x.getD p 0
        + (if p = i then (rest.map (fun o => (repulsionTermWith sq m s a o).1)).sum else 0)
        + (if j ≤ p then (rest[p - j]?).elim 0 (fun o => (repulsionTermWith sq m s o a).1)
          else 0) ∧
      (repulseInnerWith sq m s i a j rest ds).y.getD p 0 = ds.y.getD p 0
        + (if p = i then (rest.map (fun o => (repulsionTermWith sq m s a o).2)).sum else 0)
        + (if j ≤ p then (rest[p - j]?).elim 0 (fun o => (repulsionTermWith sq m s o a).2)
          else 0) := by
  induction rest with
  | nil =>
    intro j ds hx hy _
    simp [repulseInnerWith, hx, hy]
  | cons b rest ih =>
    intro j ds hx hy hj
    simp only [List.length_cons] at hj
    have hjn : j < n := by omega
    unfold repulseInnerWith
    rw [repulsePairWith_eq]
    obtain ⟨h1, h2, h3⟩ := ih (j + 1)
      { x := addAt (addAt ds.x i (repulsionTermWith sq m s a b).1) j
          (repulsionTermWith sq m s b a).1
        y := addAt (addAt ds.y i (repulsionTermWith sq m s a b).2) j
          (repulsionTermWith sq m s b a).2 }
      (by simp [addAt_length, hx]) (by simp [addAt_length, hy]) (by omega)
    refine ⟨h1, h2, ?_⟩
    intro p
    obtain ⟨hpx, hpy⟩ := h3 p
    rw [hpx, hpy]
    simp only [addAt_addAt_getD ds.x i j _ _ p (by rw [hx]; exact hi) (by rw [hx]; exact hjn),
      addAt_addAt_getD ds.y i j _ _ p (by rw [hy]; exact hi) (by rw [hy]; exact hjn),
      List.map_cons, List.sum_cons]
    have hcase : (p = j ∧ (b :: rest)[p - j]? = some b) ∨
        (j + 1 ≤ p ∧ (b :: rest)[p - j]? = rest[p - (j + 1)]?) ∨ p < j := by
      rcases Nat.lt_trichotomy p j with h | h | h
      · exact Or.inr (Or.inr h)
      · subst h
        exact Or.inl ⟨rfl, by simp⟩
      · refine Or.inr (Or.inl ⟨h, ?_⟩)
        have e : p - j = (p - (j + 1)) + 1 := by omega
        rw [e, List.getElem?_cons_succ]
    rcases hcase with ⟨h, hb⟩ | ⟨h, hb⟩ | h
    · rw [hb]
      subst h
      simp only [le_refl, if_true, Option.elim, Nat.not_succ_le_self, if_false]
      constructor <;> split_ifs <;> ring
    · rw [hb]
      have hne : ¬ p = j := by omega
      have hle : j ≤ p := by omega
      simp only [if_neg hne, if_pos h, if_pos hle]
      constructor <;> split_ifs <;> ring
    · have hne : ¬ p = j := by omega
      have h1 : ¬ j + 1 ≤ p := by omega
      have h2 : ¬ j ≤ p := by omega
      simp only [if_neg hne, if_neg h1, if_neg h2]
      constructor <;> split_ifs <;> ring

/-- The outer loop from position `i` on, over the entries `l` standing there:
each of them gets the sum of its repulsion terms over the others of `l`. -/
theorem repulseOuterWith_getD (sq : α → α) (m : Libm α) (s : TrackBlobs α)
    (l : List (Data α)) : ∀ (i : Nat) (ds : Deltas α),
    ds.x.length = i + l.length → ds.y.length = i + l.length →
    ∀ p, (repulseOuterWith sq m s i l ds).x.getD p 0 = ds.x.getD p 0
        + (if i ≤ p then (l[p - i]?).elim 0
            (fun e => (repulsionDeltaWith sq m s l (p - i) e).1) else 0) ∧
      (repulseOuterWith sq m s i l ds).y.getD p 0 = ds.y.getD p 0
        + (if i ≤ p then (l[p - i]?).elim 0
            (fun e => (repulsionDeltaWith sq m s l (p - i) e).2) else 0) := by
  induction l with
  | nil =>
    intro i ds _ _ p
    simp [repulseOuterWith]
  | cons a rest ih =>
    intro i ds hx hy p
    simp only [List.length_cons] at hx hy
    obtain ⟨h1, h2, h3⟩ := repulseInnerWith_getD sq m s i a (i + (rest.length + 1)) (by omega)
      rest (i + 1) ds hx hy (by omega)
    obtain ⟨hpx, hpy⟩ := ih (i + 1) (repulseInnerWith sq m s i a (i + 1) rest ds)
      (by rw [h1]; omega) (by rw [h2]; omega) p
    obtain ⟨hqx, hqy⟩ := h3 p
    unfold repulseOuterWith
    rw [hpx, hpy, hqx, hqy]
    rcases Nat.lt_trichotomy p i with h | h | h
    · have hne : ¬ p = i := by omega
      have n1 : ¬ i + 1 ≤ p := by omega
      have n2 : ¬ i ≤ p := by omega
      simp only [if_neg hne, if_neg n1, if_neg n2, add_zero, and_self]
    · subst h
      simp only [if_true, Nat.not_succ_le_self, if_false, le_refl, Nat.sub_self,
        List.getElem?_cons_zero, Option.elim, repulsionDeltaWith, List.eraseIdx_cons_zero,
        add_zero, and_self]
    · have hne : ¬ p = i := by omega
      have hle : i + 1 ≤ p := h
      have hle2 : i ≤ p := by omega
      have e : p - i = (p - (i + 1)) + 1 := by omega
      simp only [if_neg hne, if_pos hle, if_pos hle2, add_zero]
      rw [e, List.getElem?_cons_succ]
      cases hr : rest[p - (i + 1)]? with
      | none => simp only [Option.elim, add_zero, and_self]
      | some e =>
        simp only [Option.elim, repulsionDeltaWith, List.eraseIdx_cons_succ, List.map_cons,
          List.sum_cons]
        constructor <;> ring

/-- With exact squares the loops are the loops of `correct`. -/
theorem repulsePairWith_sq (m : Libm α) (s : TrackBlobs α) (i j : Nat) (a b : Data α)
    (ds : Deltas α) :
    repulsePairWith (fun v => v ^ 2) m s i j a b ds = repulsePair m s i j a b ds := rfl

theorem repulseInnerWith_sq (m : Libm α) (s : TrackBlobs α) (i : Nat) (a : Data α)
    (rest : List (Data α)) : ∀ (j : Nat) (ds : Deltas α),
    repulseInnerWith (fun v => v ^ 2) m s i a j rest ds = repulseInner m s i a j rest ds := by
  induction rest with
  | nil => intro j ds; rfl
  | cons b rest ih =>
    intro j ds
    simp only [repulseInnerWith, repulseInner, repulsePairWith_sq, ih]

theorem repulseOuterWith_sq (m : Libm α) (s : TrackBlobs α) (l : List (Data α)) :
    ∀ (i : Nat) (ds : Deltas α),
    repulseOuterWith (fun v => v ^ 2) m s i l ds = repulseOuter m s i l ds := by
  induction l with
  | nil => intro i ds; rfl
  | cons a rest ih =>
    intro i ds
    simp only [repulseOuterWith, repulseOuter, repulseInnerWith_sq, ih]

/-- C14 (amended): for every entry `e` of the population, at position `p`, the
repulsion delta that the correction pass accumulates in `e`'s slot is the sum,
over every other entry `o`, of `repulsionStrength · exp(-dist(e, o) /
repulsionLength) · share(o) · (pos(e) - pos(o))`, where `share(o) = sq(o) /
(sq(e) + sq(o))` for the squares `sq` of the activities as `std::pow`
computes them, and `share(o) = 0` when `sq(e) + sq(o)` is 0; all positions and
activities are those at the start of the pass.  The function `sq` is
arbitrary: with exact squares the sum of the squares is 0 when both activities
are 0 and only then, in `double` it is also 0 for activities so small that
their squares underflow. -/
theorem repulsion_delta_sum_of_computed_squares (sq : α → α) (m : Libm α) (s : TrackBlobs α)
    (p : Nat) (e : Data α) (he : s.datum[p]? = some e) :
    (repulseOuterWith sq m s 0 s.datum
        ⟨List.replicate s.datum.length 0, List.replicate s.datum.length 0⟩).x.getD p 0
      = (repulsionDeltaWith sq m s s.datum p e).1 ∧
    (repulseOuterWith sq m s 0 s.datum
        ⟨List.replicate s.datum.length 0, List.replicate s.datum.length 0⟩).y.getD p 0
      = (repulsionDeltaWith sq m s s.datum p e).2 ∧
    repulseOuterWith (fun v => v ^ 2) m s 0 s.datum
        ⟨List.replicate s.datum.length 0, List.replicate s.datum.length 0⟩
      = repulseOuter m s 0 s.datum
        ⟨List.replicate s.datum.length 0, List.replicate s.datum.length 0⟩ := by
  obtain ⟨hx, hy⟩ := repulseOuterWith_getD sq m s s.datum 0
    ⟨List.replicate s.datum.length 0, List.replicate s.datum.length 0⟩
    (by simp) (by simp) p
  rw [hx, hy]
  simp only [Nat.zero_le, if_true, Nat.sub_zero, he, Option.elim]
  have hz : (List.replicate s.datum.length (0 : α)).getD p 0 = 0 := by
    simp only [List.getD_eq_getElem?_getD, List.getElem?_replicate]
    split_ifs <;> rfl
  rw [hz, zero_add, zero_add]
  exact ⟨rfl, rfl, repulseOuterWith_sq m s s.datum 0 _⟩

/-- C14 (amended), at an instance: the slot of the first of the two faded
seeds, with the squares that underflow. -/
theorem repulsion_delta_sum_of_computed_squares_witness :
    (twoSeedTrack 10 0 fadedSeeds 0 : TrackBlobs ℝ).datum[0]?
      = some ⟨0, seedBlob, 1 / 10 ^ 166, Status.hidden⟩ ∧
    (repulseOuterWith underflowingSquare (⟨Real.exp, Real.sqrt, Real.pi⟩ : Libm ℝ)
        (twoSeedTrack 10 0 fadedSeeds 0) 0 (twoSeedTrack 10 0 fadedSeeds 0 : TrackBlobs ℝ).datum
        ⟨List.replicate (twoSeedTrack 10 0 fadedSeeds 0 : TrackBlobs ℝ).datum.length 0,
          List.replicate (twoSeedTrack 10 0 fadedSeeds 0 : TrackBlobs ℝ).datum.length 0⟩).x.getD
        0 0
      = (repulsionDeltaWith underflowingSquare (⟨Real.exp, Real.sqrt, Real.pi⟩ : Libm ℝ)
          (twoSeedTrack 10 0 fadedSeeds 0)
          (twoSeedTrack 10 0 fadedSeeds 0 : TrackBlobs ℝ).datum 0
          ⟨0, seedBlob, 1 / 10 ^ 166, Status.hidden⟩).1 :=
  ⟨rfl, (repulsion_delta_sum_of_computed_squares underflowingSquare
    (⟨Real.exp, Real.sqrt, Real.pi⟩ : Libm ℝ) (twoSeedTrack 10 0 fadedSeeds 0) 0
    ⟨0, seedBlob, 1 / 10 ^ 166, Status.hidden⟩ rfl).1⟩

theorem underflowingSquare_faded : underflowingSquare (1 / 10 ^ 166 : ℝ) = 0 := by
  have h : |(1 / 10 ^ 166 : ℝ)| < 1 / 10 ^ 163 := by
    rw [abs_of_pos (by positivity)]
    rw [div_lt_div_iff₀ (by positivity) (by positivity)]
    norm_num
  simp only [underflowingSquare, if_pos h]

/-- C14, a counterexample: the two seeds of `twoSeedEngine`, fifty pixels
apart, both with the activity `1e-166` that some 380 decay constants of
silence leave.  Both activities are nonzero, and the share of the claim is
one half, so that the claim's sum for the first seed is a push of
`25 · exp(-50)` to the left.  In `double` both squares underflow to 0
(`underflowingSquare`), the test `activitySum == 0` holds, and the loop
leaves 0 in the slot of that seed. -/
theorem repulsion_share_underflows :
    (repulseOuterWith underflowingSquare (⟨Real.exp, Real.sqrt, Real.pi⟩ : Libm ℝ)
        (twoSeedTrack 10 0 fadedSeeds 0) 0 fadedSeeds
        ⟨List.replicate 2 0, List.replicate 2 0⟩).x.getD 0 0 = 0 ∧
    (repulsionDelta (⟨Real.exp, Real.sqrt, Real.pi⟩ : Libm ℝ) (twoSeedTrack 10 0 fadedSeeds 0)
        fadedSeeds 0 ⟨0, seedBlob, 1 / 10 ^ 166, Status.hidden⟩).1 = -(25 * Real.exp (-50)) ∧
    (repulseOuterWith underflowingSquare (⟨Real.exp, Real.sqrt, Real.pi⟩ : Libm ℝ)
        (twoSeedTrack 10 0 fadedSeeds 0) 0 fadedSeeds
        ⟨List.replicate 2 0, List.replicate 2 0⟩).x.getD 0 0
      ≠ (repulsionDelta (⟨Real.exp, Real.sqrt, Real.pi⟩ : Libm ℝ)
          (twoSeedTrack 10 0 fadedSeeds 0) fadedSeeds 0
          ⟨0, seedBlob, 1 / 10 ^ 166, Status.hidden⟩).1 := by
  have h1 : (repulseOuterWith underflowingSquare (⟨Real.exp, Real.sqrt, Real.pi⟩ : Libm ℝ)
      (twoSeedTrack 10 0 fadedSeeds 0) 0 fadedSeeds
      ⟨List.replicate 2 0, List.replicate 2 0⟩).x.getD 0 0 = 0 := by
    have hu : underflowingSquare ((10 ^ 166 : ℝ)⁻¹) = 0 := by
      rw [← one_div]
      exact underflowingSquare_faded
    simp [repulseOuterWith, repulseInnerWith, repulsePairWith, fadedSeeds, hu, addAt]
  have hs : Real.sqrt ((0 - 50 : ℝ) ^ 2 + (0 - 0) ^ 2) = 50 := by
    rw [show ((0 - 50 : ℝ) ^ 2 + (0 - 0) ^ 2) = 50 ^ 2 by norm_num]
    exact Real.sqrt_sq (by norm_num)
  have h2 : (repulsionDelta (⟨Real.exp, Real.sqrt, Real.pi⟩ : Libm ℝ)
      (twoSeedTrack 10 0 fadedSeeds 0) fadedSeeds 0
      ⟨0, seedBlob, 1 / 10 ^ 166, Status.hidden⟩).1 = -(25 * Real.exp (-50)) := by
    have hne : ¬ ((1 / 10 ^ 166 : ℝ) = 0 ∧ (1 / 10 ^ 166 : ℝ) = 0) := by
      rintro ⟨h, _⟩
      norm_num at h
    have hshare : ((1 / 10 ^ 166 : ℝ) ^ 2 / ((1 / 10 ^ 166) ^ 2 + (1 / 10 ^ 166) ^ 2)) = 1 / 2 := by
      field_simp
      ring
    simp only [repulsionDelta, fadedSeeds, List.eraseIdx_cons_zero, List.map_cons, List.map_nil,
      List.sum_cons, List.sum_nil, repulsionTerm, share, seedBlob, seedFar, twoSeedTrack, hs,
      if_neg hne, hshare]
    norm_num
    ring
  refine ⟨h1, h2, ?_⟩
  rw [h1, h2]
  have := Real.exp_pos (-50)
  linarith

end tarsier
